import Mathlib

/-!
# The Calcite adapter of mapd-core: relational-algebra document to physical plan

A shallow embedding of `QueryEngine/CalciteAdapter.cpp` and theorems about it.

Conventions of the embedding.

* The document handed to `translate_query` is taken after `rapidjson` has parsed
  it: a `Json` value. Parsing the text is outside the embedding.
* Every function that can abort returns a `Res`. A failed glog `CHECK` is
  `Res.fatal`. Reading a `rapidjson` value through an accessor whose
  precondition is only a `RAPIDJSON_ASSERT` (a missing member, `GetInt` on a
  value that is not an int, an index past the end of an array) and indexing a
  `std::vector` out of range are `Res.undefined`: the source has no `CHECK` there.
* Where C++ leaves the order of evaluation of two arguments open, the
  embedding evaluates left to right.
* The mutable member `used_columns_` of the class `CalciteAdapter` is passed
  explicitly: a member function that inserts into it takes the old set and
  returns the new one. `std::set<int>` is an ascending list without
  duplicates.
* `Parser::OperExpr::normalize` lives outside this file of the repository; it is
  a parameter `normalize` of everything that calls it.
-/

namespace Calcite

/-! ## Outcomes -/

/-- Outcome of a call: a value, a failed `CHECK` (the process aborts), or
behaviour that neither the source nor `rapidjson` defines. -/
inductive Res (α : Type) where
  | ok (a : α) : Res α
  | fatal : Res α
  | undefined : Res α
deriving Repr

/-- Sequencing of two calls: the first failure ends the run. -/
def Res.bind {α β : Type} : Res α → (α → Res β) → Res β
  | .ok a, f => f a
  | .fatal, _ => .fatal
  | .undefined, _ => .undefined

instance : Monad Res where
  pure := Res.ok
  bind := Res.bind

/-- Whether a call returned a value. -/
def Res.isOk {α : Type} : Res α → Bool
  | .ok _ => true
  | _ => false

/-- The glog macro `CHECK(cond)`. -/
def CHECK (cond : Bool) : Res Unit :=
  if cond then .ok () else .fatal

/-! ## The rapidjson document -/

/-- A parsed `rapidjson::Value`. A number written without fraction or exponent
is `int`; every other number is `dbl` and keeps its text. The members of an
object keep their order and may repeat a name. -/
inductive Json where
  | null : Json
  | bool (b : Bool) : Json
  | int (i : Int) : Json
  | dbl (text : String) : Json
  | str (s : String) : Json
  | arr (xs : List Json) : Json
  | obj (ms : List (String × Json)) : Json
deriving Repr

/-- The accessor `Value::IsObject`. -/
def Json.IsObject : Json → Bool
  | .obj _ => true
  | _ => false

/-- The accessor `Value::IsArray`. -/
def Json.IsArray : Json → Bool
  | .arr _ => true
  | _ => false

/-- The accessor `Value::IsString`. -/
def Json.IsString : Json → Bool
  | .str _ => true
  | _ => false

/-- The accessor `Value::IsInt`: an integer that fits a 32-bit signed `int`. -/
def Json.IsInt : Json → Bool
  | .int i => decide (-2147483648 ≤ i ∧ i ≤ 2147483647)
  | _ => false

/-- The member search `Value::FindMember`: the first member of that name. -/
def FindMember : List (String × Json) → String → Option Json
  | [], _ => none
  | (k, v) :: ms, name => if k = name then some v else FindMember ms name

/-- The accessor `Value::HasMember`. The source calls it on objects only. -/
def Json.HasMember (j : Json) (name : String) : Bool :=
  match j with
  | .obj ms => (FindMember ms name).isSome
  | _ => false

/-- The accessor `Value::operator[](const char*)`: undefined on a value that is
not an object and on a missing member. -/
def Json.get (j : Json) (name : String) : Res Json :=
  match j with
  | .obj ms =>
    match FindMember ms name with
    | some v => .ok v
    | none => .undefined
  | _ => .undefined

/-- The accessor `Value::operator[](SizeType)`: undefined on a value that is
not an array and past the end. -/
def Json.index (j : Json) (i : Nat) : Res Json :=
  match j with
  | .arr xs =>
    match xs[i]? with
    | some v => .ok v
    | none => .undefined
  | _ => .undefined

/-- The elements of an array, as `Begin()` .. `End()` walk them; undefined on a
value that is not an array. -/
def Json.elements : Json → Res (List Json)
  | .arr xs => .ok xs
  | _ => .undefined

/-- The accessor `Value::Size`. -/
def Json.Size (j : Json) : Res Nat :=
  j.elements.bind fun xs => .ok xs.length

/-- The C string a `const char*` points to: the text before the first
character U+0000. -/
def c_str (s : String) : String :=
  String.mk (s.data.takeWhile (fun c => decide (c ≠ Char.ofNat 0)))

/-- The accessor `Value::GetString`. It returns a `const char*`, and every call
site in the adapter builds a `std::string` from it or compares it with one, so
the text that is read ends before the first character U+0000 of the value. -/
def Json.GetString : Json → Res String
  | .str s => .ok (c_str s)
  | _ => .undefined

/-- The accessor `Value::GetBool`. -/
def Json.GetBool : Json → Res Bool
  | .bool b => .ok b
  | _ => .undefined

/-- The accessor `Value::GetInt`: defined on `IsInt` values only. -/
def Json.GetInt (j : Json) : Res Int :=
  match j with
  | .int i => if j.IsInt then .ok i else .undefined
  | _ => .undefined

/-- The accessor `Value::GetInt64`: defined on integers that fit 64 bits. -/
def Json.GetInt64 : Json → Res Int
  | .int i => if -9223372036854775808 ≤ i ∧ i ≤ 9223372036854775807 then .ok i else .undefined
  | _ => .undefined

/-! ## Codes, types, expressions, plans -/

/-- The operator codes of `Shared/sqldefs.h` that the adapter names. -/
inductive SQLOps where
  | kEQ | kNE | kLT | kGT | kLE | kGE | kAND | kOR
  | kMINUS | kPLUS | kMULTIPLY | kDIVIDE | kMODULO | kCAST
deriving DecidableEq, Repr

/-- The aggregate kinds of `Shared/sqldefs.h`. -/
inductive SQLAgg where
  | kCOUNT | kMIN | kMAX | kSUM
deriving DecidableEq, Repr

/-- The qualifier the adapter passes to `normalize`. -/
inductive SQLQualifier where
  | kONE
deriving DecidableEq, Repr

/-- The statement kind the adapter gives the root plan. -/
inductive SQLStmtType where
  | kSELECT
deriving DecidableEq, Repr

/-- The type codes of `Shared/sqltypes.h` that the adapter names. -/
inductive SQLTypes where
  | kNULLT | kBIGINT | kINT | kSMALLINT
deriving DecidableEq, Repr

/-- The two-argument constructor `SQLTypeInfo(type, flag)`: the adapter passes a
type code and the boolean it read from the member `nullable`. -/
structure SQLTypeInfo where
  type : SQLTypes
  flag : Bool
deriving DecidableEq, Repr

/-- The expression nodes the adapter builds, with the constructor arguments the
source passes: `ColumnVar(type, table id, column id, 0)`,
`UOper(type, false, kCAST, operand)`, `AggExpr(type, kind, argument or
nullptr, distinct)`. `Constant` is what literal construction returns and
`BinOper` is a binary application for `normalize` to build. -/
inductive Expr where
  | Constant (v : Int) : Expr
  | ColumnVar (ti : SQLTypeInfo) (table_id : Int) (column_id : Int) (rte_idx : Nat) : Expr
  | UOper (ti : SQLTypeInfo) (contains_agg : Bool) (optype : SQLOps) (operand : Expr) : Expr
  | BinOper (optype : SQLOps) (qualifier : SQLQualifier) (left right : Expr) : Expr
  | AggExpr (ti : SQLTypeInfo) (aggtype : SQLAgg) (arg : Option Expr) (is_distinct : Bool) : Expr
deriving Repr

/-- The test `std::dynamic_pointer_cast<const Analyzer::Constant>(e)`. -/
def Expr.isConstant : Expr → Bool
  | .Constant _ => true
  | _ => false

/-- Modelled from the spec: `Expr::deep_copy` is declared outside this file; the
spec asks for an independent copy of the whole expression tree. The copy is
built node by node. -/
def Expr.deep_copy : Expr → Expr
  | .Constant v => .Constant v
  | .ColumnVar ti t c r => .ColumnVar ti t c r
  | .UOper ti ca op x => .UOper ti ca op x.deep_copy
  | .BinOper op q l r => .BinOper op q l.deep_copy r.deep_copy
  | .AggExpr ti k none d => .AggExpr ti k none d
  | .AggExpr ti k (some a) d => .AggExpr ti k (some a.deep_copy) d

/-- Modelled from the spec: `Parser::IntLiteral::analyzeValue` is declared
outside this file; the spec has it build `Literal(int64)` from the raw
integer. -/
def analyzeValue (intval : Int) : Expr :=
  .Constant intval

/-- The class `Analyzer::TargetEntry(resname, expr, unnest)`. -/
structure TargetEntry where
  resname : String
  expr : Expr
  unnest : Bool
deriving Repr

/-- The accessor `TargetEntry::get_own_expr`. -/
def TargetEntry.get_own_expr (te : TargetEntry) : Expr := te.expr

/-- The accessor `TargetEntry::get_expr`. -/
def TargetEntry.get_expr (te : TargetEntry) : Expr := te.expr

/-- The part of a table descriptor the adapter reads. -/
structure TableDescriptor where
  tableId : Int
deriving DecidableEq, Repr

/-- The part of a column descriptor the adapter reads. -/
structure ColumnDescriptor where
  columnId : Int
  columnType : SQLTypeInfo
deriving DecidableEq, Repr

/-- The two catalog lookups the adapter calls; `none` is the null pointer. -/
structure Catalog where
  getMetadataForTable : String → Option TableDescriptor
  getMetadataForColumn : Int → String → Option ColumnDescriptor

/-- The plan node `Planner::Scan(targets, quals, cost, child, simple quals,
table id, column list)`; the cost `0.` and the null child are left out. -/
structure Scan where
  targetlist : List TargetEntry
  quals : List Expr
  simple_quals : List Expr
  table_id : Int
  col_list : List Int
deriving Repr

/-- The plan node `Planner::AggPlan(targets, cost, child, group-by list)`. -/
structure AggPlan where
  targetlist : List TargetEntry
  child : Scan
  groupby_list : List Expr
deriving Repr

/-- The plan node `Planner::RootPlan(plan, statement kind, table id, column
list, catalog, limit, offset)`; the catalog reference is left out. -/
structure RootPlan where
  plan : AggPlan
  stmt_type : SQLStmtType
  result_table_id : Int
  result_col_list : List Int
  limit : Nat
  offset : Nat
deriving Repr

/-! ## Vocabulary -/

/-- Source lines 15-60. -/
def to_sql_op (op_str : String) : Res SQLOps :=
  if op_str = ">" then .ok .kGT
  else if op_str = ">=" then .ok .kGE
  else if op_str = "<" then .ok .kLT
  else if op_str = "<=" then .ok .kLE
  else if op_str = "=" then .ok .kEQ
  else if op_str = "<>" then .ok .kNE
  else if op_str = "+" then .ok .kPLUS
  else if op_str = "-" then .ok .kMINUS
  else if op_str = "*" then .ok .kMULTIPLY
  else if op_str = "/" then .ok .kDIVIDE
  else if op_str = "MOD" then .ok .kMODULO
  else if op_str = "AND" then .ok .kAND
  else if op_str = "OR" then .ok .kOR
  else if op_str = "CAST" then .ok .kCAST
  else .fatal

/-- Source lines 62-77. -/
def to_agg_kind (agg_name : String) : Res SQLAgg :=
  if agg_name = "COUNT" then .ok .kCOUNT
  else if agg_name = "MIN" then .ok .kMIN
  else if agg_name = "MAX" then .ok .kMAX
  else if agg_name = "SUM" then .ok .kSUM
  else .fatal

/-- Source lines 79-91. -/
def to_sql_type (type_name : String) : Res SQLTypes :=
  if type_name = "BIGINT" then .ok .kBIGINT
  else if type_name = "INTEGER" then .ok .kINT
  else if type_name = "SMALLINT" then .ok .kSMALLINT
  else .fatal

/-- Source lines 93-102; the result is an `ssize_t`. -/
def get_agg_operand_idx (expr : Json) : Res Int := do
  CHECK expr.IsObject
  if !expr.HasMember "agg" then
    return -1
  let agg_operands ← expr.get "operands"
  CHECK agg_operands.IsArray
  let size ← agg_operands.Size
  CHECK (decide (size ≤ 1))
  if size = 0 then
    return -1
  else
    (← agg_operands.index 0).GetInt

/-! ## The expression translator -/

/-- The constant members of the class `CalciteAdapter`. -/
structure CalciteAdapter where
  cat_ : Catalog
  col_names_ : List String

/-- The member function `std::set<int>::insert` on an ascending list. -/
def set_insert (x : Int) : List Int → List Int
  | [] => [x]
  | y :: ys => if x < y then x :: y :: ys else if x = y then y :: ys else y :: set_insert x ys

/-- The conversion of an `int` to `size_t` (64 bits). -/
def to_size_t (i : Int) : Nat :=
  (i % 18446744073709551616).toNat

/-- Source lines 149-159. Returns the expression and the new `used_columns_`. -/
def translateColRef (self : CalciteAdapter) (expr : Json) (td : TableDescriptor)
    (used_columns_ : List Int) : Res (Expr × List Int) := do
  let col_name_idx ← (← expr.get "input").GetInt
  CHECK (decide (col_name_idx ≥ 0))
  CHECK (decide (to_size_t col_name_idx < self.col_names_.length))
  match self.col_names_[to_size_t col_name_idx]? with
  | none => .undefined
  | some col_name =>
    match self.cat_.getMetadataForColumn td.tableId col_name with
    | none => .fatal
    | some cd =>
      .ok (Expr.ColumnVar cd.columnType td.tableId cd.columnId 0, set_insert cd.columnId used_columns_)

/-- The type descriptor read at source lines 136-137 and 165-167:
`SQLTypeInfo(to_sql_type(t["type"].GetString()), t["nullable"].GetBool())`. -/
def read_type_info (expr_type : Json) : Res SQLTypeInfo := do
  let type_name ← (← expr_type.get "type").GetString
  let t ← to_sql_type type_name
  let nullable ← (← expr_type.get "nullable").GetBool
  return ⟨t, nullable⟩

/-- Source lines 161-178. It does not touch `used_columns_` and does not read
`td`. -/
def translateAggregate (expr : Json) (_td : TableDescriptor)
    (scan_targets : List TargetEntry) : Res Expr := do
  CHECK (expr.IsObject && expr.HasMember "type")
  let expr_type ← expr.get "type"
  CHECK expr_type.IsObject
  let agg_ti ← read_type_info expr_type
  let operand ← get_agg_operand_idx expr
  let agg_kind ← to_agg_kind (← (← expr.get "agg").GetString)
  let is_distinct ← (← expr.get "distinct").GetBool
  let takes_arg : Bool := decide (agg_kind ≠ SQLAgg.kCOUNT) || is_distinct
  if takes_arg then
    CHECK (decide (operand ≥ 0))
    CHECK (decide (operand < (scan_targets.length : Int)))
    match scan_targets[operand.toNat]? with
    | none => .undefined
    | some te => .ok (Expr.AggExpr agg_ti agg_kind (some te.get_own_expr) is_distinct)
  else
    .ok (Expr.AggExpr agg_ti agg_kind none is_distinct)

/-- Source lines 180-182. -/
def translateIntLiteral (expr : Json) : Res Expr := do
  return analyzeValue (← expr.GetInt64)

/-- A member reached through `operator[]` is smaller than the object. -/
theorem FindMember_sizeOf {ms : List (String × Json)} {name : String} {v : Json}
    (h : FindMember ms name = some v) : sizeOf v < sizeOf ms := by
  induction ms with
  | nil => simp [FindMember] at h
  | cons kv ms ih =>
    obtain ⟨k, w⟩ := kv
    simp only [FindMember] at h
    split at h
    · cases h; simp; omega
    · have := ih h; simp; omega

/-- A member reached through `Json.get` is smaller than the value. -/
theorem Json.get_sizeOf {j : Json} {name : String} {v : Json}
    (h : j.get name = .ok v) : sizeOf v < sizeOf j := by
  cases j <;> simp [Json.get] at h
  rename_i ms
  cases hm : FindMember ms name with
  | none => simp [hm] at h
  | some w =>
    simp [hm] at h
    subst h
    have := FindMember_sizeOf hm
    simp; omega

section Translator

variable (normalize : SQLOps → SQLQualifier → Expr → Expr → Expr)

set_option linter.unusedVariables false in
mutual

/-- Source lines 109-126. -/
def getExprFromNode (self : CalciteAdapter) (expr : Json) (td : TableDescriptor)
    (scan_targets : List TargetEntry) (used_columns_ : List Int) : Res (Expr × List Int) :=
  if expr.IsObject && expr.HasMember "op" then
    translateOp self expr td used_columns_
  else if expr.IsObject && expr.HasMember "input" then
    translateColRef self expr td used_columns_
  else if expr.IsObject && expr.HasMember "agg" then
    (translateAggregate expr td scan_targets).bind fun e => .ok (e, used_columns_)
  else if expr.IsInt then
    (translateIntLiteral expr).bind fun e => .ok (e, used_columns_)
  else
    .fatal
termination_by (sizeOf expr, 1)
decreasing_by
  exact Prod.Lex.right _ (by decide)

/-- Source lines 128-147. -/
def translateOp (self : CalciteAdapter) (expr : Json) (td : TableDescriptor)
    (used_columns_ : List Int) : Res (Expr × List Int) :=
  (expr.get "op").bind fun op_node =>
  op_node.GetString.bind fun op_str =>
  match h : expr.get "operands" with
  | .fatal => .fatal
  | .undefined => .undefined
  | .ok (.arr [operand0]) =>
    (to_sql_op op_str).bind fun op =>
    (CHECK (decide (SQLOps.kCAST = op))).bind fun _ =>
    (getExprFromNode self operand0 td [] used_columns_).bind fun r =>
    (expr.get "type").bind fun expr_type =>
    (read_type_info expr_type).bind fun target_ti =>
    .ok (Expr.UOper target_ti false SQLOps.kCAST r.1, r.2)
  | .ok (.arr []) => .fatal
  | .ok (.arr (operand0 :: operand1 :: rest)) =>
    (getExprFromNode self operand0 td [] used_columns_).bind fun r =>
    translateOp_loop self op_str td (operand1 :: rest) r.1 r.2
  | .ok _ => .fatal
termination_by (sizeOf expr, 0)
decreasing_by
  all_goals simp_wf
  all_goals have hs := Json.get_sizeOf h
  all_goals simp at hs
  all_goals apply Prod.Lex.left
  all_goals omega

/-- The loop of source lines 142-145 over the operands after the first. -/
def translateOp_loop (self : CalciteAdapter) (op_str : String) (td : TableDescriptor)
    (rest : List Json) (lhs : Expr) (used_columns_ : List Int) : Res (Expr × List Int) :=
  match rest with
  | [] => .ok (lhs, used_columns_)
  | operand :: rest1 =>
    (getExprFromNode self operand td [] used_columns_).bind fun r =>
    (to_sql_op op_str).bind fun op =>
    translateOp_loop self op_str td rest1 (normalize op SQLQualifier.kONE lhs r.1) r.2
termination_by (sizeOf rest, 0)
decreasing_by
  all_goals simp_wf
  all_goals apply Prod.Lex.left
  all_goals omega

end

/-! ## Target reconciliation, group-by, reprojection -/

/-- The lookup `std::unordered_map::find` on the map `idx_to_expr`, kept as a
list of key and value pairs with pairwise different keys. -/
def umap_find (m : List (Nat × Expr)) (k : Nat) : Option Expr :=
  match m with
  | [] => none
  | (k1, v) :: rest => if k1 = k then some v else umap_find rest k

/-- The member function `std::unordered_map::insert`: a key that is already
present keeps its old value. -/
def umap_insert (m : List (Nat × Expr)) (k : Nat) (v : Expr) : List (Nat × Expr) :=
  match umap_find m k with
  | some _ => m
  | none => m ++ [(k, v)]

/-- The loop of source lines 215-221 over the projection nodes. -/
def collect_target_entries_proj_loop (self : CalciteAdapter) (td : TableDescriptor) :
    List Json → List TargetEntry → List Int → Res (List TargetEntry × List Int)
  | [], scan_targets, used_columns_ => .ok (scan_targets, used_columns_)
  | proj_node :: rest, scan_targets, used_columns_ =>
    (getExprFromNode normalize self proj_node td [] used_columns_).bind fun r =>
    if r.1.isConstant then
      collect_target_entries_proj_loop self td rest scan_targets r.2
    else
      collect_target_entries_proj_loop self td rest (scan_targets ++ [⟨"", r.1, false⟩]) r.2

/-- The loop of source lines 224-232 over the aggregate nodes. It returns
`idx_to_expr`, `more_agg_targets` and the new `used_columns_`. -/
def collect_target_entries_agg_loop (self : CalciteAdapter) (td : TableDescriptor)
    (scan_targets : List TargetEntry) :
    List Json → List (Nat × Expr) → List TargetEntry → List Int →
    Res (List (Nat × Expr) × List TargetEntry × List Int)
  | [], idx_to_expr, more_agg_targets, used_columns_ =>
    .ok (idx_to_expr, more_agg_targets, used_columns_)
  | agg_node :: rest, idx_to_expr, more_agg_targets, used_columns_ =>
    (getExprFromNode normalize self agg_node td scan_targets used_columns_).bind fun r =>
    (get_agg_operand_idx agg_node).bind fun operand_idx =>
    if operand_idx < 0 then
      collect_target_entries_agg_loop self td scan_targets rest idx_to_expr
        (more_agg_targets ++ [⟨"", r.1, false⟩]) r.2
    else
      collect_target_entries_agg_loop self td scan_targets rest
        (umap_insert idx_to_expr operand_idx.toNat r.1) more_agg_targets r.2

/-- The loop of source lines 234-241: one output target per scan target, from
position `target_idx` on. -/
def collect_target_entries_merge_loop (idx_to_expr : List (Nat × Expr)) :
    Nat → List TargetEntry → List TargetEntry
  | _, [] => []
  | target_idx, scan_target :: rest =>
    (match umap_find idx_to_expr target_idx with
      | some agg_expr => (⟨"", agg_expr, false⟩ : TargetEntry)
      | none => ⟨"", scan_target.get_own_expr, false⟩)
    :: collect_target_entries_merge_loop idx_to_expr (target_idx + 1) rest

/-- Source lines 207-244. The two vectors passed by reference come in with
their old contents and are returned with the new ones, together with the
new `used_columns_`. The parameter `group_nodes` is not read. -/
def collect_target_entries (agg_targets scan_targets : List TargetEntry)
    (_group_nodes proj_nodes agg_nodes : Json) (self : CalciteAdapter) (td : TableDescriptor)
    (used_columns_ : List Int) : Res (List TargetEntry × List TargetEntry × List Int) := do
  CHECK proj_nodes.IsArray
  let proj_list ← proj_nodes.elements
  let (scan_targets1, used1) ←
    collect_target_entries_proj_loop normalize self td proj_list scan_targets used_columns_
  let agg_list ← agg_nodes.elements
  let (idx_to_expr, more_agg_targets, used2) ←
    collect_target_entries_agg_loop normalize self td scan_targets1 agg_list [] [] used1
  CHECK agg_nodes.IsArray
  let agg_targets1 := agg_targets ++ collect_target_entries_merge_loop idx_to_expr 0 scan_targets1
  return (agg_targets1 ++ more_agg_targets, scan_targets1, used2)

end Translator

/-- The loop of source lines 250-253. -/
def collect_groupby_loop (agg_targets : List TargetEntry) :
    List Json → List Expr → Res (List Expr)
  | [], groupby_exprs => .ok groupby_exprs
  | group_node :: rest, groupby_exprs =>
    group_node.GetInt.bind fun target_idx =>
    match agg_targets[to_size_t target_idx]? with
    | none => .undefined
    | some te => collect_groupby_loop agg_targets rest (groupby_exprs ++ [te.get_expr.deep_copy])

/-- Source lines 246-254. The list passed by reference comes in with its old
contents and is returned with the new ones. -/
def collect_groupby (group_nodes : Json) (agg_targets : List TargetEntry)
    (groupby_exprs : List Expr) : Res (List Expr) := do
  CHECK group_nodes.IsArray
  collect_groupby_loop agg_targets (← group_nodes.elements) groupby_exprs

/-- The loop of source lines 262-265. -/
def reproject_target_entries_loop (agg_targets : List TargetEntry) :
    List Nat → List TargetEntry → Res (List TargetEntry)
  | [], agg_targets_reproj => .ok agg_targets_reproj
  | proj_idx :: rest, agg_targets_reproj =>
    (CHECK (decide (proj_idx < agg_targets.length))).bind fun _ =>
    match agg_targets[proj_idx]? with
    | none => .undefined
    | some te => reproject_target_entries_loop agg_targets rest (agg_targets_reproj ++ [te])

/-- Source lines 256-267; the result is the new contents of `agg_targets`. -/
def reproject_target_entries (agg_targets : List TargetEntry)
    (result_proj_indices : List Nat) : Res (List TargetEntry) :=
  if result_proj_indices.isEmpty then
    .ok agg_targets
  else
    reproject_target_entries_loop agg_targets result_proj_indices []

/-! ## The plan assembler -/

/-- The loop of source lines 274-277. -/
def get_col_names_loop : List Json → List String → Res (List String)
  | [], result => .ok result
  | field :: rest, result =>
    (CHECK field.IsString).bind fun _ =>
    field.GetString.bind fun s =>
    get_col_names_loop rest (result ++ [s])

/-- Source lines 269-279. -/
def get_col_names (scan_ra : Json) : Res (List String) := do
  CHECK (scan_ra.IsObject && scan_ra.HasMember "fieldNames")
  let col_names_node ← scan_ra.get "fieldNames"
  CHECK col_names_node.IsArray
  get_col_names_loop (← col_names_node.elements) []

/-- Source lines 184-190: the set is walked in ascending order. -/
def getUsedColumnList (used_columns_ : List Int) : List Int :=
  used_columns_

/-- Source lines 192-199. -/
def getTableFromScanNode (self : CalciteAdapter) (scan_ra : Json) : Res TableDescriptor := do
  let table_info ← scan_ra.get "table"
  CHECK table_info.IsArray
  CHECK (decide (3 = (← table_info.Size)))
  match self.cat_.getMetadataForTable (← (← table_info.index 2).GetString) with
  | none => .fatal
  | some td => .ok td

/-- The loop of source lines 311-314: the `int` read from `input` is stored
as a `size_t`. -/
def result_proj_indices_loop : List Json → List Nat → Res (List Nat)
  | [], result_proj_indices => .ok result_proj_indices
  | node :: rest, result_proj_indices =>
    (CHECK node.IsObject).bind fun _ =>
    (node.get "input").bind fun input =>
    input.GetInt.bind fun i =>
    result_proj_indices_loop rest (result_proj_indices ++ [to_size_t i])

/-- Source lines 283-335, from the parsed document on. Printing the plan is
left out. -/
def translate_query (normalize : SQLOps → SQLQualifier → Expr → Expr → Expr)
    (query_ast : Json) (cat : Catalog) : Res RootPlan := do
  CHECK query_ast.IsObject
  let rels ← query_ast.get "rels"
  CHECK rels.IsArray
  let scan_ra ← rels.index 0
  CHECK scan_ra.IsObject
  let relOp ← (← scan_ra.get "relOp").GetString
  CHECK (decide ("LogicalTableScan" = relOp))
  let calcite_adapter : CalciteAdapter := ⟨cat, ← get_col_names scan_ra⟩
  let td ← getTableFromScanNode calcite_adapter scan_ra
  let rels_size ← rels.Size
  let (filter_expr, used1) ←
    if rels_size ≥ 4 then do
      let filter_ra ← rels.index 1
      CHECK filter_ra.IsObject
      let r ← getExprFromNode normalize calcite_adapter (← filter_ra.get "condition") td [] []
      pure (some r.1, r.2)
    else
      pure ((none : Option Expr), ([] : List Int))
  let base_off : Nat := if rels_size ≥ 4 then 2 else 1
  let project_ra ← rels.index base_off
  let proj_nodes ← project_ra.get "exprs"
  let agg_nodes ← (← rels.index (base_off + 1)).get "aggs"
  let group_nodes ← (← rels.index (base_off + 1)).get "group"
  let result_proj_indices ←
    if rels_size ≥ 5 then do
      let result_proj_ra ← rels.index (base_off + 2)
      let result_proj_nodes ← result_proj_ra.get "exprs"
      CHECK result_proj_nodes.IsArray
      result_proj_indices_loop (← result_proj_nodes.elements) []
    else
      pure ([] : List Nat)
  CHECK proj_nodes.IsArray
  let (agg_targets, scan_targets, used2) ←
    collect_target_entries normalize [] [] group_nodes proj_nodes agg_nodes calcite_adapter td used1
  let groupby_exprs ← collect_groupby group_nodes agg_targets []
  let agg_targets1 ← reproject_target_entries agg_targets result_proj_indices
  let q : List Expr := match filter_expr with
    | some e => [e]
    | none => []
  let sq : List Expr := []
  let scan_plan : Scan := ⟨scan_targets, q, sq, td.tableId, getUsedColumnList used2⟩
  let agg_plan : AggPlan := ⟨agg_targets1, scan_plan, groupby_exprs⟩
  return ⟨agg_plan, SQLStmtType.kSELECT, td.tableId, [], 0, 0⟩

/-! ## Notions used to state the properties -/

/-- The expression a call returned, the new set of used columns dropped. -/
def exprOf (r : Res (Expr × List Int)) : Res Expr :=
  r.bind fun p => .ok p.1

/-- The node translates to the expression e, from some set of used columns. -/
def Translates (normalize : SQLOps → SQLQualifier → Expr → Expr → Expr) (self : CalciteAdapter)
    (td : TableDescriptor) (scan_targets : List TargetEntry) (node : Json) (e : Expr) : Prop :=
  ∃ u v, getExprFromNode normalize self node td scan_targets u = .ok (e, v)

/-- The left fold in the words of the specification: the running result is
combined with each further operand by `normalize(op, kONE, left, right)`. -/
def normalize_chain (normalize : SQLOps → SQLQualifier → Expr → Expr → Expr) (op : SQLOps)
    (x0 : Expr) (xs : List Expr) : Expr :=
  xs.foldl (fun lhs rhs => normalize op SQLQualifier.kONE lhs rhs) x0

/-- The target entry the adapter builds around an expression:
`new Analyzer::TargetEntry("", expr, false)`. -/
def new_target (e : Expr) : TargetEntry :=
  ⟨"", e, false⟩

/-- The aggregate keyed to position p, given the aggregate nodes as pairs of
operand index and translation in the order of the `aggs` list: the translation
of the first node whose operand index is p. -/
def keyed_aggregate (keyed : List (Int × Expr)) (p : Nat) : Option Expr :=
  match keyed with
  | [] => none
  | (idx, e) :: rest => if idx = (p : Int) then some e else keyed_aggregate rest p

/-- The translations of the aggregate nodes whose operand index is negative
(the value `get_agg_operand_idx` returns for a node without operand), in the
order of the `aggs` list. -/
def extra_aggregates (keyed : List (Int × Expr)) : List Expr :=
  (keyed.filter (fun ke => decide (ke.1 < 0))).map (fun ke => ke.2)

/-- Whether `get_agg_operand_idx` returns a negative index for the node: the
node has no member `agg`, or its operand list is empty, or its operand is
negative. -/
def has_negative_operand_idx (node : Json) : Bool :=
  match get_agg_operand_idx node with
  | .ok idx => decide (idx < 0)
  | _ => false

/-- Whether the member `operands` of a node is the empty array. -/
def has_empty_operands (node : Json) : Bool :=
  match node.get "operands" with
  | .ok (.arr []) => true
  | _ => false

/-! ## Sample data for the closed statements -/

/-- A normalizer that builds the plain binary application. -/
def sample_normalize (op : SQLOps) (q : SQLQualifier) (l r : Expr) : Expr :=
  Expr.BinOper op q l r

/-- A catalog with one table `t` (id 7) and its columns `a` (id 1, BIGINT) and
`b` (id 2, INTEGER). -/
def sample_catalog : Catalog where
  getMetadataForTable := fun name => if name = "t" then some ⟨7⟩ else none
  getMetadataForColumn := fun table_id name =>
    if table_id = 7 ∧ name = "a" then some ⟨1, ⟨SQLTypes.kBIGINT, false⟩⟩
    else if table_id = 7 ∧ name = "b" then some ⟨2, ⟨SQLTypes.kINT, false⟩⟩
    else none

/-- The scan node of the sample plans. -/
def sample_scan : Json :=
  .obj [("relOp", .str "LogicalTableScan"),
        ("table", .arr [.str "cat", .str "sch", .str "t"]),
        ("fieldNames", .arr [.str "a", .str "b"])]

/-- The type descriptor `BIGINT`, not nullable. -/
def sample_bigint : Json :=
  .obj [("type", .str "BIGINT"), ("nullable", .bool false)]

/-- The translator for the sample scan: the sample catalog and the field names
a, b. -/
def sample_adapter : CalciteAdapter :=
  ⟨sample_catalog, ["a", "b"]⟩

/-- The descriptor of the sample table. -/
def sample_td : TableDescriptor :=
  ⟨7⟩

/-- The column reference to field 0. -/
def sample_col0 : Json :=
  .obj [("input", .int 0)]

/-- The column reference to field 1. -/
def sample_col1 : Json :=
  .obj [("input", .int 1)]

/-- An aggregate node of the given name with the given operand list, not
distinct, of type BIGINT. -/
def sample_agg (name : String) (operands : List Json) : Json :=
  .obj [("agg", .str name), ("distinct", .bool false), ("operands", .arr operands),
        ("type", sample_bigint)]

/-- The expression the sample column a translates to. -/
def sample_expr_a : Expr :=
  .ColumnVar ⟨SQLTypes.kBIGINT, false⟩ 7 1 0

/-- The expression the sample column b translates to. -/
def sample_expr_b : Expr :=
  .ColumnVar ⟨SQLTypes.kINT, false⟩ 7 2 0

/-- The aggregate node of a count without argument. -/
def sample_count : Json :=
  sample_agg "COUNT" []

/-- The three-node document of the end-to-end example of the specification. -/
def sample_query : Json :=
  .obj [("rels", .arr [sample_scan,
    .obj [("exprs", .arr [sample_col0, sample_col1])],
    .obj [("aggs", .arr [sample_count]), ("group", .arr [.int 0])]])]

/-- A three-node document with an empty group list whose only aggregate is a
COUNT, not distinct, with the operand list `[-1]`. -/
def sample_query_negative_operand : Json :=
  .obj [("rels", .arr [sample_scan,
    .obj [("exprs", .arr [sample_col0, sample_col1])],
    .obj [("aggs", .arr [sample_agg "COUNT" [.int (-1)]]), ("group", .arr [])]])]

/-- The end-to-end example with the group list `[5]`: an index past the three
reconciled targets. -/
def sample_query_group5 : Json :=
  .obj [("rels", .arr [sample_scan,
    .obj [("exprs", .arr [sample_col0, sample_col1])],
    .obj [("aggs", .arr [sample_count]), ("group", .arr [.int 5])]])]

/-- The name under which `to_sql_op` returns the operator code. -/
def sql_op_name : SQLOps → String
  | .kGT => ">" | .kGE => ">=" | .kLT => "<" | .kLE => "<=" | .kEQ => "=" | .kNE => "<>"
  | .kPLUS => "+" | .kMINUS => "-" | .kMULTIPLY => "*" | .kDIVIDE => "/"
  | .kMODULO => "MOD" | .kAND => "AND" | .kOR => "OR" | .kCAST => "CAST"

/-- The name under which `to_agg_kind` returns the aggregate kind. -/
def agg_kind_name : SQLAgg → String
  | .kCOUNT => "COUNT" | .kMIN => "MIN" | .kMAX => "MAX" | .kSUM => "SUM"

/-- The name under which `to_sql_type` returns the type code; `kNULLT` is
returned under no name. -/
def sql_type_name : SQLTypes → Option String
  | .kBIGINT => some "BIGINT" | .kINT => some "INTEGER" | .kSMALLINT => some "SMALLINT"
  | .kNULLT => none

/-- The steps by which `translate_query` assembles a plan from the list of nodes
`rels`: node 0 is the scan; with four nodes or more node 1 is the filter, whose
condition is translated against no scan targets from an empty set of used
columns, and the project and aggregate nodes are nodes 2 and 3, otherwise they
are nodes 1 and 2; with five nodes or more the node after the aggregate node
gives the reprojection indices; the targets are collected, the group-by list is
resolved against the reconciled targets, and then the targets are
reprojected. -/
def Assembles (normalize : SQLOps → SQLQualifier → Expr → Expr → Expr) (cat : Catalog)
    (rels : List Json) (plan : RootPlan) : Prop :=
  ∃ scan_ra col_names td,
    rels[0]? = some scan_ra ∧ scan_ra.IsObject = true ∧
    (scan_ra.get "relOp").bind Json.GetString = .ok "LogicalTableScan" ∧
    get_col_names scan_ra = .ok col_names ∧
    getTableFromScanNode ⟨cat, col_names⟩ scan_ra = .ok td ∧
  ∃ (quals : List Expr) (u1 : List Int),
    (if 4 ≤ rels.length then
      ∃ filter_ra cond e, rels[1]? = some filter_ra ∧ filter_ra.get "condition" = .ok cond ∧
        getExprFromNode normalize ⟨cat, col_names⟩ cond td [] [] = .ok (e, u1) ∧ quals = [e]
    else quals = [] ∧ u1 = []) ∧
  ∃ project_ra agg_ra proj_nodes agg_nodes group_nodes,
    rels[if 4 ≤ rels.length then 2 else 1]? = some project_ra ∧
    rels[(if 4 ≤ rels.length then 2 else 1) + 1]? = some agg_ra ∧
    project_ra.get "exprs" = .ok proj_nodes ∧
    agg_ra.get "aggs" = .ok agg_nodes ∧ agg_ra.get "group" = .ok group_nodes ∧
  ∃ result_proj_indices : List Nat,
    (if 5 ≤ rels.length then
      ∃ result_proj_ra nodes, rels[(if 4 ≤ rels.length then 2 else 1) + 2]? = some result_proj_ra ∧
        result_proj_ra.get "exprs" = .ok (.arr nodes) ∧
        result_proj_indices_loop nodes [] = .ok result_proj_indices
    else result_proj_indices = []) ∧
  ∃ agg_targets scan_targets used groupby_exprs agg_targets1,
    collect_target_entries normalize [] [] group_nodes proj_nodes agg_nodes ⟨cat, col_names⟩ td u1 =
      .ok (agg_targets, scan_targets, used) ∧
    collect_groupby group_nodes agg_targets [] = .ok groupby_exprs ∧
    reproject_target_entries agg_targets result_proj_indices = .ok agg_targets1 ∧
    plan = ⟨⟨agg_targets1, ⟨scan_targets, quals, [], td.tableId, used⟩, groupby_exprs⟩,
      SQLStmtType.kSELECT, td.tableId, [], 0, 0⟩

/-- The filter condition `a > 1` of the five-node sample plans. -/
def sample_condition : Json :=
  .obj [("op", .str ">"), ("operands", .arr [sample_col0, .int 1])]

/-- A five-node document: scan, filter `a > 1`, projections a and b, a minimum
over position 1 grouped by position 0, and a final projection with the given
list of `input` indices. -/
def sample_query_five (indices : List Int) : Json :=
  .obj [("rels", .arr [sample_scan,
    .obj [("condition", sample_condition)],
    .obj [("exprs", .arr [sample_col0, sample_col1])],
    .obj [("aggs", .arr [sample_agg "MIN" [.int 1]]), ("group", .arr [.int 0])],
    .obj [("exprs", .arr (indices.map fun i => .obj [("input", .int i)]))]])]

/-- The plan of the five-node sample documents with the aggregate-stage targets
`agg_targets`: scan targets a and b, the qualifier `a > 1`, table 7, used columns
1 and 2, grouped by a. -/
def sample_plan_five (agg_targets : List TargetEntry) : RootPlan :=
  ⟨⟨agg_targets, ⟨[new_target sample_expr_a, new_target sample_expr_b],
      [.BinOper .kGT .kONE sample_expr_a (.Constant 1)], [], 7, [1, 2]⟩, [sample_expr_a]⟩,
    SQLStmtType.kSELECT, 7, [], 0, 0⟩

/-- The column-reference nodes the expression translator reaches from a node,
following the dispatch of `getExprFromNode`: the node itself when it has no
member `op` and has a member `input`, and the references reached from the
operands of a node that has a member `op`. -/
inductive ColRefIn : Json → Json → Prop where
  | here (n : Json) (hop : ¬ (n.IsObject && n.HasMember "op") = true)
      (hin : (n.IsObject && n.HasMember "input") = true) : ColRefIn n n
  | operand (node : Json) (xs : List Json) (x n : Json)
      (hop : (node.IsObject && node.HasMember "op") = true)
      (hxs : node.get "operands" = .ok (.arr xs)) (hx : x ∈ xs) (h : ColRefIn x n) :
      ColRefIn node n

/-- The column-reference node n resolves to the catalog column id x: translated
by `translateColRef` on a translator with no used column, it gives a reference
to the column x and the used columns x. -/
def ResolvesTo (self : CalciteAdapter) (td : TableDescriptor) (n : Json) (x : Int) : Prop :=
  ∃ ti r, translateColRef self n td [] = .ok (Expr.ColumnVar ti td.tableId x r, [x])

/-- The used columns v are the used columns u and the ids with the property P,
and v is strictly ascending if u is. -/
def UsedColumnsGrow (P : Int → Prop) (u v : List Int) : Prop :=
  (u.Pairwise (fun a b => a < b) → v.Pairwise (fun a b => a < b)) ∧ ∀ x, x ∈ v ↔ x ∈ u ∨ P x

/-- The nodes of a document that `translate_query` hands to the expression
translator: the condition of node 1 when there are four nodes or more, the
elements of `exprs` of the project node and the elements of `aggs` of the
aggregate node. -/
def TranslatedNode (rels : List Json) (node : Json) : Prop :=
  (4 ≤ rels.length ∧ ∃ filter_ra, rels[1]? = some filter_ra ∧
    filter_ra.get "condition" = .ok node) ∨
  (∃ project_ra proj_list, rels[if 4 ≤ rels.length then 2 else 1]? = some project_ra ∧
    project_ra.get "exprs" = .ok (.arr proj_list) ∧ node ∈ proj_list) ∨
  (∃ agg_ra agg_list, rels[(if 4 ≤ rels.length then 2 else 1) + 1]? = some agg_ra ∧
    agg_ra.get "aggs" = .ok (.arr agg_list) ∧ node ∈ agg_list)

/-- An aggregate node that takes an argument: a node that is dispatched to
`translateAggregate` (it has no member `op` and no member `input`), whose member
`agg` names a kind and whose member `distinct` is a boolean, the kind not being
COUNT or the flag being set; reading its type descriptor and its operand index
is defined behaviour. The operand index itself is not constrained. -/
def ArgAggregate (node : Json) : Prop :=
  ¬ (node.IsObject && node.HasMember "op") = true ∧
  ¬ (node.IsObject && node.HasMember "input") = true ∧
  (∃ name k d, node.get "agg" = .ok (.str name) ∧ to_agg_kind name = .ok k ∧
    node.get "distinct" = .ok (.bool d) ∧ (k ≠ SQLAgg.kCOUNT ∨ d = true)) ∧
  (∀ t, node.get "type" = .ok t → read_type_info t ≠ .undefined) ∧
  get_agg_operand_idx node ≠ .undefined

/-- An operator or cast node that has an aggregate taking an argument as an
operand at some depth: the member `op` is a string, one of the operands is such
an aggregate or nests one, and translating the operands before that one is
defined behaviour. -/
inductive NestsArgAggregate (normalize : SQLOps → SQLQualifier → Expr → Expr → Expr)
    (self : CalciteAdapter) (td : TableDescriptor) : Json → Prop where
  | direct (node : Json) (op_str : String) (pre : List Json) (x : Json) (post : List Json)
      (hop : node.get "op" = .ok (.str op_str))
      (hxs : node.get "operands" = .ok (.arr (pre ++ x :: post)))
      (hpre : ∀ p, p ∈ pre → ∀ u, getExprFromNode normalize self p td [] u ≠ .undefined)
      (hx : ArgAggregate x) : NestsArgAggregate normalize self td node
  | deeper (node : Json) (op_str : String) (pre : List Json) (x : Json) (post : List Json)
      (hop : node.get "op" = .ok (.str op_str))
      (hxs : node.get "operands" = .ok (.arr (pre ++ x :: post)))
      (hpre : ∀ p, p ∈ pre → ∀ u, getExprFromNode normalize self p td [] u ≠ .undefined)
      (hx : NestsArgAggregate normalize self td x) : NestsArgAggregate normalize self td node

/-- The filter condition of the sample document with an aggregate in the
filter: `MIN(position 0) > 1`. -/
def sample_condition_agg : Json :=
  .obj [("op", .str ">"), ("operands", .arr [sample_agg "MIN" [.int 0], .int 1])]

/-- A four-node document whose filter condition holds an aggregate. -/
def sample_query_agg_filter : Json :=
  .obj [("rels", .arr [sample_scan,
    .obj [("condition", sample_condition_agg)],
    .obj [("exprs", .arr [sample_col0, sample_col1])],
    .obj [("aggs", .arr [sample_agg "MIN" [.int 1]]), ("group", .arr [.int 0])]])]

/-- The scan node of the sample plans with the table name `t`, U+0000, `x`. -/
def sample_scan_cut : Json :=
  .obj [("relOp", .str "LogicalTableScan"),
        ("table", .arr [.str "cat", .str "sch", .str "t\x00x"]),
        ("fieldNames", .arr [.str "a", .str "b"])]

/-- The three-node document of the end-to-end example over the scan node with the
table name `t`, U+0000, `x`. -/
def sample_query_cut : Json :=
  .obj [("rels", .arr [sample_scan_cut,
    .obj [("exprs", .arr [sample_col0, sample_col1])],
    .obj [("aggs", .arr [sample_count]), ("group", .arr [.int 0])]])]

/-! ## Basic facts about outcomes -/

@[simp] theorem Res.bind_ok {α β : Type} (a : α) (f : α → Res β) : Res.bind (.ok a) f = f a := rfl

@[simp] theorem Res.bind_fatal {α β : Type} (f : α → Res β) :
    Res.bind (.fatal : Res α) f = .fatal := rfl

@[simp] theorem Res.bind_undefined {α β : Type} (f : α → Res β) :
    Res.bind (.undefined : Res α) f = .undefined := rfl

@[simp] theorem Res.monad_bind {α β : Type} (x : Res α) (f : α → Res β) :
    (x >>= f) = Res.bind x f := rfl

@[simp] theorem Res.monad_pure {α : Type} (a : α) : (pure a : Res α) = .ok a := rfl

@[simp] theorem CHECK_true : CHECK true = .ok () := rfl

@[simp] theorem CHECK_false : CHECK false = .fatal := rfl

/-- A sequence returns a value exactly when both parts do. -/
theorem Res.bind_eq_ok {α β : Type} {x : Res α} {f : α → Res β} {b : β} :
    Res.bind x f = .ok b ↔ ∃ a, x = .ok a ∧ f a = .ok b := by
  cases x <;> simp

/-- A passed `CHECK` tells that its condition held. -/
theorem CHECK_eq_ok {c : Bool} {x : Unit} : CHECK c = .ok x ↔ c = true := by
  cases c <;> simp

/-! ## Unfolding the translator -/

/-! ## Names of the vocabulary -/

/-- A code that `to_sql_op` returns is returned under its name only. -/
theorem to_sql_op_name (s : String) (op : SQLOps) (h : to_sql_op s = .ok op) :
    s = sql_op_name op := by
  unfold to_sql_op at h
  by_cases h0 : s = ">"
  · rw [if_pos h0] at h
    cases h
    exact h0
  rw [if_neg h0] at h
  by_cases h1 : s = ">="
  · rw [if_pos h1] at h
    cases h
    exact h1
  rw [if_neg h1] at h
  by_cases h2 : s = "<"
  · rw [if_pos h2] at h
    cases h
    exact h2
  rw [if_neg h2] at h
  by_cases h3 : s = "<="
  · rw [if_pos h3] at h
    cases h
    exact h3
  rw [if_neg h3] at h
  by_cases h4 : s = "="
  · rw [if_pos h4] at h
    cases h
    exact h4
  rw [if_neg h4] at h
  by_cases h5 : s = "<>"
  · rw [if_pos h5] at h
    cases h
    exact h5
  rw [if_neg h5] at h
  by_cases h6 : s = "+"
  · rw [if_pos h6] at h
    cases h
    exact h6
  rw [if_neg h6] at h
  by_cases h7 : s = "-"
  · rw [if_pos h7] at h
    cases h
    exact h7
  rw [if_neg h7] at h
  by_cases h8 : s = "*"
  · rw [if_pos h8] at h
    cases h
    exact h8
  rw [if_neg h8] at h
  by_cases h9 : s = "/"
  · rw [if_pos h9] at h
    cases h
    exact h9
  rw [if_neg h9] at h
  by_cases h10 : s = "MOD"
  · rw [if_pos h10] at h
    cases h
    exact h10
  rw [if_neg h10] at h
  by_cases h11 : s = "AND"
  · rw [if_pos h11] at h
    cases h
    exact h11
  rw [if_neg h11] at h
  by_cases h12 : s = "OR"
  · rw [if_pos h12] at h
    cases h
    exact h12
  rw [if_neg h12] at h
  by_cases h13 : s = "CAST"
  · rw [if_pos h13] at h
    cases h
    exact h13
  rw [if_neg h13] at h
  cases h

/-- A kind that `to_agg_kind` returns is returned under its name only. -/
theorem to_agg_kind_name (s : String) (k : SQLAgg) (h : to_agg_kind s = .ok k) :
    s = agg_kind_name k := by
  unfold to_agg_kind at h
  by_cases h0 : s = "COUNT"
  · rw [if_pos h0] at h
    cases h
    exact h0
  rw [if_neg h0] at h
  by_cases h1 : s = "MIN"
  · rw [if_pos h1] at h
    cases h
    exact h1
  rw [if_neg h1] at h
  by_cases h2 : s = "MAX"
  · rw [if_pos h2] at h
    cases h
    exact h2
  rw [if_neg h2] at h
  by_cases h3 : s = "SUM"
  · rw [if_pos h3] at h
    cases h
    exact h3
  rw [if_neg h3] at h
  cases h

/-- A code that `to_sql_type` returns is returned under its name only. -/
theorem to_sql_type_name (s : String) (t : SQLTypes) (h : to_sql_type s = .ok t) :
    sql_type_name t = some s := by
  unfold to_sql_type at h
  by_cases h0 : s = "BIGINT"
  · rw [if_pos h0] at h
    cases h
    exact congrArg some h0.symm
  rw [if_neg h0] at h
  by_cases h1 : s = "INTEGER"
  · rw [if_pos h1] at h
    cases h
    exact congrArg some h1.symm
  rw [if_neg h1] at h
  by_cases h2 : s = "SMALLINT"
  · rw [if_pos h2] at h
    cases h
    exact congrArg some h2.symm
  rw [if_neg h2] at h
  cases h

/-- A recognised operator name holds no character U+0000, so it is read whole. -/
theorem c_str_of_to_sql_op {s : String} {op : SQLOps} (h : to_sql_op s = .ok op) :
    c_str s = s := by
  rw [to_sql_op_name s op h]
  cases op <;> rfl

/-- A recognised aggregate name holds no character U+0000, so it is read whole. -/
theorem c_str_of_to_agg_kind {s : String} {k : SQLAgg} (h : to_agg_kind s = .ok k) :
    c_str s = s := by
  rw [to_agg_kind_name s k h]
  cases k <;> rfl

/-- A recognised type name holds no character U+0000, so it is read whole. -/
theorem c_str_of_to_sql_type {s : String} {t : SQLTypes} (h : to_sql_type s = .ok t) :
    c_str s = s := by
  have hn := to_sql_type_name s t h
  cases t <;> simp only [sql_type_name, Option.some.injEq] at hn <;> first
    | (rw [← hn]; rfl)
    | cases hn

section TranslatorFacts

variable (normalize : SQLOps → SQLQualifier → Expr → Expr → Expr)

/-- The body of `translateOp` with the operand list read once. -/
theorem translateOp_eq (self : CalciteAdapter) (expr : Json) (td : TableDescriptor)
    (u : List Int) :
    translateOp normalize self expr td u =
      (expr.get "op").bind fun op_node =>
      op_node.GetString.bind fun op_str =>
      (expr.get "operands").bind fun operands =>
      match operands with
      | .arr [operand0] =>
        (to_sql_op op_str).bind fun op =>
        (CHECK (decide (SQLOps.kCAST = op))).bind fun _ =>
        (getExprFromNode normalize self operand0 td [] u).bind fun r =>
        (expr.get "type").bind fun expr_type =>
        (read_type_info expr_type).bind fun target_ti =>
        .ok (Expr.UOper target_ti false SQLOps.kCAST r.1, r.2)
      | .arr [] => .fatal
      | .arr (operand0 :: operand1 :: rest) =>
        (getExprFromNode normalize self operand0 td [] u).bind fun r =>
        translateOp_loop normalize self op_str td (operand1 :: rest) r.1 r.2
      | _ => .fatal := by
  rw [translateOp]
  congr 1
  funext op_node
  congr 1
  funext op_str
  split <;> rename_i h <;> rw [h] <;> simp only [Res.bind_ok, Res.bind_fatal, Res.bind_undefined]


@[simp] theorem exprOf_ok (e : Expr) (u : List Int) : exprOf (.ok (e, u)) = .ok e := rfl

@[simp] theorem exprOf_fatal : exprOf .fatal = .fatal := rfl

@[simp] theorem exprOf_undefined : exprOf .undefined = .undefined := rfl

theorem exprOf_eq_ok {r : Res (Expr × List Int)} {e : Expr} :
    exprOf r = .ok e ↔ ∃ u, r = .ok (e, u) := by
  cases r with
  | ok p => obtain ⟨a, b⟩ := p; simp [exprOf]
  | fatal => simp
  | undefined => simp

/-- Two sequences whose first parts return the same expression and whose
second parts agree on it return the same expression. -/
theorem exprOf_bind_congr {x y : Res (Expr × List Int)}
    {f g : Expr × List Int → Res (Expr × List Int)}
    (hxy : exprOf x = exprOf y)
    (hfg : ∀ e u v, exprOf (f (e, u)) = exprOf (g (e, v))) :
    exprOf (x.bind f) = exprOf (y.bind g) := by
  cases x with
  | ok p =>
    obtain ⟨e, u⟩ := p
    cases y with
    | ok q =>
      obtain ⟨e1, v⟩ := q
      simp at hxy
      subst hxy
      simpa using hfg e u v
    | fatal => simp at hxy
    | undefined => simp at hxy
  | fatal =>
    cases y with
    | ok q => obtain ⟨e1, v⟩ := q; simp at hxy
    | fatal => rfl
    | undefined => simp at hxy
  | undefined =>
    cases y with
    | ok q => obtain ⟨e1, v⟩ := q; simp at hxy
    | fatal => simp at hxy
    | undefined => rfl

/-- The expression a column reference translates to does not depend on the
columns used so far. -/
theorem translateColRef_exprOf (self : CalciteAdapter) (expr : Json) (td : TableDescriptor)
    (u v : List Int) :
    exprOf (translateColRef self expr td u) = exprOf (translateColRef self expr td v) := by
  unfold translateColRef
  simp only [Res.monad_bind]
  cases expr.get "input" with
  | ok j =>
    simp only [Res.bind_ok]
    cases j.GetInt with
    | ok i =>
      simp only [Res.bind_ok]
      cases CHECK (decide (i ≥ 0)) <;> simp only [Res.bind_ok, Res.bind_fatal, Res.bind_undefined]
      cases CHECK (decide (to_size_t i < self.col_names_.length)) <;>
        simp only [Res.bind_ok, Res.bind_fatal, Res.bind_undefined]
      cases self.col_names_[to_size_t i]? with
      | none => rfl
      | some name =>
        simp only
        cases self.cat_.getMetadataForColumn td.tableId name <;> rfl
    | fatal => rfl
    | undefined => rfl
  | fatal => rfl
  | undefined => rfl

/-- The expression a node translates to, and whether it translates at all, do
not depend on the columns used so far. -/
theorem getExprFromNode_exprOf (self : CalciteAdapter) (expr : Json) (td : TableDescriptor)
    (scan_targets : List TargetEntry) (u v : List Int) :
    exprOf (getExprFromNode normalize self expr td scan_targets u) =
      exprOf (getExprFromNode normalize self expr td scan_targets v) := by
  have key := getExprFromNode.mutual_induct normalize self
    (fun expr td st u => ∀ v, exprOf (getExprFromNode normalize self expr td st u) =
      exprOf (getExprFromNode normalize self expr td st v))
    (fun expr td u => ∀ v, exprOf (translateOp normalize self expr td u) =
      exprOf (translateOp normalize self expr td v))
    (fun op_str td rest lhs u => ∀ v, exprOf (translateOp_loop normalize self op_str td rest lhs u) =
      exprOf (translateOp_loop normalize self op_str td rest lhs v))
  refine (key ?_ ?_ ?_ ?_ ?_ ?_ ?_ ?_).1 expr td scan_targets u v
  · intro expr td st u h ih v
    rw [getExprFromNode, getExprFromNode, if_pos h, if_pos h]
    exact ih v
  · intro expr td st u h1 h2 v
    rw [getExprFromNode, getExprFromNode, if_neg h1, if_neg h1, if_pos h2, if_pos h2]
    exact translateColRef_exprOf self expr td u v
  · intro expr td st u h1 h2 h3 v
    rw [getExprFromNode, getExprFromNode, if_neg h1, if_neg h1, if_neg h2, if_neg h2,
      if_pos h3, if_pos h3]
    cases translateAggregate expr td st <;> rfl
  · intro expr td st u h1 h2 h3 h4 v
    rw [getExprFromNode, getExprFromNode, if_neg h1, if_neg h1, if_neg h2, if_neg h2,
      if_neg h3, if_neg h3, if_pos h4, if_pos h4]
    cases translateIntLiteral expr <;> rfl
  · intro expr td st u h1 h2 h3 h4 v
    rw [getExprFromNode, getExprFromNode, if_neg h1, if_neg h1, if_neg h2, if_neg h2,
      if_neg h3, if_neg h3, if_neg h4, if_neg h4]
  · intro expr td u ih1 ih2 ih3 v
    rw [translateOp_eq, translateOp_eq]
    cases hop : expr.get "op" with
    | fatal => rfl
    | undefined => rfl
    | ok op_node =>
      simp only [Res.bind_ok]
      cases hs : op_node.GetString with
      | fatal => rfl
      | undefined => rfl
      | ok op_str =>
        simp only [Res.bind_ok]
        cases hops : expr.get "operands" with
        | fatal => rfl
        | undefined => rfl
        | ok operands =>
          simp only [Res.bind_ok]
          split
          · rename_i operand0
            cases to_sql_op op_str with
            | fatal => rfl
            | undefined => rfl
            | ok op =>
              simp only [Res.bind_ok]
              cases CHECK (decide (SQLOps.kCAST = op)) with
              | fatal => rfl
              | undefined => rfl
              | ok _ =>
                simp only [Res.bind_ok]
                apply exprOf_bind_congr (ih1 operand0 hops v)
                intro e a b
                cases expr.get "type" with
                | fatal => rfl
                | undefined => rfl
                | ok expr_type =>
                  simp only [Res.bind_ok]
                  cases read_type_info expr_type <;> rfl
          · rfl
          · rename_i operand0 operand1 rest
            apply exprOf_bind_congr (ih2 operand0 operand1 rest hops v)
            intro e a b
            exact ih3 op_str operand0 operand1 rest hops (e, a) b
          · rfl
  · intro op_str td lhs u v
    rw [translateOp_loop, translateOp_loop]
    rfl
  · intro op_str td lhs u operand rest1 ih1 ih2 v
    rw [translateOp_loop, translateOp_loop]
    apply exprOf_bind_congr (ih1 v)
    intro e a b
    cases to_sql_op op_str with
    | fatal => rfl
    | undefined => rfl
    | ok op =>
      simp only [Res.bind_ok]
      exact ih2 (e, a) op b

end TranslatorFacts

/-! ## Reprojection -/

/-- The reprojection loop on indices that are all in range appends the selected
entries, one per index and in the order of the indices. -/
theorem reproject_target_entries_loop_ok (T : List TargetEntry) (I : List Nat)
    (acc : List TargetEntry) (hI : ∀ i ∈ I, i < T.length) :
    ∃ R, reproject_target_entries_loop T I acc = .ok (acc ++ R) ∧ R.length = I.length ∧
      ∀ k (hk : k < I.length), R[k]? = T[I[k]]? := by
  induction I generalizing acc with
  | nil => exact ⟨[], by simp [reproject_target_entries_loop], rfl, by simp⟩
  | cons i I ih =>
    have hi : i < T.length := hI i (List.mem_cons_self _ _)
    obtain ⟨R, hR, hlen, hget⟩ := ih (acc ++ [T[i]]) (fun j hj => hI j (List.mem_cons_of_mem _ hj))
    refine ⟨T[i] :: R, ?_, by simp [hlen], ?_⟩
    · simp [reproject_target_entries_loop, hi, hR]
    · intro k hk
      cases k with
      | zero => simp [hi]
      | succ k =>
        have hk1 : k < I.length := by simpa using hk
        simpa using hget k hk1

/-- The reprojection loop never runs into undefined behaviour, and it is fatal
exactly when some index is past the end of the target list. -/
theorem reproject_target_entries_loop_fatal (T : List TargetEntry) (I : List Nat)
    (acc : List TargetEntry) :
    (reproject_target_entries_loop T I acc = .fatal ↔ ∃ i ∈ I, T.length ≤ i) ∧
    reproject_target_entries_loop T I acc ≠ .undefined := by
  induction I generalizing acc with
  | nil => simp [reproject_target_entries_loop]
  | cons i I ih =>
    by_cases hi : i < T.length
    · have h1 := ih (acc ++ [T[i]])
      simp only [reproject_target_entries_loop, hi, decide_True, CHECK_true, Res.bind_ok,
        List.getElem?_eq_getElem]
      refine ⟨?_, h1.2⟩
      rw [h1.1]
      constructor
      · rintro ⟨j, hj, hle⟩
        exact ⟨j, List.mem_cons_of_mem _ hj, hle⟩
      · rintro ⟨j, hj, hle⟩
        rcases List.mem_cons.1 hj with rfl | hj
        · omega
        · exact ⟨j, hj, hle⟩
    · simp only [reproject_target_entries_loop, hi, decide_False, CHECK_false, Res.bind_fatal]
      refine ⟨⟨fun _ => ⟨i, List.mem_cons_self _ _, by omega⟩, fun _ => trivial⟩, by simp⟩

/-- C5. With an empty index list reprojection leaves the target list as it is;
with a non-empty index list whose indices are all positions of the target
list, the new list has one entry per index and its k-th entry is the entry of the
old list at the k-th index, the entry itself; and the indices 2, 0, 1 turn the
list a, b, c into c, a, b. -/
theorem reproject_target_entries_selects (T : List TargetEntry) (I : List Nat) :
    (I = [] → reproject_target_entries T I = .ok T) ∧
    (I ≠ [] → (∀ i ∈ I, i < T.length) →
      ∃ R, reproject_target_entries T I = .ok R ∧ R.length = I.length ∧
        ∀ k (hk : k < I.length), R[k]? = T[I[k]]? ∧ (R[k]?).isSome = true) ∧
    (∀ a b c : TargetEntry, reproject_target_entries [a, b, c] [2, 0, 1] = .ok [c, a, b]) := by
  refine ⟨?_, ?_, ?_⟩
  · rintro rfl
    rfl
  · intro hne hI
    obtain ⟨R, hR, hlen, hget⟩ := reproject_target_entries_loop_ok T I [] hI
    refine ⟨R, ?_, hlen, ?_⟩
    · cases I with
      | nil => exact absurd rfl hne
      | cons i I => simpa [reproject_target_entries] using hR
    · intro k hk
      refine ⟨hget k hk, ?_⟩
      rw [hget k hk]
      have := hI I[k] (List.getElem_mem _)
      simp [this]
  · intro a b c
    rfl

/-- C5, at a concrete input: a three-entry list, reprojected with no index and with
the indices 2, 0, 1. -/
theorem reproject_target_entries_selects_witness :
    reproject_target_entries [⟨"", .Constant 1, false⟩, ⟨"", .Constant 2, false⟩, ⟨"", .Constant 3, false⟩] []
      = .ok [⟨"", .Constant 1, false⟩, ⟨"", .Constant 2, false⟩, ⟨"", .Constant 3, false⟩] ∧
    ∃ R, reproject_target_entries
        [⟨"", .Constant 1, false⟩, ⟨"", .Constant 2, false⟩, ⟨"", .Constant 3, false⟩] [2, 0, 1] = .ok R ∧
      R.length = [2, 0, 1].length ∧
      ∀ k (hk : k < [2, 0, 1].length),
        R[k]? = [(⟨"", .Constant 1, false⟩ : TargetEntry), ⟨"", .Constant 2, false⟩,
          ⟨"", .Constant 3, false⟩][[2, 0, 1][k]]? ∧ (R[k]?).isSome = true :=
  ⟨(reproject_target_entries_selects _ []).1 rfl,
   (reproject_target_entries_selects _ [2, 0, 1]).2.1 (by simp) (by simp)⟩

/-- C6. For a non-empty index list, reprojection is fatal exactly when some index
is not a position of the target list; it then returns no list, and it never
leaves defined behaviour. A negative `int` read from the final-project node
becomes, as a `size_t`, at least 2^64 - 2^31 and so is past the end of every
target list shorter than that. -/
theorem reproject_target_entries_fatal_iff (T : List TargetEntry) (I : List Nat)
    (hI : I ≠ []) :
    (reproject_target_entries T I = .fatal ↔ ∃ i ∈ I, T.length ≤ i) ∧
    (reproject_target_entries T I = .fatal → ∀ R, reproject_target_entries T I ≠ .ok R) ∧
    reproject_target_entries T I ≠ .undefined ∧
    (∀ x : Int, (Json.int x).IsInt = true → x < 0 →
      T.length ≤ 18446744071562067968 → to_size_t x ∈ I →
      reproject_target_entries T I = .fatal) := by
  have hloop : reproject_target_entries T I = reproject_target_entries_loop T I [] := by
    cases I with
    | nil => exact absurd rfl hI
    | cons i I => rfl
  have h := reproject_target_entries_loop_fatal T I []
  rw [hloop]
  refine ⟨h.1, ?_, h.2, ?_⟩
  · intro hf R hR
    rw [hf] at hR
    cases hR
  · intro x hx hneg hT hmem
    refine h.1.2 ⟨to_size_t x, hmem, ?_⟩
    simp only [Json.IsInt, decide_eq_true_eq] at hx
    unfold to_size_t
    omega

/-- C6, at a concrete input: the index 5 and the index read from `-1` on a list of
one entry. -/
theorem reproject_target_entries_fatal_iff_witness :
    (reproject_target_entries [⟨"", .Constant 1, false⟩] [5, to_size_t (-1)] = .fatal ↔
      ∃ i ∈ [5, to_size_t (-1)], [(⟨"", .Constant 1, false⟩ : TargetEntry)].length ≤ i) ∧
    reproject_target_entries [⟨"", .Constant 1, false⟩] [5, to_size_t (-1)] = .fatal :=
  ⟨(reproject_target_entries_fatal_iff [⟨"", .Constant 1, false⟩] [5, to_size_t (-1)]
      (by simp)).1,
   (reproject_target_entries_fatal_iff [⟨"", .Constant 1, false⟩] [5, to_size_t (-1)]
      (by simp)).2.2.2 (-1) (by decide) (by decide) (by decide) (by simp)⟩


/-! ## Group-by resolution -/

/-- A deep copy is equal, as a value, to the expression it was copied from. -/
theorem Expr.deep_copy_eq : ∀ e : Expr, e.deep_copy = e
  | .Constant _ => rfl
  | .ColumnVar _ _ _ _ => rfl
  | .UOper ti ca op x => by simp [Expr.deep_copy, Expr.deep_copy_eq x]
  | .BinOper op q l r => by simp [Expr.deep_copy, Expr.deep_copy_eq l, Expr.deep_copy_eq r]
  | .AggExpr _ _ none _ => rfl
  | .AggExpr ti k (some a) d => by simp [Expr.deep_copy, Expr.deep_copy_eq a]

/-- The conversion to `size_t` keeps a non-negative `int`. -/
theorem to_size_t_of_nonneg {i : Int} (h0 : 0 ≤ i) (h1 : i ≤ 2147483647) :
    to_size_t i = i.toNat := by
  unfold to_size_t
  congr 1
  omega

/-- The group-by loop on indices that are all positions of the target list
appends one deep copy per index, in the order of the indices. -/
theorem collect_groupby_loop_ok (T : List TargetEntry) (G : List Int) (acc : List Expr)
    (hG : ∀ g ∈ G, (Json.int g).IsInt = true ∧ 0 ≤ g ∧ g < T.length) :
    ∃ L, collect_groupby_loop T (G.map Json.int) acc = .ok (acc ++ L) ∧ L.length = G.length ∧
      ∀ i (hi : i < G.length),
        L[i]? = (T[(G[i]).toNat]?).map (fun te => te.get_expr.deep_copy) ∧
        (L[i]?).isSome = true := by
  induction G generalizing acc with
  | nil => exact ⟨[], by simp [collect_groupby_loop], rfl, by simp⟩
  | cons g G ih =>
    obtain ⟨hint, h0, hlt⟩ := hG g (List.mem_cons_self _ _)
    have hint2 := hint
    simp only [Json.IsInt, decide_eq_true_eq] at hint2
    have hidx : to_size_t g = g.toNat := to_size_t_of_nonneg h0 hint2.2
    have hlt2 : g.toNat < T.length := by omega
    obtain ⟨L, hL, hlen, hget⟩ := ih (acc ++ [(T[g.toNat]).get_expr.deep_copy])
      (fun j hj => hG j (List.mem_cons_of_mem _ hj))
    refine ⟨(T[g.toNat]).get_expr.deep_copy :: L, ?_, by simp [hlen], ?_⟩
    · simp [collect_groupby_loop, Json.GetInt, hint, hidx, hlt2, hL]
    · intro i hi
      cases i with
      | zero => simp [hlt2]
      | succ i =>
        have hi1 : i < G.length := by simpa using hi
        simpa using hget i hi1

/-- C4. For a target list T and a list G of group indices that are `int` values
and positions of T, `collect_groupby` returns a list as long as G whose i-th
entry is the deep copy of the expression of T at G[i], in the order of G. -/
theorem collect_groupby_deep_copies (T : List TargetEntry) (G : List Int)
    (hG : ∀ g ∈ G, (Json.int g).IsInt = true ∧ 0 ≤ g ∧ g < T.length) :
    ∃ L, collect_groupby (.arr (G.map Json.int)) T [] = .ok L ∧ L.length = G.length ∧
      ∀ i (hi : i < G.length),
        L[i]? = (T[(G[i]).toNat]?).map (fun te => te.get_expr.deep_copy) ∧
        (L[i]?).isSome = true := by
  obtain ⟨L, hL, hlen, hget⟩ := collect_groupby_loop_ok T G [] hG
  refine ⟨L, ?_, hlen, hget⟩
  simpa [collect_groupby, Json.IsArray, Json.elements] using hL

/-- C4, at a concrete input: the indices 1, 0, 1 on a list of two targets. -/
theorem collect_groupby_deep_copies_witness :
    ∃ L, collect_groupby (.arr ([1, 0, 1].map Json.int))
        [⟨"", .Constant 10, false⟩, ⟨"", .Constant 20, false⟩] [] = .ok L ∧
      L.length = [(1 : Int), 0, 1].length ∧
      ∀ i (hi : i < [(1 : Int), 0, 1].length),
        L[i]? = ([(⟨"", .Constant 10, false⟩ : TargetEntry),
          ⟨"", .Constant 20, false⟩][([(1 : Int), 0, 1][i]).toNat]?).map
            (fun te => te.get_expr.deep_copy) ∧
        (L[i]?).isSome = true :=
  collect_groupby_deep_copies [⟨"", .Constant 10, false⟩, ⟨"", .Constant 20, false⟩] [1, 0, 1]
    (by decide)


/-! ## Column references -/

/-- The outcome of `translateColRef` on a node whose `input` member is the
`int` i, spelled out case by case. -/
theorem translateColRef_eq (self : CalciteAdapter) (expr : Json) (td : TableDescriptor)
    (u : List Int) (i : Int) (hin : expr.get "input" = .ok (.int i))
    (hint : (Json.int i).IsInt = true) :
    translateColRef self expr td u =
      if 0 ≤ i ∧ i < self.col_names_.length then
        match self.col_names_[i.toNat]? with
        | none => .undefined
        | some col_name =>
          match self.cat_.getMetadataForColumn td.tableId col_name with
          | none => .fatal
          | some cd =>
            .ok (Expr.ColumnVar cd.columnType td.tableId cd.columnId 0, set_insert cd.columnId u)
      else .fatal := by
  have hint2 := hint
  simp only [Json.IsInt, decide_eq_true_eq] at hint2
  unfold translateColRef
  simp only [hin, Res.monad_bind, Res.bind_ok, Json.GetInt, hint, if_true]
  by_cases h0 : 0 ≤ i
  · have hidx : to_size_t i = i.toNat := to_size_t_of_nonneg h0 hint2.2
    by_cases h1 : i < self.col_names_.length
    · have h2 : i.toNat < self.col_names_.length := by omega
      simp [h0, h1, h2, hidx]
    · have h2 : ¬ i.toNat < self.col_names_.length := by omega
      simp [h0, h1, h2, hidx]
  · have h0a : ¬ (i ≥ 0) := h0
    simp [h0, h0a]

/-- C8. For a node whose `input` member is the `int` i: `translateColRef` returns
a value exactly when 0 <= i < |fieldNames| and the catalog has a column named
fieldNames[i] on the target table; the value is then the column reference with
the type of that catalog column, the table id and the id of that column (and the
id is added to the used columns); otherwise the call is fatal. With the field
names x, y, z the index 3 and every negative index are fatal. -/
theorem translateColRef_ok_iff (self : CalciteAdapter) (expr : Json) (td : TableDescriptor)
    (u : List Int) (i : Int) (hin : expr.get "input" = .ok (.int i))
    (hint : (Json.int i).IsInt = true) :
    ((∃ r, translateColRef self expr td u = .ok r) ↔
      0 ≤ i ∧ i < self.col_names_.length ∧
      ∃ name cd, self.col_names_[i.toNat]? = some name ∧
        self.cat_.getMetadataForColumn td.tableId name = some cd) ∧
    (∀ r, translateColRef self expr td u = .ok r →
      ∃ name cd, self.col_names_[i.toNat]? = some name ∧
        self.cat_.getMetadataForColumn td.tableId name = some cd ∧
        r = (Expr.ColumnVar cd.columnType td.tableId cd.columnId 0, set_insert cd.columnId u)) ∧
    ((¬ ∃ r, translateColRef self expr td u = .ok r) → translateColRef self expr td u = .fatal) ∧
    (self.col_names_ = ["x", "y", "z"] → (i = 3 ∨ i < 0) →
      translateColRef self expr td u = .fatal) := by
  rw [translateColRef_eq self expr td u i hin hint]
  by_cases hr : 0 ≤ i ∧ i < self.col_names_.length
  · have h2 : i.toNat < self.col_names_.length := by omega
    rw [if_pos hr]
    simp only [List.getElem?_eq_getElem h2]
    cases hcd : self.cat_.getMetadataForColumn td.tableId self.col_names_[i.toNat] with
    | none =>
      refine ⟨?_, ?_, ?_, ?_⟩
      · constructor
        · rintro ⟨r, hr1⟩; cases hr1
        · rintro ⟨_, _, name, cd, hn, hc⟩
          simp only [Option.some.injEq] at hn
          subst hn
          rw [hcd] at hc
          cases hc
      · intro r hr1; cases hr1
      · intro _; rfl
      · intro _ _; rfl
    | some cd =>
      refine ⟨?_, ?_, ?_, ?_⟩
      · constructor
        · intro _
          exact ⟨hr.1, hr.2, _, cd, rfl, hcd⟩
        · intro _
          exact ⟨_, rfl⟩
      · intro r hr1
        cases hr1
        exact ⟨_, cd, rfl, hcd, rfl⟩
      · intro hno
        exact absurd ⟨_, rfl⟩ hno
      · intro hnames hi
        rw [hnames] at hr
        simp only [List.length_cons, List.length_nil] at hr
        omega
  · rw [if_neg hr]
    refine ⟨?_, ?_, ?_, ?_⟩
    · constructor
      · rintro ⟨r, hr1⟩; cases hr1
      · rintro ⟨h0, h1, _⟩
        exact absurd ⟨h0, h1⟩ hr
    · intro r hr1; cases hr1
    · intro _; rfl
    · intro _ _; rfl

/-- C8, at a concrete input: the index 1 into the field names a, b of the sample
catalog resolves to the column b. -/
theorem translateColRef_ok_iff_witness :
    ((∃ r, translateColRef ⟨sample_catalog, ["a", "b"]⟩ (.obj [("input", .int 1)]) ⟨7⟩ [] = .ok r) ↔
      0 ≤ (1 : Int) ∧ (1 : Int) < (["a", "b"] : List String).length ∧
      ∃ name cd, (["a", "b"] : List String)[(1 : Int).toNat]? = some name ∧
        sample_catalog.getMetadataForColumn 7 name = some cd) ∧
    translateColRef ⟨sample_catalog, ["a", "b"]⟩ (.obj [("input", .int 1)]) ⟨7⟩ [] =
      .ok (Expr.ColumnVar ⟨SQLTypes.kINT, false⟩ 7 2 0, [2]) :=
  ⟨(translateColRef_ok_iff ⟨sample_catalog, ["a", "b"]⟩ (.obj [("input", .int 1)]) ⟨7⟩ [] 1
    rfl rfl).1, rfl⟩


/-! ## Operator application -/

section OperatorFacts

variable (normalize : SQLOps → SQLQualifier → Expr → Expr → Expr)

/-- A node that translates to e from some set of used columns translates to e
from every set. -/
theorem Translates.run {normalize : SQLOps → SQLQualifier → Expr → Expr → Expr}
    {self : CalciteAdapter} {td : TableDescriptor} {scan_targets : List TargetEntry}
    {node : Json} {e : Expr} (h : Translates normalize self td scan_targets node e)
    (u : List Int) :
    ∃ v, getExprFromNode normalize self node td scan_targets u = .ok (e, v) := by
  obtain ⟨u0, v0, h0⟩ := h
  have := getExprFromNode_exprOf normalize self node td scan_targets u u0
  rw [h0, exprOf_ok] at this
  exact exprOf_eq_ok.1 this

/-- A node translates to at most one expression. -/
theorem Translates.unique {normalize : SQLOps → SQLQualifier → Expr → Expr → Expr}
    {self : CalciteAdapter} {td : TableDescriptor} {scan_targets : List TargetEntry}
    {node : Json} {e1 e2 : Expr} (h1 : Translates normalize self td scan_targets node e1)
    (h2 : Translates normalize self td scan_targets node e2) : e1 = e2 := by
  obtain ⟨v1, hv1⟩ := h1.run []
  obtain ⟨v2, hv2⟩ := h2.run []
  rw [hv1] at hv2
  cases hv2
  rfl

/-- A value read through `operator[]` comes from an object that has the member. -/
theorem Json.get_ok_HasMember {j : Json} {name : String} {v : Json} (h : j.get name = .ok v) :
    (j.IsObject && j.HasMember name) = true := by
  cases j <;> simp [Json.get] at h
  rename_i ms
  cases hm : FindMember ms name with
  | none => simp [hm] at h
  | some w => simp [Json.IsObject, Json.HasMember, hm]

/-- A node with a member `op` is translated by `translateOp`. -/
theorem getExprFromNode_op (self : CalciteAdapter) (expr : Json) (td : TableDescriptor)
    (scan_targets : List TargetEntry) (u : List Int) {v : Json} (h : expr.get "op" = .ok v) :
    getExprFromNode normalize self expr td scan_targets u = translateOp normalize self expr td u := by
  rw [getExprFromNode, if_pos (Json.get_ok_HasMember h)]

/-- The operand loop folds the translations of the remaining operands into the
running result, from the left. -/
theorem translateOp_loop_fold (self : CalciteAdapter) (op_str : String) (op : SQLOps)
    (td : TableDescriptor) (hcode : to_sql_op op_str = .ok op) (rest : List Json)
    (xs : List Expr) (htr : List.Forall₂ (Translates normalize self td []) rest xs)
    (lhs : Expr) (u : List Int) :
    ∃ v, translateOp_loop normalize self op_str td rest lhs u =
      .ok (normalize_chain normalize op lhs xs, v) := by
  induction htr generalizing lhs u with
  | nil => exact ⟨u, by rw [translateOp_loop]; rfl⟩
  | @cons node x rest xs hx _ ih =>
    obtain ⟨v, hv⟩ := hx.run u
    obtain ⟨w, hw⟩ := ih (normalize op SQLQualifier.kONE lhs x) v
    refine ⟨w, ?_⟩
    rw [translateOp_loop, hv, Res.bind_ok, hcode, Res.bind_ok, hw]
    rfl

/-- C7. An operator node with a recognised operator name and at least two
operands that all translate is translated to the left fold of `normalize` over
the translations of the operands. In particular three operands under one `+`
node give normalize(+, normalize(+, a, b), c), which is also what the nested
binary node gives. -/
theorem translateOp_left_fold (self : CalciteAdapter) (td : TableDescriptor) (expr : Json)
    (op_str : String) (op : SQLOps) (e0 e1 : Json) (es : List Json) (x0 x1 : Expr)
    (xs : List Expr) (u : List Int)
    (hop : expr.get "op" = .ok (.str op_str)) (hcode : to_sql_op op_str = .ok op)
    (hops : expr.get "operands" = .ok (.arr (e0 :: e1 :: es)))
    (htr : List.Forall₂ (Translates normalize self td []) (e0 :: e1 :: es) (x0 :: x1 :: xs)) :
    (∃ v, translateOp normalize self expr td u =
      .ok (normalize_chain normalize op x0 (x1 :: xs), v)) ∧
    (∀ scan_targets, ∃ v, getExprFromNode normalize self expr td scan_targets u =
      .ok (normalize_chain normalize op x0 (x1 :: xs), v)) ∧
    (∀ (a b c : Json) (xa xb xc : Expr),
      Translates normalize self td [] a xa → Translates normalize self td [] b xb →
      Translates normalize self td [] c xc →
      exprOf (getExprFromNode normalize self
        (.obj [("op", .str "+"), ("operands", .arr [a, b, c])]) td [] u) =
        .ok (normalize .kPLUS .kONE (normalize .kPLUS .kONE xa xb) xc) ∧
      exprOf (getExprFromNode normalize self
        (.obj [("op", .str "+"), ("operands", .arr [a, b, c])]) td [] u) =
      exprOf (getExprFromNode normalize self
        (.obj [("op", .str "+"), ("operands",
          .arr [.obj [("op", .str "+"), ("operands", .arr [a, b])], c])]) td [] u)) := by
  have main : ∀ (expr : Json) (op_str : String) (op : SQLOps) (e0 e1 : Json) (es : List Json)
      (x0 x1 : Expr) (xs : List Expr) (u : List Int),
      expr.get "op" = .ok (.str op_str) → to_sql_op op_str = .ok op →
      expr.get "operands" = .ok (.arr (e0 :: e1 :: es)) →
      List.Forall₂ (Translates normalize self td []) (e0 :: e1 :: es) (x0 :: x1 :: xs) →
      ∃ v, translateOp normalize self expr td u =
        .ok (normalize_chain normalize op x0 (x1 :: xs), v) := by
    intro expr op_str op e0 e1 es x0 x1 xs u hop hcode hops htr
    cases htr with
    | cons h0 hrest =>
      obtain ⟨v0, hv0⟩ := h0.run u
      obtain ⟨w, hw⟩ := translateOp_loop_fold normalize self op_str op td hcode (e1 :: es)
        (x1 :: xs) hrest x0 v0
      refine ⟨w, ?_⟩
      rw [translateOp_eq, hop, Res.bind_ok]
      simp only [Json.GetString, c_str_of_to_sql_op hcode, Res.bind_ok, hops, hv0, hw]
  refine ⟨main expr op_str op e0 e1 es x0 x1 xs u hop hcode hops htr, ?_, ?_⟩
  · intro scan_targets
    rw [getExprFromNode_op normalize self expr td scan_targets u hop]
    exact main expr op_str op e0 e1 es x0 x1 xs u hop hcode hops htr
  · intro a b c xa xb xc ha hb hc
    have hflat : exprOf (getExprFromNode normalize self
        (.obj [("op", .str "+"), ("operands", .arr [a, b, c])]) td [] u) =
        .ok (normalize .kPLUS .kONE (normalize .kPLUS .kONE xa xb) xc) := by
      obtain ⟨v, hv⟩ := main (.obj [("op", .str "+"), ("operands", .arr [a, b, c])]) "+" .kPLUS
        a b [c] xa xb [xc] u rfl rfl rfl
        (List.Forall₂.cons ha (List.Forall₂.cons hb (List.Forall₂.cons hc List.Forall₂.nil)))
      rw [getExprFromNode_op normalize self
        (.obj [("op", .str "+"), ("operands", .arr [a, b, c])]) td [] u (v := .str "+") rfl, hv]
      rfl
    refine ⟨hflat, ?_⟩
    rw [hflat]
    have hinner : Translates normalize self td []
        (.obj [("op", .str "+"), ("operands", .arr [a, b])])
        (normalize .kPLUS .kONE xa xb) := by
      obtain ⟨v, hv⟩ := main (.obj [("op", .str "+"), ("operands", .arr [a, b])]) "+" .kPLUS
        a b [] xa xb [] [] rfl rfl rfl
        (List.Forall₂.cons ha (List.Forall₂.cons hb List.Forall₂.nil))
      refine ⟨[], v, ?_⟩
      rw [getExprFromNode_op normalize self
        (.obj [("op", .str "+"), ("operands", .arr [a, b])]) td [] [] (v := .str "+") rfl, hv]
      rfl
    obtain ⟨v, hv⟩ := main (.obj [("op", .str "+"), ("operands",
        .arr [.obj [("op", .str "+"), ("operands", .arr [a, b])], c])]) "+" .kPLUS
      (.obj [("op", .str "+"), ("operands", .arr [a, b])]) c [] (normalize .kPLUS .kONE xa xb) xc []
      u rfl rfl rfl
      (List.Forall₂.cons hinner (List.Forall₂.cons hc List.Forall₂.nil))
    rw [getExprFromNode_op normalize self (.obj [("op", .str "+"), ("operands",
        .arr [.obj [("op", .str "+"), ("operands", .arr [a, b])], c])]) td [] u
      (v := .str "+") rfl, hv]
    rfl

end OperatorFacts

/-- An integer literal node translates to the constant of its value. -/
theorem Translates_int (normalize : SQLOps → SQLQualifier → Expr → Expr → Expr)
    (self : CalciteAdapter) (td : TableDescriptor) (scan_targets : List TargetEntry) (i : Int)
    (hi : (Json.int i).IsInt = true) :
    Translates normalize self td scan_targets (.int i) (.Constant i) := by
  refine ⟨[], [], ?_⟩
  have h64 : -9223372036854775808 ≤ i ∧ i ≤ 9223372036854775807 := by
    simp only [Json.IsInt, decide_eq_true_eq] at hi
    omega
  rw [getExprFromNode]
  simp [Json.IsObject, hi, translateIntLiteral, Json.GetInt64, h64, analyzeValue]

/-- C7, at a concrete input: the node `1 + 2 + 3` with the sample normalizer. -/
theorem translateOp_left_fold_witness :
    ∃ v, translateOp sample_normalize ⟨sample_catalog, ["a", "b"]⟩
        (.obj [("op", .str "+"), ("operands", .arr [.int 1, .int 2, .int 3])]) ⟨7⟩ [] =
      .ok (Expr.BinOper .kPLUS .kONE (Expr.BinOper .kPLUS .kONE (.Constant 1) (.Constant 2))
        (.Constant 3), v) :=
  (translateOp_left_fold sample_normalize ⟨sample_catalog, ["a", "b"]⟩ ⟨7⟩
    (.obj [("op", .str "+"), ("operands", .arr [.int 1, .int 2, .int 3])]) "+" .kPLUS
    (.int 1) (.int 2) [.int 3] (.Constant 1) (.Constant 2) [.Constant 3] [] rfl rfl rfl
    (List.Forall₂.cons (Translates_int _ _ _ _ 1 rfl)
      (List.Forall₂.cons (Translates_int _ _ _ _ 2 rfl)
        (List.Forall₂.cons (Translates_int _ _ _ _ 3 rfl) List.Forall₂.nil)))).1


/-! ## Target reconciliation -/

/-- Looking a key up after one more pair was appended. -/
theorem umap_find_append (m : List (Nat × Expr)) (k p : Nat) (v : Expr) :
    umap_find (m ++ [(k, v)]) p =
      match umap_find m p with
      | some e => some e
      | none => if k = p then some v else none := by
  induction m with
  | nil => simp [umap_find]
  | cons kv m ih =>
    obtain ⟨k1, v1⟩ := kv
    by_cases h : k1 = p
    · simp [umap_find, h]
    · simp [umap_find, h, ih]

/-- An insertion keeps the value of a key that is present and gives the new
value to a key that is not. -/
theorem umap_find_insert (m : List (Nat × Expr)) (k p : Nat) (v : Expr) :
    umap_find (umap_insert m k v) p =
      match umap_find m p with
      | some e => some e
      | none => if k = p then some v else none := by
  unfold umap_insert
  cases hk : umap_find m k with
  | some e0 =>
    simp only
    cases hp : umap_find m p with
    | some e => rfl
    | none =>
      have : k ≠ p := by
        rintro rfl
        rw [hk] at hp
        cases hp
      simp [this]
  | none => exact umap_find_append m k p v

section ReconciliationFacts

variable (normalize : SQLOps → SQLQualifier → Expr → Expr → Expr)

/-- The projection loop appends, in order, the translations of the projection
nodes that are not constants. -/
theorem collect_target_entries_proj_loop_ok (self : CalciteAdapter) (td : TableDescriptor)
    (nodes : List Json) (S0 : List TargetEntry) (u : List Int) (S : List TargetEntry)
    (w : List Int)
    (h : collect_target_entries_proj_loop normalize self td nodes S0 u = .ok (S, w)) :
    ∃ es, List.Forall₂ (Translates normalize self td []) nodes es ∧
      S = S0 ++ (es.filter (fun e => !e.isConstant)).map new_target := by
  induction nodes generalizing S0 u with
  | nil =>
    simp only [collect_target_entries_proj_loop, Res.ok.injEq, Prod.mk.injEq] at h
    exact ⟨[], List.Forall₂.nil, by simp [h.1]⟩
  | cons node nodes ih =>
    simp only [collect_target_entries_proj_loop] at h
    obtain ⟨r, hr, h⟩ := Res.bind_eq_ok.1 h
    obtain ⟨e, v⟩ := r
    have htr : Translates normalize self td [] node e := ⟨u, v, hr⟩
    by_cases hc : e.isConstant = true
    · simp only [hc, if_true] at h
      obtain ⟨es, hes, hS⟩ := ih S0 v h
      exact ⟨e :: es, List.Forall₂.cons htr hes, by simp [hc, hS]⟩
    · simp only [hc] at h
      obtain ⟨es, hes, hS⟩ := ih _ v h
      refine ⟨e :: es, List.Forall₂.cons htr hes, ?_⟩
      simp [hc, hS, new_target]

/-- The aggregate loop pairs every node with its operand index and its
translation; the nodes with a negative index are appended to the extra targets
in order, and the map holds for every key the first node of that index. -/
theorem collect_target_entries_agg_loop_ok (self : CalciteAdapter) (td : TableDescriptor)
    (S : List TargetEntry) (nodes : List Json) (m0 : List (Nat × Expr))
    (more0 : List TargetEntry) (u : List Int) (m : List (Nat × Expr))
    (more : List TargetEntry) (w : List Int)
    (h : collect_target_entries_agg_loop normalize self td S nodes m0 more0 u = .ok (m, more, w)) :
    ∃ keyed : List (Int × Expr),
      List.Forall₂ (fun node ke => get_agg_operand_idx node = .ok ke.1 ∧
        Translates normalize self td S node ke.2) nodes keyed ∧
      more = more0 ++ (extra_aggregates keyed).map new_target ∧
      ∀ p, umap_find m p =
        match umap_find m0 p with
        | some e => some e
        | none => keyed_aggregate keyed p := by
  induction nodes generalizing m0 more0 u with
  | nil =>
    simp only [collect_target_entries_agg_loop, Res.ok.injEq, Prod.mk.injEq] at h
    refine ⟨[], List.Forall₂.nil, by simp [h.2.1, extra_aggregates], ?_⟩
    intro p
    rw [h.1]
    cases umap_find m p <;> rfl
  | cons node nodes ih =>
    simp only [collect_target_entries_agg_loop] at h
    obtain ⟨r, hr, h⟩ := Res.bind_eq_ok.1 h
    obtain ⟨e, v⟩ := r
    obtain ⟨idx, hidx, h⟩ := Res.bind_eq_ok.1 h
    have htr : Translates normalize self td S node e := ⟨u, v, hr⟩
    by_cases hneg : idx < 0
    · simp only [hneg, if_true] at h
      obtain ⟨keyed, hk, hmore, hfind⟩ := ih _ _ v h
      refine ⟨(idx, e) :: keyed, List.Forall₂.cons ⟨hidx, htr⟩ hk, ?_, ?_⟩
      · simp [hmore, extra_aggregates, hneg, new_target]
      · intro p
        rw [hfind p]
        have hne : idx ≠ (p : Int) := by omega
        simp [keyed_aggregate, hne]
    · simp only [hneg, if_false] at h
      obtain ⟨keyed, hk, hmore, hfind⟩ := ih _ _ v h
      refine ⟨(idx, e) :: keyed, List.Forall₂.cons ⟨hidx, htr⟩ hk, ?_, ?_⟩
      · simp [hmore, extra_aggregates, hneg]
      · intro p
        rw [hfind p, umap_find_insert]
        have hiff : idx.toNat = p ↔ idx = (p : Int) := by omega
        cases umap_find m0 p with
        | some e0 => rfl
        | none =>
          by_cases hp : idx = (p : Int)
          · simp [keyed_aggregate, hp]
          · have hp2 : ¬ idx.toNat = p := fun hq => hp (hiff.1 hq)
            simp [keyed_aggregate, hp, hp2]

end ReconciliationFacts

/-- The merge loop gives one target per scan target: the aggregate the map holds
for that position, or else the expression of the scan target. -/
theorem collect_target_entries_merge_loop_get (m : List (Nat × Expr)) (k : Nat)
    (S : List TargetEntry) :
    (collect_target_entries_merge_loop m k S).length = S.length ∧
    ∀ p (hp : p < S.length), (collect_target_entries_merge_loop m k S)[p]? =
      some (new_target (match umap_find m (k + p) with
        | some e => e
        | none => (S[p]).get_own_expr)) := by
  induction S generalizing k with
  | nil => simp [collect_target_entries_merge_loop]
  | cons te S ih =>
    refine ⟨by simp [collect_target_entries_merge_loop, (ih (k + 1)).1], ?_⟩
    intro p hp
    cases p with
    | zero =>
      simp only [collect_target_entries_merge_loop, List.getElem?_cons_zero, Nat.add_zero,
        List.getElem_cons_zero]
      cases umap_find m k <;> rfl
    | succ p =>
      have hp1 : p < S.length := by simpa using hp
      have := (ih (k + 1)).2 p hp1
      simp only [collect_target_entries_merge_loop, List.getElem?_cons_succ, List.getElem_cons_succ]
      rw [this]
      have : k + 1 + p = k + (p + 1) := by omega
      rw [this]


/-- Some node has operand index p exactly when an aggregate is keyed to p. -/
theorem keyed_aggregate_some_iff (keyed : List (Int × Expr)) (p : Nat) :
    (∃ ke ∈ keyed, ke.1 = (p : Int)) ↔ ∃ e, keyed_aggregate keyed p = some e := by
  induction keyed with
  | nil => simp [keyed_aggregate]
  | cons ke keyed ih =>
    obtain ⟨idx, e⟩ := ke
    by_cases hi : idx = (p : Int)
    · simp [keyed_aggregate, hi]
    · rw [List.exists_mem_cons_iff]
      simp only [keyed_aggregate, hi, if_false, false_or]
      exact ih

section ReconciliationClaims

variable (normalize : SQLOps → SQLQualifier → Expr → Expr → Expr)

/-- What a run of `collect_target_entries` from two empty vectors returned: the
scan targets are the translations of the projection nodes that are not
constants; the reconciled list has, position by position, the aggregate keyed to
the position or else the expression of the scan target, and after them the extra
aggregates. -/
theorem collect_target_entries_ok (group_nodes proj_nodes agg_nodes : Json)
    (self : CalciteAdapter) (td : TableDescriptor) (u : List Int) (T S : List TargetEntry)
    (w : List Int)
    (h : collect_target_entries normalize [] [] group_nodes proj_nodes agg_nodes self td u =
      .ok (T, S, w)) :
    ∃ proj_list agg_list es keyed,
      proj_nodes = .arr proj_list ∧ agg_nodes = .arr agg_list ∧
      List.Forall₂ (Translates normalize self td []) proj_list es ∧
      S = (es.filter (fun e => !e.isConstant)).map new_target ∧
      List.Forall₂ (fun node ke => get_agg_operand_idx node = .ok ke.1 ∧
        Translates normalize self td S node ke.2) agg_list keyed ∧
      T.length = S.length + (extra_aggregates keyed).length ∧
      (∀ p (hp : p < S.length), T[p]? = some (new_target (match keyed_aggregate keyed p with
        | some e => e
        | none => (S[p]).get_own_expr))) ∧
      T.drop S.length = (extra_aggregates keyed).map new_target := by
  unfold collect_target_entries at h
  simp only [Res.monad_bind, Res.monad_pure] at h
  obtain ⟨_, hc1, h⟩ := Res.bind_eq_ok.1 h
  obtain ⟨proj_list, hpl, h⟩ := Res.bind_eq_ok.1 h
  obtain ⟨r1, hr1, h⟩ := Res.bind_eq_ok.1 h
  obtain ⟨S1, u1⟩ := r1
  simp only at h
  obtain ⟨agg_list, hal, h⟩ := Res.bind_eq_ok.1 h
  obtain ⟨r2, hr2, h⟩ := Res.bind_eq_ok.1 h
  obtain ⟨m, more, u2⟩ := r2
  simp only at h
  obtain ⟨_, hc2, h⟩ := Res.bind_eq_ok.1 h
  simp only [List.nil_append, Res.ok.injEq, Prod.mk.injEq] at h
  obtain ⟨hT, hS, _⟩ := h
  subst hS
  have hproj : proj_nodes = .arr proj_list := by
    cases proj_nodes <;> simp [Json.elements] at hpl
    rw [hpl]
  have hagg : agg_nodes = .arr agg_list := by
    cases agg_nodes <;> simp [Json.elements] at hal
    rw [hal]
  obtain ⟨es, hes, hSeq⟩ := collect_target_entries_proj_loop_ok normalize self td proj_list [] u
    S1 u1 hr1
  obtain ⟨keyed, hk, hmore, hfind⟩ := collect_target_entries_agg_loop_ok normalize self td S1
    agg_list [] [] u1 m more u2 hr2
  have hmerge := collect_target_entries_merge_loop_get m 0 S1
  simp only [List.nil_append] at hmore hSeq
  refine ⟨proj_list, agg_list, es, keyed, hproj, hagg, hes, hSeq, hk, ?_, ?_, ?_⟩
  · rw [← hT, List.length_append, hmerge.1, hmore, List.length_map]
  · intro p hp
    have h1 := hmerge.2 p hp
    rw [← hT, List.getElem?_append_left (by rw [hmerge.1]; exact hp), h1, hfind (0 + p)]
    simp [umap_find]
  · rw [← hT, ← hmerge.1, List.drop_left, hmore]

/-- C3, as the code has it: on every successful run of `collect_target_entries`
with scan targets S, for each position p of S the reconciled list T has at p the
aggregate keyed to p (the translation of the first aggregate node with operand
index p) when some aggregate node has operand index p, and otherwise exactly the
expression of S[p]; and the entries of T after those are exactly the
translations of the aggregate nodes for which `get_agg_operand_idx` returns a
negative index (a node without member `agg`, with an empty operand list, or with
a negative operand), in the order of the `aggs` list. -/
theorem collect_target_entries_reconciles (group_nodes proj_nodes agg_nodes : Json)
    (self : CalciteAdapter) (td : TableDescriptor) (u : List Int) (T S : List TargetEntry)
    (w : List Int)
    (h : collect_target_entries normalize [] [] group_nodes proj_nodes agg_nodes self td u =
      .ok (T, S, w)) :
    ∃ agg_list keyed,
      agg_nodes = .arr agg_list ∧
      List.Forall₂ (fun node ke => get_agg_operand_idx node = .ok ke.1 ∧
        Translates normalize self td S node ke.2) agg_list keyed ∧
      (∀ p (hp : p < S.length),
        ((∃ ke ∈ keyed, ke.1 = (p : Int)) →
          ∃ e, keyed_aggregate keyed p = some e ∧ T[p]? = some (new_target e)) ∧
        ((¬ ∃ ke ∈ keyed, ke.1 = (p : Int)) → T[p]? = some (new_target (S[p]).get_own_expr))) ∧
      T.drop S.length = (extra_aggregates keyed).map new_target := by
  obtain ⟨proj_list, agg_list, es, keyed, _, hagg, _, _, hk, _, hpos, hdrop⟩ :=
    collect_target_entries_ok normalize group_nodes proj_nodes agg_nodes self td u T S w h
  refine ⟨agg_list, keyed, hagg, hk, ?_, hdrop⟩
  intro p hp
  have hkeyed := keyed_aggregate_some_iff keyed p
  constructor
  · intro hex
    obtain ⟨e, he⟩ := hkeyed.1 hex
    refine ⟨e, he, ?_⟩
    rw [hpos p hp, he]
  · intro hno
    have hnone : keyed_aggregate keyed p = none := by
      cases hka : keyed_aggregate keyed p with
      | none => rfl
      | some e => exact absurd (hkeyed.2 ⟨e, hka⟩) hno
    rw [hpos p hp, hnone]

end ReconciliationClaims


/-! ## Running the translator on the sample nodes -/

section SampleRuns

variable (normalize : SQLOps → SQLQualifier → Expr → Expr → Expr)

/-- An object without `op` and with `input` is translated as a column
reference. -/
theorem getExprFromNode_input (self : CalciteAdapter) (expr : Json) (td : TableDescriptor)
    (scan_targets : List TargetEntry) (u : List Int)
    (h1 : (expr.IsObject && expr.HasMember "op") = false)
    (h2 : (expr.IsObject && expr.HasMember "input") = true) :
    getExprFromNode normalize self expr td scan_targets u = translateColRef self expr td u := by
  rw [getExprFromNode, h1, h2]
  rfl

/-- An object without `op` and `input` and with `agg` is translated as an
aggregate. -/
theorem getExprFromNode_agg (self : CalciteAdapter) (expr : Json) (td : TableDescriptor)
    (scan_targets : List TargetEntry) (u : List Int)
    (h1 : (expr.IsObject && expr.HasMember "op") = false)
    (h2 : (expr.IsObject && expr.HasMember "input") = false)
    (h3 : (expr.IsObject && expr.HasMember "agg") = true) :
    getExprFromNode normalize self expr td scan_targets u =
      (translateAggregate expr td scan_targets).bind fun e => .ok (e, u) := by
  rw [getExprFromNode, h1, h2, h3]
  rfl

/-- The sample column reference 0 translates to the column a. -/
theorem getExprFromNode_sample_col0 (S : List TargetEntry) (u : List Int) :
    getExprFromNode normalize sample_adapter sample_col0 sample_td S u =
      .ok (sample_expr_a, set_insert 1 u) := by
  rw [getExprFromNode_input normalize sample_adapter sample_col0 sample_td S u rfl rfl]
  rfl

/-- The sample column reference 1 translates to the column b. -/
theorem getExprFromNode_sample_col1 (S : List TargetEntry) (u : List Int) :
    getExprFromNode normalize sample_adapter sample_col1 sample_td S u =
      .ok (sample_expr_b, set_insert 2 u) := by
  rw [getExprFromNode_input normalize sample_adapter sample_col1 sample_td S u rfl rfl]
  rfl

/-- A sample aggregate node is translated by `translateAggregate`. -/
theorem getExprFromNode_sample_agg (self : CalciteAdapter) (td : TableDescriptor)
    (name : String) (operands : List Json) (S : List TargetEntry) (u : List Int) :
    getExprFromNode normalize self (sample_agg name operands) td S u =
      (translateAggregate (sample_agg name operands) td S).bind fun e => .ok (e, u) :=
  getExprFromNode_agg normalize _ _ _ _ _ rfl rfl rfl

end SampleRuns

/-- C3 as the code has it, at a concrete input: the projections a, b with a count
without operand and a minimum over position 1. -/
theorem collect_target_entries_reconciles_witness :
    ∃ agg_list keyed,
      Json.arr [sample_agg "COUNT" [], sample_agg "MIN" [.int 1]] = .arr agg_list ∧
      List.Forall₂ (fun node ke => get_agg_operand_idx node = .ok ke.1 ∧
        Translates sample_normalize sample_adapter sample_td
          [new_target sample_expr_a, new_target sample_expr_b] node ke.2) agg_list keyed ∧
      (∀ p (hp : p < [new_target sample_expr_a, new_target sample_expr_b].length),
        ((∃ ke ∈ keyed, ke.1 = (p : Int)) →
          ∃ e, keyed_aggregate keyed p = some e ∧
            [new_target sample_expr_a,
             new_target (.AggExpr ⟨.kBIGINT, false⟩ .kMIN (some sample_expr_b) false),
             new_target (.AggExpr ⟨.kBIGINT, false⟩ .kCOUNT none false)][p]? =
              some (new_target e)) ∧
        ((¬ ∃ ke ∈ keyed, ke.1 = (p : Int)) →
          [new_target sample_expr_a,
           new_target (.AggExpr ⟨.kBIGINT, false⟩ .kMIN (some sample_expr_b) false),
           new_target (.AggExpr ⟨.kBIGINT, false⟩ .kCOUNT none false)][p]? =
            some (new_target
              ([new_target sample_expr_a, new_target sample_expr_b][p]).get_own_expr))) ∧
      [new_target sample_expr_a,
       new_target (.AggExpr ⟨.kBIGINT, false⟩ .kMIN (some sample_expr_b) false),
       new_target (.AggExpr ⟨.kBIGINT, false⟩ .kCOUNT none false)].drop
        [new_target sample_expr_a, new_target sample_expr_b].length =
        (extra_aggregates keyed).map new_target :=
  collect_target_entries_reconciles sample_normalize (.arr []) (.arr [sample_col0, sample_col1])
    (.arr [sample_agg "COUNT" [], sample_agg "MIN" [.int 1]]) sample_adapter sample_td []
    [new_target sample_expr_a,
     new_target (.AggExpr ⟨.kBIGINT, false⟩ .kMIN (some sample_expr_b) false),
     new_target (.AggExpr ⟨.kBIGINT, false⟩ .kCOUNT none false)]
    [new_target sample_expr_a, new_target sample_expr_b] [1, 2]
    (by
      simp only [collect_target_entries, Res.monad_bind, Res.monad_pure, Json.IsArray,
        CHECK_true, Res.bind_ok, Json.elements, collect_target_entries_proj_loop,
        collect_target_entries_agg_loop, getExprFromNode_sample_col0,
        getExprFromNode_sample_col1, getExprFromNode_sample_agg]
      rfl)


/-! ## Two aggregates on one position -/

/-- In a list of pairs that starts with j pairs of other keys and then has a
pair of key p, the aggregate keyed to p is the value of that pair. -/
theorem keyed_aggregate_first (keyed : List (Int × Expr)) (p j : Nat) (hj : j < keyed.length)
    (hkey : (keyed[j]).1 = (p : Int))
    (hfirst : ∀ i (hi : i < j), (keyed[i]).1 ≠ (p : Int)) :
    keyed_aggregate keyed p = some (keyed[j]).2 := by
  induction keyed generalizing j with
  | nil => simp at hj
  | cons ke keyed ih =>
    obtain ⟨idx, e⟩ := ke
    cases j with
    | zero =>
      simp only [List.getElem_cons_zero] at hkey
      simp [keyed_aggregate, hkey]
    | succ j =>
      have h0 : idx ≠ (p : Int) := by
        have := hfirst 0 (Nat.succ_pos j)
        simpa using this
      have hj1 : j < keyed.length := by simpa using hj
      simp only [keyed_aggregate, h0, if_false, List.getElem_cons_succ]
      apply ih j hj1
      · simpa using hkey
      · intro i hi
        have := hfirst (i + 1) (Nat.succ_lt_succ hi)
        simpa using this

section FirstWins

variable (normalize : SQLOps → SQLQualifier → Expr → Expr → Expr)

/-- C9, as the code has it: on every successful run of `collect_target_entries`,
when the aggregate node at place j of the `aggs` list is the first one with
operand index p, a position of the scan targets, then position p of the
reconciled list holds the translation of that node, whatever later nodes carry
the same operand index (`std::unordered_map::insert` keeps the first value). -/
theorem collect_target_entries_first_wins (group_nodes proj_nodes : Json)
    (agg_list : List Json) (self : CalciteAdapter) (td : TableDescriptor) (u : List Int)
    (T S : List TargetEntry) (w : List Int)
    (h : collect_target_entries normalize [] [] group_nodes proj_nodes (.arr agg_list) self td u =
      .ok (T, S, w))
    (p j : Nat) (hp : p < S.length) (hj : j < agg_list.length)
    (hidx : get_agg_operand_idx (agg_list[j]) = .ok (p : Int))
    (hfirst : ∀ i (hi : i < j), get_agg_operand_idx (agg_list[i]) ≠ .ok (p : Int))
    (e : Expr) (he : Translates normalize self td S (agg_list[j]) e) :
    T[p]? = some (new_target e) := by
  obtain ⟨proj_list, agg_list1, es, keyed, _, hagg, _, _, hk, _, hpos, _⟩ :=
    collect_target_entries_ok normalize group_nodes proj_nodes (.arr agg_list) self td u T S w h
  cases hagg
  have hlen : agg_list.length = keyed.length := hk.length_eq
  have hget : ∀ i (hi : i < agg_list.length) (hi2 : i < keyed.length),
      get_agg_operand_idx (agg_list[i]) = .ok (keyed[i]).1 ∧
      Translates normalize self td S (agg_list[i]) (keyed[i]).2 := by
    intro i hi hi2
    exact List.Forall₂.get hk hi hi2
  have hj2 : j < keyed.length := hlen ▸ hj
  have hkeyj := hget j hj hj2
  have hkey : (keyed[j]).1 = (p : Int) := by
    have := hkeyj.1
    rw [hidx] at this
    exact (Res.ok.inj this).symm
  have hfirst2 : ∀ i (hi : i < j), (keyed[i]).1 ≠ (p : Int) := by
    intro i hi heq
    have hi1 : i < agg_list.length := by omega
    have := (hget i hi1 (by omega)).1
    rw [heq] at this
    exact hfirst i hi this
  have hka := keyed_aggregate_first keyed p j hj2 hkey hfirst2
  rw [hpos p hp, hka, Translates.unique he hkeyj.2]

end FirstWins

/-- The sample minimum and maximum over position 0 translate, given the scan
target a, to the aggregates over a. -/
theorem translateAggregate_sample_min_max :
    translateAggregate (sample_agg "MIN" [.int 0]) sample_td [new_target sample_expr_a] =
      .ok (.AggExpr ⟨.kBIGINT, false⟩ .kMIN (some sample_expr_a) false) ∧
    translateAggregate (sample_agg "MAX" [.int 0]) sample_td [new_target sample_expr_a] =
      .ok (.AggExpr ⟨.kBIGINT, false⟩ .kMAX (some sample_expr_a) false) :=
  ⟨rfl, rfl⟩

/-- The run of `collect_target_entries` on the projection a with a minimum and
then a maximum over position 0. -/
theorem collect_target_entries_sample_min_max :
    collect_target_entries sample_normalize [] [] (.arr []) (.arr [sample_col0])
        (.arr [sample_agg "MIN" [.int 0], sample_agg "MAX" [.int 0]]) sample_adapter sample_td [] =
      .ok ([new_target (.AggExpr ⟨.kBIGINT, false⟩ .kMIN (some sample_expr_a) false)],
        [new_target sample_expr_a], [1]) := by
  simp only [collect_target_entries, Res.monad_bind, Res.monad_pure, Json.IsArray,
    CHECK_true, Res.bind_ok, Json.elements, collect_target_entries_proj_loop,
    collect_target_entries_agg_loop, getExprFromNode_sample_col0, getExprFromNode_sample_agg]
  rfl

/-- C9, refuted as stated: with a minimum and then a maximum over position 0, the
run succeeds, the last node of operand index 0 translates to the maximum, and
position 0 of the reconciled list holds the minimum. -/
theorem collect_target_entries_last_does_not_win :
    ∃ T S w, collect_target_entries sample_normalize [] [] (.arr []) (.arr [sample_col0])
        (.arr [sample_agg "MIN" [.int 0], sample_agg "MAX" [.int 0]]) sample_adapter sample_td [] =
        .ok (T, S, w) ∧
      get_agg_operand_idx (sample_agg "MIN" [.int 0]) = .ok 0 ∧
      get_agg_operand_idx (sample_agg "MAX" [.int 0]) = .ok 0 ∧
      0 < S.length ∧
      getExprFromNode sample_normalize sample_adapter (sample_agg "MAX" [.int 0]) sample_td S [] =
        .ok (.AggExpr ⟨.kBIGINT, false⟩ .kMAX (some sample_expr_a) false, []) ∧
      T[0]? ≠ some (new_target (.AggExpr ⟨.kBIGINT, false⟩ .kMAX (some sample_expr_a) false)) := by
  refine ⟨_, _, _, collect_target_entries_sample_min_max, rfl, rfl, by decide, ?_, ?_⟩
  · rw [getExprFromNode_sample_agg, translateAggregate_sample_min_max.2]
    rfl
  · simp [new_target]

/-- C9 as the code has it, at a concrete input: the minimum is first, so it
takes position 0. -/
theorem collect_target_entries_first_wins_witness :
    [new_target (.AggExpr ⟨.kBIGINT, false⟩ .kMIN (some sample_expr_a) false)][0]? =
      some (new_target (.AggExpr ⟨.kBIGINT, false⟩ .kMIN (some sample_expr_a) false)) :=
  collect_target_entries_first_wins sample_normalize (.arr []) (.arr [sample_col0])
    [sample_agg "MIN" [.int 0], sample_agg "MAX" [.int 0]] sample_adapter sample_td []
    [new_target (.AggExpr ⟨.kBIGINT, false⟩ .kMIN (some sample_expr_a) false)]
    [new_target sample_expr_a] [1] collect_target_entries_sample_min_max 0 0 (by decide)
    (by decide) rfl (fun i hi => absurd hi (Nat.not_lt_zero i))
    (.AggExpr ⟨.kBIGINT, false⟩ .kMIN (some sample_expr_a) false)
    ⟨[], [], by
      show getExprFromNode sample_normalize sample_adapter (sample_agg "MIN" [.int 0]) sample_td
        [new_target sample_expr_a] [] = _
      rw [getExprFromNode_sample_agg]
      exact congrArg (fun r => Res.bind r fun e => Res.ok (e, ([] : List Int)))
        translateAggregate_sample_min_max.1⟩


/-! ## Operand indices past the scan targets -/

/-- The operand index of an aggregate node whose operand list is the single
`int` j. -/
theorem get_agg_operand_idx_single (expr : Json) (v : Json) (j : Int)
    (hagg : expr.get "agg" = .ok v) (hops : expr.get "operands" = .ok (.arr [.int j]))
    (hj : (Json.int j).IsInt = true) :
    get_agg_operand_idx expr = .ok j := by
  have hm := Json.get_ok_HasMember hagg
  simp only [Bool.and_eq_true] at hm
  unfold get_agg_operand_idx
  simp [hm.1, hm.2, hops, Json.IsArray, Json.Size, Json.elements, Json.index, Json.GetInt, hj]

/-- Every element of the left list of two related lists is related to some
element of the right list. -/
theorem forall₂_of_mem {α β : Type} {R : α → β → Prop} {l1 : List α} {l2 : List β}
    (h : List.Forall₂ R l1 l2) {a : α} (ha : a ∈ l1) : ∃ b, R a b := by
  induction h with
  | nil => cases ha
  | cons hab _ ih =>
    rcases List.mem_cons.1 ha with rfl | ha
    · exact ⟨_, hab⟩
    · exact ih ha

/-- C10, as the code has it: an aggregate node that takes an argument (its kind
is not COUNT, or it is distinct) and whose operand list is a single `int` that is
not a position of the scan targets is never translated: `translateAggregate`
returns no value, and is fatal whenever the type descriptor of the node can be
read; a node of this kind that is dispatched as an aggregate makes
`getExprFromNode` and every run of `collect_target_entries` on an `aggs` list
that contains it fail. -/
theorem translateAggregate_operand_out_of_range (expr : Json) (td0 : TableDescriptor)
    (S : List TargetEntry)
    (name : String) (k : SQLAgg) (d : Bool) (j : Int)
    (hagg : expr.get "agg" = .ok (.str name)) (hk : to_agg_kind name = .ok k)
    (hd : expr.get "distinct" = .ok (.bool d)) (htakes : k ≠ SQLAgg.kCOUNT ∨ d = true)
    (hops : expr.get "operands" = .ok (.arr [.int j])) (hj : (Json.int j).IsInt = true)
    (hout : j < 0 ∨ (S.length : Int) ≤ j) :
    (∀ e, translateAggregate expr td0 S ≠ .ok e) ∧
    (∀ ti, (expr.get "type").bind read_type_info = .ok ti →
      translateAggregate expr td0 S = .fatal) ∧
    (∀ normalize self td u, (expr.IsObject && expr.HasMember "op") = false →
      (expr.IsObject && expr.HasMember "input") = false →
      (∀ r, getExprFromNode normalize self expr td S u ≠ .ok r) ∧
      ∀ group_nodes proj_nodes agg_list T w, expr ∈ agg_list →
        collect_target_entries normalize [] [] group_nodes proj_nodes (.arr agg_list) self td u ≠
          .ok (T, S, w)) := by
  have hidx := get_agg_operand_idx_single expr _ j hagg hops hj
  have htk : (decide (k ≠ SQLAgg.kCOUNT) || d) = true := by
    rcases htakes with h | h
    · simp [h]
    · simp [h]
  have hform : ∀ td, translateAggregate expr td S =
      (CHECK (expr.IsObject && expr.HasMember "type")).bind fun _ =>
      (expr.get "type").bind fun expr_type =>
      (CHECK expr_type.IsObject).bind fun _ =>
      (read_type_info expr_type).bind fun _ => (Res.fatal : Res Expr) := by
    intro td
    unfold translateAggregate
    simp only [Res.monad_bind, hidx, Res.bind_ok, hagg, Json.GetString, c_str_of_to_agg_kind hk,
      hk, hd, Json.GetBool, htk, if_true]
    have hf : ∀ ti : SQLTypeInfo, ((CHECK (decide (j ≥ 0))).bind fun _ =>
        (CHECK (decide (j < (S.length : Int)))).bind fun _ =>
          (match S[j.toNat]? with
            | none => Res.undefined
            | some te => Res.ok (Expr.AggExpr ti k (some te.get_own_expr) d))) = Res.fatal := by
      intro ti
      rcases hout with h | h
      · have : ¬ (j ≥ 0) := by omega
        simp [this]
      · by_cases h0 : j ≥ 0
        · have : ¬ (j < (S.length : Int)) := by omega
          simp [h0, this]
        · simp [h0]
    simp only [hf]
  have hnot : ∀ td e, translateAggregate expr td S ≠ .ok e := by
    intro td e he
    rw [hform] at he
    obtain ⟨_, _, he⟩ := Res.bind_eq_ok.1 he
    obtain ⟨_, _, he⟩ := Res.bind_eq_ok.1 he
    obtain ⟨_, _, he⟩ := Res.bind_eq_ok.1 he
    obtain ⟨_, _, he⟩ := Res.bind_eq_ok.1 he
    cases he
  refine ⟨hnot td0, ?_, ?_⟩
  · intro ti hti
    obtain ⟨t, ht, hrt⟩ := Res.bind_eq_ok.1 hti
    have hobj : t.IsObject = true := by
      unfold read_type_info at hrt
      simp only [Res.monad_bind] at hrt
      obtain ⟨_, hg, _⟩ := Res.bind_eq_ok.1 hrt
      have := Json.get_ok_HasMember hg
      simp only [Bool.and_eq_true] at this
      exact this.1
    rw [hform, Json.get_ok_HasMember ht, ht]
    simp only [CHECK_true, Res.bind_ok, hobj, hrt]
  · intro normalize self td u h1 h2
    have hm := Json.get_ok_HasMember hagg
    have hgen : ∀ v r, getExprFromNode normalize self expr td S v ≠ .ok r := by
      intro v r hr
      rw [getExprFromNode_agg normalize self expr td S v h1 h2 hm] at hr
      obtain ⟨e, he, _⟩ := Res.bind_eq_ok.1 hr
      exact hnot td e he
    refine ⟨hgen u, ?_⟩
    intro group_nodes proj_nodes agg_list T w hmem hrun
    obtain ⟨_, agg_list1, _, keyed, _, hal, _, _, hkf, _⟩ :=
      collect_target_entries_ok normalize group_nodes proj_nodes (.arr agg_list) self td u T S w hrun
    cases hal
    obtain ⟨ke, _, v1, v2, hv⟩ := forall₂_of_mem hkf hmem
    exact hgen v1 _ hv

/-- The run of `collect_target_entries` on the projection a with one COUNT that
is not distinct and names the operand index 5. -/
theorem collect_target_entries_sample_count5 :
    collect_target_entries sample_normalize [] [] (.arr []) (.arr [sample_col0])
        (.arr [sample_agg "COUNT" [.int 5]]) sample_adapter sample_td [] =
      .ok ([new_target sample_expr_a], [new_target sample_expr_a], [1]) := by
  simp only [collect_target_entries, Res.monad_bind, Res.monad_pure, Json.IsArray,
    CHECK_true, Res.bind_ok, Json.elements, collect_target_entries_proj_loop,
    collect_target_entries_agg_loop, getExprFromNode_sample_col0, getExprFromNode_sample_agg]
  rfl

/-- C10, refuted as stated: a COUNT that is not distinct and whose operand list
is the single index 5, past the one scan target, is translated without error,
the run of `collect_target_entries` succeeds, and the reconciled list has the
scan target only: the aggregate is left out. -/
theorem collect_target_entries_drops_count :
    ∃ T S w, collect_target_entries sample_normalize [] [] (.arr []) (.arr [sample_col0])
        (.arr [sample_agg "COUNT" [.int 5]]) sample_adapter sample_td [] = .ok (T, S, w) ∧
      (S.length : Int) ≤ 5 ∧
      getExprFromNode sample_normalize sample_adapter (sample_agg "COUNT" [.int 5]) sample_td S [] =
        .ok (.AggExpr ⟨.kBIGINT, false⟩ .kCOUNT none false, []) ∧
      new_target (.AggExpr ⟨.kBIGINT, false⟩ .kCOUNT none false) ∉ T := by
  refine ⟨_, _, _, collect_target_entries_sample_count5, by decide, ?_, ?_⟩
  · rw [getExprFromNode_sample_agg]
    rfl
  · simp [new_target, sample_expr_a]

/-- C10 as the code has it, at a concrete input: a minimum over the operand
index 5 with one scan target is fatal. -/
theorem translateAggregate_operand_out_of_range_witness :
    translateAggregate (sample_agg "MIN" [.int 5]) sample_td [new_target sample_expr_a] = .fatal :=
  (translateAggregate_operand_out_of_range (sample_agg "MIN" [.int 5]) sample_td
    [new_target sample_expr_a]
    "MIN" .kMIN false 5 rfl rfl rfl (Or.inl (by decide)) rfl rfl (Or.inr (by decide))).2.1
    ⟨SQLTypes.kBIGINT, false⟩ rfl


/-! ## Plans of three nodes -/

/-- The plan assembler on a document of three nodes: no filter is read, the
project node is node 1, the aggregate node is node 2 and there is no
reprojection. -/
theorem translate_query_three_nodes (normalize : SQLOps → SQLQualifier → Expr → Expr → Expr)
    (query_ast : Json) (cat : Catalog) (scan_ra project_ra agg_ra : Json)
    (hrels : query_ast.get "rels" = .ok (.arr [scan_ra, project_ra, agg_ra])) :
    translate_query normalize query_ast cat =
      (CHECK scan_ra.IsObject).bind fun _ =>
      (scan_ra.get "relOp").bind fun rel_node =>
      rel_node.GetString.bind fun relOp =>
      (CHECK (decide ("LogicalTableScan" = relOp))).bind fun _ =>
      (get_col_names scan_ra).bind fun col_names =>
      (getTableFromScanNode ⟨cat, col_names⟩ scan_ra).bind fun td =>
      (project_ra.get "exprs").bind fun proj_nodes =>
      (agg_ra.get "aggs").bind fun agg_nodes =>
      (agg_ra.get "group").bind fun group_nodes =>
      (CHECK proj_nodes.IsArray).bind fun _ =>
      (collect_target_entries normalize [] [] group_nodes proj_nodes agg_nodes
        ⟨cat, col_names⟩ td []).bind fun r =>
      (collect_groupby group_nodes r.1 []).bind fun groupby_exprs =>
      .ok ⟨⟨r.1, ⟨r.2.1, [], [], td.tableId, r.2.2⟩, groupby_exprs⟩,
        SQLStmtType.kSELECT, td.tableId, [], 0, 0⟩ := by
  have hobj := Json.get_ok_HasMember hrels
  simp only [Bool.and_eq_true] at hobj
  unfold translate_query
  simp only [Res.monad_bind, Res.monad_pure, hobj.1, CHECK_true, Res.bind_ok, hrels,
    Json.IsArray, Json.index, Json.Size, Json.elements, List.length_cons, List.length_nil,
    List.getElem?_cons_zero, List.getElem?_cons_succ, reproject_target_entries,
    getUsedColumnList]
  rfl


section SamplePlan

variable (normalize : SQLOps → SQLQualifier → Expr → Expr → Expr)

/-- With a catalog that has the column `name` at place i of the field names a, b,
the reference to field i translates to that column. -/
theorem getExprFromNode_field (cat : Catalog) (td : TableDescriptor) (cd : ColumnDescriptor)
    (i : Int) (name : String) (S : List TargetEntry) (u : List Int)
    (hi : (Json.int i).IsInt = true ∧ 0 ≤ i)
    (hname : (["a", "b"] : List String)[i.toNat]? = some name)
    (hcd : cat.getMetadataForColumn td.tableId name = some cd) :
    getExprFromNode normalize ⟨cat, ["a", "b"]⟩ (.obj [("input", .int i)]) td S u =
      .ok (Expr.ColumnVar cd.columnType td.tableId cd.columnId 0, set_insert cd.columnId u) := by
  rw [getExprFromNode_input normalize ⟨cat, ["a", "b"]⟩ (.obj [("input", .int i)]) td S u rfl rfl,
    translateColRef_eq ⟨cat, ["a", "b"]⟩ (.obj [("input", .int i)]) td u i rfl hi.1]
  have hlt : i.toNat < (["a", "b"] : List String).length := by
    rcases Nat.lt_or_ge i.toNat (["a", "b"] : List String).length with h | h
    · exact h
    · rw [List.getElem?_eq_none h] at hname
      cases hname
  have hlt2 : i < ((["a", "b"] : List String).length : Int) := by omega
  simp only [hi.2, hlt2, and_self, if_true, hname, hcd]

/-- The whole plan for the end-to-end example, for every normalizer and every
catalog in which the table t has the columns a and b. -/
theorem translate_query_sample_eq (cat : Catalog) (td : TableDescriptor)
    (ca cb : ColumnDescriptor) (htab : cat.getMetadataForTable "t" = some td)
    (ha : cat.getMetadataForColumn td.tableId "a" = some ca)
    (hb : cat.getMetadataForColumn td.tableId "b" = some cb) :
    translate_query normalize sample_query cat =
      .ok ⟨⟨[new_target (.ColumnVar ca.columnType td.tableId ca.columnId 0),
              new_target (.ColumnVar cb.columnType td.tableId cb.columnId 0),
              new_target (.AggExpr ⟨.kBIGINT, false⟩ .kCOUNT none false)],
            ⟨[new_target (.ColumnVar ca.columnType td.tableId ca.columnId 0),
              new_target (.ColumnVar cb.columnType td.tableId cb.columnId 0)],
              [], [], td.tableId, set_insert cb.columnId (set_insert ca.columnId [])⟩,
            [.ColumnVar ca.columnType td.tableId ca.columnId 0]⟩,
          SQLStmtType.kSELECT, td.tableId, [], 0, 0⟩ := by
  have htd : getTableFromScanNode ⟨cat, ["a", "b"]⟩ sample_scan = .ok td := by
    simp [getTableFromScanNode, sample_scan, Json.get, FindMember, Json.IsArray, Json.Size,
      Json.elements, Json.index, Json.GetString, show c_str "t" = "t" from rfl, htab]
  have h0 := fun S u => getExprFromNode_field normalize cat td ca 0 "a" S u (by decide) rfl ha
  have h1 := fun S u => getExprFromNode_field normalize cat td cb 1 "b" S u (by decide) rfl hb
  have hcount := fun S u => getExprFromNode_sample_agg normalize ⟨cat, ["a", "b"]⟩ td "COUNT" [] S u
  have hrun : collect_target_entries normalize [] [] (.arr [.int 0])
      (.arr [sample_col0, sample_col1]) (.arr [sample_count]) ⟨cat, ["a", "b"]⟩ td [] =
      .ok ([new_target (.ColumnVar ca.columnType td.tableId ca.columnId 0),
            new_target (.ColumnVar cb.columnType td.tableId cb.columnId 0),
            new_target (.AggExpr ⟨.kBIGINT, false⟩ .kCOUNT none false)],
           [new_target (.ColumnVar ca.columnType td.tableId ca.columnId 0),
            new_target (.ColumnVar cb.columnType td.tableId cb.columnId 0)],
           set_insert cb.columnId (set_insert ca.columnId [])) := by
    simp only [collect_target_entries, Res.monad_bind, Res.monad_pure, Json.IsArray,
      CHECK_true, Res.bind_ok, Json.elements, collect_target_entries_proj_loop,
      collect_target_entries_agg_loop, sample_col0, sample_col1, sample_count, h0, h1, hcount]
    rfl
  rw [translate_query_three_nodes normalize sample_query cat sample_scan
    (.obj [("exprs", .arr [sample_col0, sample_col1])])
    (.obj [("aggs", .arr [sample_count]), ("group", .arr [.int 0])]) rfl]
  have hcols : get_col_names sample_scan = .ok ["a", "b"] := rfl
  have hproj : (Json.obj [("exprs", .arr [sample_col0, sample_col1])]).get "exprs" =
      .ok (.arr [sample_col0, sample_col1]) := rfl
  have haggs : (Json.obj [("aggs", .arr [sample_count]), ("group", .arr [.int 0])]).get "aggs" =
      .ok (.arr [sample_count]) := rfl
  have hgroup : (Json.obj [("aggs", .arr [sample_count]), ("group", .arr [.int 0])]).get "group" =
      .ok (.arr [.int 0]) := rfl
  have hrel : sample_scan.get "relOp" = .ok (.str "LogicalTableScan") := rfl
  have hsobj : sample_scan.IsObject = true := rfl
  rw [hsobj, hrel, hcols, hproj, haggs, hgroup]
  simp only [CHECK_true, Res.bind_ok, Json.GetString, decide_True, htd, Json.IsArray, hrun]
  rfl

/-- C1, as the code has it: for the three-node document of the end-to-end
example and a catalog in which the table t has the columns a and b,
`translate_query` succeeds; the scan stage has exactly the 2 targets a and b; the
aggregate stage has exactly 3 targets, a at position 0, b at position 1 (both
passed through) and the count appended as the only extra aggregate; the group-by
list has exactly one entry, the column reference for a. -/
theorem translate_query_sample_plan (cat : Catalog) (td : TableDescriptor)
    (ca cb : ColumnDescriptor) (htab : cat.getMetadataForTable "t" = some td)
    (ha : cat.getMetadataForColumn td.tableId "a" = some ca)
    (hb : cat.getMetadataForColumn td.tableId "b" = some cb) :
    ∃ plan, translate_query normalize sample_query cat = .ok plan ∧
      plan.plan.child.targetlist =
        [new_target (.ColumnVar ca.columnType td.tableId ca.columnId 0),
         new_target (.ColumnVar cb.columnType td.tableId cb.columnId 0)] ∧
      plan.plan.targetlist =
        [new_target (.ColumnVar ca.columnType td.tableId ca.columnId 0),
         new_target (.ColumnVar cb.columnType td.tableId cb.columnId 0),
         new_target (.AggExpr ⟨.kBIGINT, false⟩ .kCOUNT none false)] ∧
      plan.plan.groupby_list = [.ColumnVar ca.columnType td.tableId ca.columnId 0] :=
  ⟨_, translate_query_sample_eq normalize cat td ca cb htab ha hb, rfl, rfl, rfl⟩

end SamplePlan

/-- C1, refuted as stated: on the end-to-end example with the sample catalog the
aggregate stage of the plan has 3 targets, not 2. -/
theorem translate_query_sample_not_two_targets :
    ∃ plan, translate_query sample_normalize sample_query sample_catalog = .ok plan ∧
      plan.plan.child.targetlist.length = 2 ∧
      plan.plan.groupby_list.length = 1 ∧
      plan.plan.targetlist.length = 3 ∧
      plan.plan.targetlist.length ≠ 2 :=
  ⟨_, translate_query_sample_eq sample_normalize sample_catalog ⟨7⟩
    ⟨1, ⟨SQLTypes.kBIGINT, false⟩⟩ ⟨2, ⟨SQLTypes.kINT, false⟩⟩ rfl rfl rfl,
    rfl, rfl, rfl, by decide⟩

/-- C1 as the code has it, at the sample catalog. -/
theorem translate_query_sample_plan_witness :
    ∃ plan, translate_query sample_normalize sample_query sample_catalog = .ok plan ∧
      plan.plan.child.targetlist = [new_target sample_expr_a, new_target sample_expr_b] ∧
      plan.plan.targetlist =
        [new_target sample_expr_a, new_target sample_expr_b,
         new_target (.AggExpr ⟨.kBIGINT, false⟩ .kCOUNT none false)] ∧
      plan.plan.groupby_list = [sample_expr_a] :=
  translate_query_sample_plan sample_normalize sample_catalog ⟨7⟩
    ⟨1, ⟨SQLTypes.kBIGINT, false⟩⟩ ⟨2, ⟨SQLTypes.kINT, false⟩⟩ rfl rfl rfl


/-! ## The number of targets of a three-node plan -/

/-- The extra aggregates are as many as the aggregate nodes for which
`get_agg_operand_idx` returns a negative index. -/
theorem extra_aggregates_length {R : Json → Expr → Prop} (agg_list : List Json)
    (keyed : List (Int × Expr))
    (h : List.Forall₂ (fun node ke => get_agg_operand_idx node = .ok ke.1 ∧ R node ke.2)
      agg_list keyed) :
    (extra_aggregates keyed).length = agg_list.countP has_negative_operand_idx := by
  induction h with
  | nil => rfl
  | @cons node ke agg_list keyed hke _ ih =>
    obtain ⟨idx, e⟩ := ke
    have hidx : get_agg_operand_idx node = .ok idx := hke.1
    simp only [extra_aggregates, List.length_map] at ih
    by_cases hneg : idx < 0
    · have hn : has_negative_operand_idx node = true := by
        simp [has_negative_operand_idx, hidx, hneg]
      simp [extra_aggregates, hneg, List.countP_cons, hn, ih]
    · have hn : has_negative_operand_idx node = false := by
        simp [has_negative_operand_idx, hidx, hneg]
      simp [extra_aggregates, hneg, List.countP_cons, hn, ih]

/-- The group-by list for an empty group array is empty. -/
theorem collect_groupby_empty (T : List TargetEntry) :
    collect_groupby (.arr []) T [] = .ok [] := rfl

section ThreeNodePlans

variable (normalize : SQLOps → SQLQualifier → Expr → Expr → Expr)

/-- C2, as the code has it: for every three-node plan (scan, project, aggregate)
with an empty group list on which `translate_query` succeeds, the aggregate-stage
target list has as many entries as there are projection nodes whose translation
is not a literal constant plus aggregate nodes for which `get_agg_operand_idx`
returns a negative index (a node without member `agg`, with an empty operand
list, or with a negative operand), and the group-by list is empty. -/
theorem translate_query_three_nodes_target_count (query_ast : Json) (cat : Catalog)
    (scan_ra project_ra agg_ra : Json) (plan : RootPlan)
    (hrels : query_ast.get "rels" = .ok (.arr [scan_ra, project_ra, agg_ra]))
    (hgroup : agg_ra.get "group" = .ok (.arr []))
    (h : translate_query normalize query_ast cat = .ok plan) :
    ∃ proj_list agg_list es col_names td,
      project_ra.get "exprs" = .ok (.arr proj_list) ∧
      agg_ra.get "aggs" = .ok (.arr agg_list) ∧
      get_col_names scan_ra = .ok col_names ∧
      getTableFromScanNode ⟨cat, col_names⟩ scan_ra = .ok td ∧
      List.Forall₂ (Translates normalize ⟨cat, col_names⟩ td []) proj_list es ∧
      plan.plan.targetlist.length =
        (es.filter (fun e => !e.isConstant)).length +
          agg_list.countP has_negative_operand_idx ∧
      plan.plan.groupby_list = [] := by
  rw [translate_query_three_nodes normalize query_ast cat scan_ra project_ra agg_ra hrels] at h
  obtain ⟨_, _, h⟩ := Res.bind_eq_ok.1 h
  obtain ⟨_, _, h⟩ := Res.bind_eq_ok.1 h
  obtain ⟨_, _, h⟩ := Res.bind_eq_ok.1 h
  obtain ⟨_, _, h⟩ := Res.bind_eq_ok.1 h
  obtain ⟨col_names, hcols, h⟩ := Res.bind_eq_ok.1 h
  obtain ⟨td, htd, h⟩ := Res.bind_eq_ok.1 h
  obtain ⟨proj_nodes, hproj, h⟩ := Res.bind_eq_ok.1 h
  obtain ⟨agg_nodes, haggs, h⟩ := Res.bind_eq_ok.1 h
  obtain ⟨group_nodes, hg, h⟩ := Res.bind_eq_ok.1 h
  obtain ⟨_, _, h⟩ := Res.bind_eq_ok.1 h
  obtain ⟨r, hrun, h⟩ := Res.bind_eq_ok.1 h
  obtain ⟨groupby_exprs, hgb, h⟩ := Res.bind_eq_ok.1 h
  obtain ⟨T, S, w⟩ := r
  rw [hgroup] at hg
  cases hg
  rw [collect_groupby_empty] at hgb
  cases hgb
  cases h
  obtain ⟨proj_list, agg_list, es, keyed, hpl, hal, hes, hS, hk, hlen, _, _⟩ :=
    collect_target_entries_ok normalize (.arr []) proj_nodes agg_nodes ⟨cat, col_names⟩ td [] T S w
      hrun
  subst hpl hal
  refine ⟨proj_list, agg_list, es, col_names, td, hproj, haggs, hcols, htd, hes, ?_, rfl⟩
  show T.length = _
  rw [hlen, hS, List.length_map, extra_aggregates_length agg_list keyed hk]

end ThreeNodePlans

/-- The plan for the three-node document whose only aggregate is a COUNT with
the operand list `[-1]`. -/
theorem translate_query_sample_negative_operand_eq :
    translate_query sample_normalize sample_query_negative_operand sample_catalog =
      .ok ⟨⟨[new_target sample_expr_a, new_target sample_expr_b,
              new_target (.AggExpr ⟨.kBIGINT, false⟩ .kCOUNT none false)],
            ⟨[new_target sample_expr_a, new_target sample_expr_b], [], [], 7, [1, 2]⟩, []⟩,
          SQLStmtType.kSELECT, 7, [], 0, 0⟩ := by
  have hrun : collect_target_entries sample_normalize [] [] (.arr [])
      (.arr [sample_col0, sample_col1]) (.arr [sample_agg "COUNT" [.int (-1)]])
      ⟨sample_catalog, ["a", "b"]⟩ ⟨7⟩ [] =
      .ok ([new_target sample_expr_a, new_target sample_expr_b,
            new_target (.AggExpr ⟨.kBIGINT, false⟩ .kCOUNT none false)],
           [new_target sample_expr_a, new_target sample_expr_b], [1, 2]) := by
    have h0 := getExprFromNode_sample_col0 sample_normalize
    have h1 := getExprFromNode_sample_col1 sample_normalize
    simp only [sample_adapter, sample_td] at h0 h1
    simp only [collect_target_entries, Res.monad_bind, Res.monad_pure, Json.IsArray,
      CHECK_true, Res.bind_ok, Json.elements, collect_target_entries_proj_loop,
      collect_target_entries_agg_loop, h0, h1, getExprFromNode_sample_agg]
    rfl
  rw [translate_query_three_nodes sample_normalize sample_query_negative_operand sample_catalog
    sample_scan (.obj [("exprs", .arr [sample_col0, sample_col1])])
    (.obj [("aggs", .arr [sample_agg "COUNT" [.int (-1)]]), ("group", .arr [])]) rfl]
  have hcols : get_col_names sample_scan = .ok ["a", "b"] := rfl
  have htd : getTableFromScanNode ⟨sample_catalog, ["a", "b"]⟩ sample_scan = .ok ⟨7⟩ := rfl
  have hproj : (Json.obj [("exprs", .arr [sample_col0, sample_col1])]).get "exprs" =
      .ok (.arr [sample_col0, sample_col1]) := rfl
  have haggs : (Json.obj [("aggs", .arr [sample_agg "COUNT" [.int (-1)]]),
      ("group", .arr [])]).get "aggs" = .ok (.arr [sample_agg "COUNT" [.int (-1)]]) := rfl
  have hgroup : (Json.obj [("aggs", .arr [sample_agg "COUNT" [.int (-1)]]),
      ("group", .arr [])]).get "group" = .ok (.arr []) := rfl
  have hrel : sample_scan.get "relOp" = .ok (.str "LogicalTableScan") := rfl
  have hsobj : sample_scan.IsObject = true := rfl
  rw [hsobj, hrel, hcols, hproj, haggs, hgroup]
  simp only [CHECK_true, Res.bind_ok, Json.GetString, decide_True, htd, Json.IsArray, hrun]
  rfl

/-- C2, refuted as stated: the plan has three nodes and an empty group list,
`translate_query` succeeds, both projections translate to column references
(none is a constant) and no aggregate node has an empty operand list, yet the
aggregate stage has 3 targets, not 2 + 0. -/
theorem translate_query_target_count_not_empty_operands :
    ∃ plan, translate_query sample_normalize sample_query_negative_operand sample_catalog =
        .ok plan ∧
      plan.plan.groupby_list = [] ∧
      List.Forall₂ (Translates sample_normalize sample_adapter sample_td [])
        [sample_col0, sample_col1] [sample_expr_a, sample_expr_b] ∧
      plan.plan.targetlist.length ≠
        ([sample_expr_a, sample_expr_b].filter (fun e => !e.isConstant)).length +
          [sample_agg "COUNT" [.int (-1)]].countP has_empty_operands := by
  refine ⟨_, translate_query_sample_negative_operand_eq, rfl, ?_, by decide⟩
  exact List.Forall₂.cons ⟨[], _, getExprFromNode_sample_col0 sample_normalize [] []⟩
    (List.Forall₂.cons ⟨[], _, getExprFromNode_sample_col1 sample_normalize [] []⟩
      List.Forall₂.nil)

/-- C2 as the code has it, at the document whose only aggregate is a COUNT with
the operand list `[-1]`. -/
theorem translate_query_three_nodes_target_count_witness :
    ∃ proj_list agg_list es col_names td,
      (Json.obj [("exprs", .arr [sample_col0, sample_col1])]).get "exprs" = .ok (.arr proj_list) ∧
      (Json.obj [("aggs", .arr [sample_agg "COUNT" [.int (-1)]]), ("group", .arr [])]).get "aggs" =
        .ok (.arr agg_list) ∧
      get_col_names sample_scan = .ok col_names ∧
      getTableFromScanNode ⟨sample_catalog, col_names⟩ sample_scan = .ok td ∧
      List.Forall₂ (Translates sample_normalize ⟨sample_catalog, col_names⟩ td []) proj_list es ∧
      [new_target sample_expr_a, new_target sample_expr_b,
        new_target (.AggExpr ⟨.kBIGINT, false⟩ .kCOUNT none false)].length =
        (es.filter (fun e => !e.isConstant)).length +
          agg_list.countP has_negative_operand_idx ∧
      ([] : List Expr) = [] :=
  translate_query_three_nodes_target_count sample_normalize sample_query_negative_operand
    sample_catalog sample_scan (.obj [("exprs", .arr [sample_col0, sample_col1])])
    (.obj [("aggs", .arr [sample_agg "COUNT" [.int (-1)]]), ("group", .arr [])]) _ rfl rfl
    translate_query_sample_negative_operand_eq


/-- The run of `collect_target_entries` on the projections a, b with one COUNT
that is not distinct and has the operand list `[-1]`. -/
theorem collect_target_entries_sample_negative_operand :
    collect_target_entries sample_normalize [] [] (.arr []) (.arr [sample_col0, sample_col1])
        (.arr [sample_agg "COUNT" [.int (-1)]]) sample_adapter sample_td [] =
      .ok ([new_target sample_expr_a, new_target sample_expr_b,
            new_target (.AggExpr ⟨.kBIGINT, false⟩ .kCOUNT none false)],
           [new_target sample_expr_a, new_target sample_expr_b], [1, 2]) := by
  simp only [collect_target_entries, Res.monad_bind, Res.monad_pure, Json.IsArray,
    CHECK_true, Res.bind_ok, Json.elements, collect_target_entries_proj_loop,
    collect_target_entries_agg_loop, getExprFromNode_sample_col0, getExprFromNode_sample_col1,
    getExprFromNode_sample_agg]
  rfl

/-- C3, refuted as stated: the only aggregate node has the operand list `[-1]`, so
no aggregate node is without operand, yet the reconciled list has an entry after
the positions of the scan targets: the translation of that node. -/
theorem collect_target_entries_extra_with_operand :
    ∃ T S w, collect_target_entries sample_normalize [] [] (.arr [])
        (.arr [sample_col0, sample_col1]) (.arr [sample_agg "COUNT" [.int (-1)]])
        sample_adapter sample_td [] = .ok (T, S, w) ∧
      [sample_agg "COUNT" [.int (-1)]].filter has_empty_operands = [] ∧
      T.drop S.length = [new_target (.AggExpr ⟨.kBIGINT, false⟩ .kCOUNT none false)] ∧
      T.drop S.length ≠ [] :=
  ⟨_, _, _, collect_target_entries_sample_negative_operand, rfl, rfl, by simp⟩


/-! ## Group indices past the reconciled targets -/

/-- The group-by loop has no `CHECK` on the index: on an array of `int` values of
which one is not a position of the target list, a negative one included, it
indexes the vector out of range, which is undefined behaviour and not a fatal
error. -/
theorem collect_groupby_loop_out_of_range (T : List TargetEntry) (G : List Int)
    (acc : List Expr) (hint : ∀ g ∈ G, (Json.int g).IsInt = true)
    (hT : T.length ≤ 18446744071562067968)
    (hout : ∃ g ∈ G, g < 0 ∨ (T.length : Int) ≤ g) :
    collect_groupby_loop T (G.map Json.int) acc = .undefined := by
  induction G generalizing acc with
  | nil =>
    obtain ⟨g, hg, _⟩ := hout
    cases hg
  | cons g G ih =>
    have hg := hint g (List.mem_cons_self _ _)
    have hg2 := hg
    simp only [Json.IsInt, decide_eq_true_eq] at hg2
    by_cases hin : 0 ≤ g ∧ g < (T.length : Int)
    · have hidx : to_size_t g = g.toNat := to_size_t_of_nonneg hin.1 hg2.2
      have hlt : g.toNat < T.length := by omega
      have hrest : ∃ x ∈ G, x < 0 ∨ (T.length : Int) ≤ x := by
        obtain ⟨x, hx, hxo⟩ := hout
        rcases List.mem_cons.1 hx with rfl | hx
        · omega
        · exact ⟨x, hx, hxo⟩
      simp [collect_groupby_loop, Json.GetInt, hg, hidx, hlt,
        ih _ (fun x hx => hint x (List.mem_cons_of_mem _ hx)) hrest]
    · have hge : T.length ≤ to_size_t g := by
        unfold to_size_t
        omega
      simp [collect_groupby_loop, Json.GetInt, hg, List.getElem?_eq_none hge]

/-- C11, the code at the failing inputs: with one reconciled target, the group
index 5 and the group index -1 make `collect_groupby` index the vector out of
range, which is undefined behaviour, not a fatal error; and so does the
end-to-end example with the group list `[5]` in `translate_query`. -/
theorem collect_groupby_out_of_range_unchecked :
    collect_groupby (.arr [.int 5]) [new_target sample_expr_a] [] = .undefined ∧
    collect_groupby (.arr [.int (-1)]) [new_target sample_expr_a] [] = .undefined ∧
    collect_groupby (.arr [.int 5]) [new_target sample_expr_a] [] ≠ .fatal ∧
    translate_query sample_normalize sample_query_group5 sample_catalog = .undefined := by
  refine ⟨rfl, rfl, by simp [show collect_groupby (.arr [.int 5]) [new_target sample_expr_a] [] =
    .undefined from rfl], ?_⟩
  have hrun : collect_target_entries sample_normalize [] [] (.arr [.int 5])
      (.arr [sample_col0, sample_col1]) (.arr [sample_count])
      ⟨sample_catalog, ["a", "b"]⟩ ⟨7⟩ [] =
      .ok ([new_target sample_expr_a, new_target sample_expr_b,
            new_target (.AggExpr ⟨.kBIGINT, false⟩ .kCOUNT none false)],
           [new_target sample_expr_a, new_target sample_expr_b], [1, 2]) := by
    have h0 := getExprFromNode_sample_col0 sample_normalize
    have h1 := getExprFromNode_sample_col1 sample_normalize
    simp only [sample_adapter, sample_td] at h0 h1
    simp only [collect_target_entries, Res.monad_bind, Res.monad_pure, Json.IsArray,
      CHECK_true, Res.bind_ok, Json.elements, collect_target_entries_proj_loop,
      collect_target_entries_agg_loop, h0, h1, sample_count, getExprFromNode_sample_agg]
    rfl
  rw [translate_query_three_nodes sample_normalize sample_query_group5 sample_catalog
    sample_scan (.obj [("exprs", .arr [sample_col0, sample_col1])])
    (.obj [("aggs", .arr [sample_count]), ("group", .arr [.int 5])]) rfl]
  have hcols : get_col_names sample_scan = .ok ["a", "b"] := rfl
  have htd : getTableFromScanNode ⟨sample_catalog, ["a", "b"]⟩ sample_scan = .ok ⟨7⟩ := rfl
  have hproj : (Json.obj [("exprs", .arr [sample_col0, sample_col1])]).get "exprs" =
      .ok (.arr [sample_col0, sample_col1]) := rfl
  have haggs : (Json.obj [("aggs", .arr [sample_count]), ("group", .arr [.int 5])]).get "aggs" =
      .ok (.arr [sample_count]) := rfl
  have hgroup : (Json.obj [("aggs", .arr [sample_count]), ("group", .arr [.int 5])]).get "group" =
      .ok (.arr [.int 5]) := rfl
  have hrel : sample_scan.get "relOp" = .ok (.str "LogicalTableScan") := rfl
  have hsobj : sample_scan.IsObject = true := rfl
  rw [hsobj, hrel, hcols, hproj, haggs, hgroup]
  simp only [CHECK_true, Res.bind_ok, Json.GetString, decide_True, htd, Json.IsArray, hrun]
  rfl

/-! ## Closed vocabulary -/

/-- When no code is returned, `to_sql_op` is fatal. -/
theorem to_sql_op_fatal (s : String) (h : ¬ ∃ op, to_sql_op s = .ok op) :
    to_sql_op s = .fatal := by
  cases hs : to_sql_op s with
  | ok op => exact absurd ⟨op, hs⟩ h
  | fatal => rfl
  | undefined =>
    unfold to_sql_op at hs
    by_cases h0 : s = ">"
    · rw [if_pos h0] at hs
      cases hs
    rw [if_neg h0] at hs
    by_cases h1 : s = ">="
    · rw [if_pos h1] at hs
      cases hs
    rw [if_neg h1] at hs
    by_cases h2 : s = "<"
    · rw [if_pos h2] at hs
      cases hs
    rw [if_neg h2] at hs
    by_cases h3 : s = "<="
    · rw [if_pos h3] at hs
      cases hs
    rw [if_neg h3] at hs
    by_cases h4 : s = "="
    · rw [if_pos h4] at hs
      cases hs
    rw [if_neg h4] at hs
    by_cases h5 : s = "<>"
    · rw [if_pos h5] at hs
      cases hs
    rw [if_neg h5] at hs
    by_cases h6 : s = "+"
    · rw [if_pos h6] at hs
      cases hs
    rw [if_neg h6] at hs
    by_cases h7 : s = "-"
    · rw [if_pos h7] at hs
      cases hs
    rw [if_neg h7] at hs
    by_cases h8 : s = "*"
    · rw [if_pos h8] at hs
      cases hs
    rw [if_neg h8] at hs
    by_cases h9 : s = "/"
    · rw [if_pos h9] at hs
      cases hs
    rw [if_neg h9] at hs
    by_cases h10 : s = "MOD"
    · rw [if_pos h10] at hs
      cases hs
    rw [if_neg h10] at hs
    by_cases h11 : s = "AND"
    · rw [if_pos h11] at hs
      cases hs
    rw [if_neg h11] at hs
    by_cases h12 : s = "OR"
    · rw [if_pos h12] at hs
      cases hs
    rw [if_neg h12] at hs
    by_cases h13 : s = "CAST"
    · rw [if_pos h13] at hs
      cases hs
    rw [if_neg h13] at hs
    cases hs

/-- When no kind is returned, `to_agg_kind` is fatal. -/
theorem to_agg_kind_fatal (s : String) (h : ¬ ∃ k, to_agg_kind s = .ok k) :
    to_agg_kind s = .fatal := by
  cases hs : to_agg_kind s with
  | ok k => exact absurd ⟨k, hs⟩ h
  | fatal => rfl
  | undefined =>
    unfold to_agg_kind at hs
    by_cases h0 : s = "COUNT"
    · rw [if_pos h0] at hs
      cases hs
    rw [if_neg h0] at hs
    by_cases h1 : s = "MIN"
    · rw [if_pos h1] at hs
      cases hs
    rw [if_neg h1] at hs
    by_cases h2 : s = "MAX"
    · rw [if_pos h2] at hs
      cases hs
    rw [if_neg h2] at hs
    by_cases h3 : s = "SUM"
    · rw [if_pos h3] at hs
      cases hs
    rw [if_neg h3] at hs
    cases hs

/-- When no code is returned, `to_sql_type` is fatal. -/
theorem to_sql_type_fatal (s : String) (h : ¬ ∃ t, to_sql_type s = .ok t) :
    to_sql_type s = .fatal := by
  cases hs : to_sql_type s with
  | ok t => exact absurd ⟨t, hs⟩ h
  | fatal => rfl
  | undefined =>
    unfold to_sql_type at hs
    by_cases h0 : s = "BIGINT"
    · rw [if_pos h0] at hs
      cases hs
    rw [if_neg h0] at hs
    by_cases h1 : s = "INTEGER"
    · rw [if_pos h1] at hs
      cases hs
    rw [if_neg h1] at hs
    by_cases h2 : s = "SMALLINT"
    · rw [if_pos h2] at hs
      cases hs
    rw [if_neg h2] at hs
    cases hs

/-- C18. Each vocabulary function returns a code exactly on its listed names and
is fatal on every other string, the match being case-sensitive; and within each
function two names that are accepted with the same code are the same name. -/
theorem vocabulary_closed (s : String) :
    ((∃ op, to_sql_op s = .ok op) ↔
      s ∈ [">", ">=", "<", "<=", "=", "<>", "+", "-", "*", "/", "MOD", "AND", "OR", "CAST"]) ∧
    ((¬ ∃ op, to_sql_op s = .ok op) → to_sql_op s = .fatal) ∧
    ((∃ k, to_agg_kind s = .ok k) ↔ s ∈ ["COUNT", "MIN", "MAX", "SUM"]) ∧
    ((¬ ∃ k, to_agg_kind s = .ok k) → to_agg_kind s = .fatal) ∧
    ((∃ t, to_sql_type s = .ok t) ↔ s ∈ ["BIGINT", "INTEGER", "SMALLINT"]) ∧
    ((¬ ∃ t, to_sql_type s = .ok t) → to_sql_type s = .fatal) ∧
    (∀ s2 op, to_sql_op s = .ok op → to_sql_op s2 = .ok op → s = s2) ∧
    (∀ s2 k, to_agg_kind s = .ok k → to_agg_kind s2 = .ok k → s = s2) ∧
    (∀ s2 t, to_sql_type s = .ok t → to_sql_type s2 = .ok t → s = s2) ∧
    to_sql_op "and" = .fatal ∧ to_sql_op "mod" = .fatal ∧ to_sql_op "cast" = .fatal ∧
    to_agg_kind "count" = .fatal ∧ to_agg_kind "AVG" = .fatal ∧
    to_sql_type "bigint" = .fatal ∧ to_sql_type "INT" = .fatal := by
  refine ⟨?_, to_sql_op_fatal s, ?_, to_agg_kind_fatal s, ?_, to_sql_type_fatal s, ?_, ?_, ?_,
    rfl, rfl, rfl, rfl, rfl, rfl, rfl⟩
  · constructor
    · rintro ⟨op, h⟩
      rw [to_sql_op_name s op h]
      cases op <;> simp [sql_op_name]
    · intro h
      simp only [List.mem_cons, List.mem_singleton, List.mem_nil_iff, or_false] at h
      rcases h with h | h | h | h | h | h | h | h | h | h | h | h | h | h <;> subst h <;>
        exact ⟨_, rfl⟩
  · constructor
    · rintro ⟨k, h⟩
      rw [to_agg_kind_name s k h]
      cases k <;> simp [agg_kind_name]
    · intro h
      simp only [List.mem_cons, List.mem_singleton, List.mem_nil_iff, or_false] at h
      rcases h with h | h | h | h <;> subst h <;> exact ⟨_, rfl⟩
  · constructor
    · rintro ⟨t, h⟩
      have := to_sql_type_name s t h
      cases t <;> simp [sql_type_name] at this <;> simp [← this]
    · intro h
      simp only [List.mem_cons, List.mem_singleton, List.mem_nil_iff, or_false] at h
      rcases h with h | h | h <;> subst h <;> exact ⟨_, rfl⟩
  · intro s2 op h1 h2
    rw [to_sql_op_name s op h1, to_sql_op_name s2 op h2]
  · intro s2 k h1 h2
    rw [to_agg_kind_name s k h1, to_agg_kind_name s2 k h2]
  · intro s2 t h1 h2
    have a := to_sql_type_name s t h1
    have b := to_sql_type_name s2 t h2
    rw [a] at b
    exact Option.some.inj b

/-! ## Unary operators and dispatch -/

section UnaryFacts

variable (normalize : SQLOps → SQLQualifier → Expr → Expr → Expr)

/-- A cast node: when the operator name, read as a C string, is CAST, the
operand translates to x and the type descriptor reads as ti, `translateOp`
returns the cast of x to ti. -/
theorem translateOp_cast (self : CalciteAdapter) (td : TableDescriptor) (expr : Json)
    (op_str : String) (u : List Int) (hop : expr.get "op" = .ok (.str op_str))
    (operand : Json) (x : Expr) (ti : SQLTypeInfo) (hcast : c_str op_str = "CAST")
    (hops : expr.get "operands" = .ok (.arr [operand]))
    (hx : Translates normalize self td [] operand x)
    (hti : (expr.get "type").bind read_type_info = .ok ti) :
    ∃ v, translateOp normalize self expr td u = .ok (Expr.UOper ti false SQLOps.kCAST x, v) := by
  obtain ⟨v, hv⟩ := hx.run u
  obtain ⟨tn, htn, hrt⟩ := Res.bind_eq_ok.1 hti
  refine ⟨v, ?_⟩
  rw [translateOp_eq, hop]
  simp only [Res.bind_ok, Json.GetString, hcast, hops, hv, htn, hrt]
  rfl

/-- C14, as the code has it: the operator name is the C string that `GetString`
returns, the text of the member `op` before its first character U+0000. For an
operator node with exactly one operand: when that name is CAST, the operand
translates to x and the type descriptor of the node reads as the type info ti
(the type name, read the same way, through `to_sql_type`, and the nullable
flag), `translateOp` returns the cast of x to ti; when that name is any other
string, recognised or not, `translateOp` is fatal. An operator node with no
operand is fatal as well. -/
theorem translateOp_unary (self : CalciteAdapter) (td : TableDescriptor) (expr : Json)
    (op_str : String) (u : List Int) (hop : expr.get "op" = .ok (.str op_str)) :
    (∀ operand x ti, c_str op_str = "CAST" → expr.get "operands" = .ok (.arr [operand]) →
      Translates normalize self td [] operand x →
      (expr.get "type").bind read_type_info = .ok ti →
      ∃ v, translateOp normalize self expr td u =
        .ok (Expr.UOper ti false SQLOps.kCAST x, v)) ∧
    (∀ type_node type_name nullable, type_node.get "type" = .ok (.str type_name) →
      type_node.get "nullable" = .ok (.bool nullable) →
      read_type_info type_node =
        (to_sql_type (c_str type_name)).bind fun t => .ok ⟨t, nullable⟩) ∧
    (∀ operand, c_str op_str ≠ "CAST" → expr.get "operands" = .ok (.arr [operand]) →
      translateOp normalize self expr td u = .fatal) ∧
    (expr.get "operands" = .ok (.arr []) → translateOp normalize self expr td u = .fatal) := by
  refine ⟨?_, ?_, ?_, ?_⟩
  · intro operand x ti hcast hops hx hti
    exact translateOp_cast normalize self td expr op_str u hop operand x ti hcast hops hx hti
  · intro type_node type_name nullable h1 h2
    unfold read_type_info
    simp only [Res.monad_bind, Res.monad_pure, h1, h2, Res.bind_ok, Json.GetString, Json.GetBool]
  · intro operand hne hops
    rw [translateOp_eq, hop]
    simp only [Res.bind_ok, Json.GetString, hops]
    by_cases hex : ∃ op, to_sql_op (c_str op_str) = .ok op
    · obtain ⟨op, hcode⟩ := hex
      have hname := to_sql_op_name (c_str op_str) op hcode
      have : SQLOps.kCAST ≠ op := by
        rintro rfl
        exact hne hname
      simp [hcode, this]
    · rw [to_sql_op_fatal (c_str op_str) hex]
      rfl
  · intro hops
    rw [translateOp_eq, hop]
    simp only [Res.bind_ok, Json.GetString, hops]

end UnaryFacts

/-- C14, refuted as stated: the operator name `CAST`, U+0000, `X` is not the name
CAST, yet the node with that name and one operand is not a fatal error: it is
translated to the cast, because the name is read as a C string. -/
theorem translateOp_unary_name_read_to_nul :
    "CAST\x00X" ≠ "CAST" ∧
    translateOp sample_normalize sample_adapter
        (.obj [("op", .str "CAST\x00X"), ("operands", .arr [.int 1]), ("type", sample_bigint)])
        sample_td [] ≠ .fatal ∧
    ∃ v, translateOp sample_normalize sample_adapter
        (.obj [("op", .str "CAST\x00X"), ("operands", .arr [.int 1]), ("type", sample_bigint)])
        sample_td [] =
      .ok (Expr.UOper ⟨.kBIGINT, false⟩ false SQLOps.kCAST (.Constant 1), v) := by
  obtain ⟨v, hv⟩ := translateOp_cast sample_normalize sample_adapter sample_td
    (.obj [("op", .str "CAST\x00X"), ("operands", .arr [.int 1]), ("type", sample_bigint)])
    "CAST\x00X" [] rfl (.int 1) (.Constant 1) ⟨.kBIGINT, false⟩ rfl rfl
    (Translates_int _ _ _ _ 1 rfl) rfl
  refine ⟨by decide, ?_, v, hv⟩
  rw [hv]
  intro hc
  cases hc

/-- C14, at a concrete input: the cast of the literal 1 to BIGINT, and the unary
minus of the literal 1. -/
theorem translateOp_unary_witness :
    (∃ v, translateOp sample_normalize sample_adapter
        (.obj [("op", .str "CAST"), ("operands", .arr [.int 1]), ("type", sample_bigint)])
        sample_td [] =
      .ok (Expr.UOper ⟨.kBIGINT, false⟩ false SQLOps.kCAST (.Constant 1), v)) ∧
    translateOp sample_normalize sample_adapter
        (.obj [("op", .str "-"), ("operands", .arr [.int 1]), ("type", sample_bigint)])
        sample_td [] = .fatal :=
  ⟨(translateOp_unary sample_normalize sample_adapter sample_td
      (.obj [("op", .str "CAST"), ("operands", .arr [.int 1]), ("type", sample_bigint)])
      "CAST" [] rfl).1 (.int 1) (.Constant 1) ⟨.kBIGINT, false⟩ rfl rfl
      (Translates_int _ _ _ _ 1 rfl) rfl,
   (translateOp_unary sample_normalize sample_adapter sample_td
      (.obj [("op", .str "-"), ("operands", .arr [.int 1]), ("type", sample_bigint)])
      "-" [] rfl).2.2.1 (.int 1) (by decide) rfl⟩

section DispatchFacts

variable (normalize : SQLOps → SQLQualifier → Expr → Expr → Expr)

/-- A value that is not an object and not an `int` is a fatal error. -/
theorem getExprFromNode_other (self : CalciteAdapter) (expr : Json) (td : TableDescriptor)
    (scan_targets : List TargetEntry) (u : List Int)
    (h1 : (expr.IsObject && expr.HasMember "op") = false)
    (h2 : (expr.IsObject && expr.HasMember "input") = false)
    (h3 : (expr.IsObject && expr.HasMember "agg") = false)
    (h4 : expr.IsInt = false) :
    getExprFromNode normalize self expr td scan_targets u = .fatal := by
  rw [getExprFromNode, h1, h2, h3, h4]
  rfl

/-- C13, as the code has it: `getExprFromNode` dispatches in strict order. An
object with a member `op` is translated by `translateOp`, whatever other
members it has; an object without `op` and with `input` is translated by
`translateColRef`, whether or not it has `agg`; an object with `agg` and
neither of the other two is translated by `translateAggregate`; an integer
scalar that fits a 32-bit signed `int` is translated to the literal of its
value; every other value is a fatal error: an object with none of the three
members, a string, a boolean, a number that is not an integer, an integer
outside the 32-bit range, null, an array. -/
theorem getExprFromNode_dispatch (self : CalciteAdapter) (td : TableDescriptor)
    (scan_targets : List TargetEntry) (u : List Int) :
    (∀ ms, (FindMember ms "op").isSome = true →
      getExprFromNode normalize self (.obj ms) td scan_targets u =
        translateOp normalize self (.obj ms) td u) ∧
    (∀ ms, FindMember ms "op" = none → (FindMember ms "input").isSome = true →
      getExprFromNode normalize self (.obj ms) td scan_targets u =
        translateColRef self (.obj ms) td u) ∧
    (∀ ms, FindMember ms "op" = none → FindMember ms "input" = none →
      (FindMember ms "agg").isSome = true →
      getExprFromNode normalize self (.obj ms) td scan_targets u =
        (translateAggregate (.obj ms) td scan_targets).bind fun e => .ok (e, u)) ∧
    (∀ i : Int, -2147483648 ≤ i → i ≤ 2147483647 →
      getExprFromNode normalize self (.int i) td scan_targets u = .ok (Expr.Constant i, u)) ∧
    (∀ ms, FindMember ms "op" = none → FindMember ms "input" = none →
      FindMember ms "agg" = none →
      getExprFromNode normalize self (.obj ms) td scan_targets u = .fatal) ∧
    (∀ s, getExprFromNode normalize self (.str s) td scan_targets u = .fatal) ∧
    (∀ b, getExprFromNode normalize self (.bool b) td scan_targets u = .fatal) ∧
    (∀ t, getExprFromNode normalize self (.dbl t) td scan_targets u = .fatal) ∧
    (∀ i : Int, (i < -2147483648 ∨ 2147483647 < i) →
      getExprFromNode normalize self (.int i) td scan_targets u = .fatal) ∧
    getExprFromNode normalize self .null td scan_targets u = .fatal ∧
    (∀ xs, getExprFromNode normalize self (.arr xs) td scan_targets u = .fatal) := by
  refine ⟨?_, ?_, ?_, ?_, ?_, ?_, ?_, ?_, ?_, ?_, ?_⟩
  · intro ms h
    rw [getExprFromNode, if_pos (by simpa [Json.IsObject, Json.HasMember] using h)]
  · intro ms h1 h2
    exact getExprFromNode_input normalize self (.obj ms) td scan_targets u
      (by simp [Json.IsObject, Json.HasMember, h1])
      (by simpa [Json.IsObject, Json.HasMember] using h2)
  · intro ms h1 h2 h3
    exact getExprFromNode_agg normalize self (.obj ms) td scan_targets u
      (by simp [Json.IsObject, Json.HasMember, h1])
      (by simp [Json.IsObject, Json.HasMember, h2])
      (by simpa [Json.IsObject, Json.HasMember] using h3)
  · intro i h1 h2
    have hi : (Json.int i).IsInt = true := by simp [Json.IsInt, h1, h2]
    obtain ⟨v, hv⟩ := (Translates_int normalize self td scan_targets i hi).run u
    have hu : v = u := by
      rw [getExprFromNode] at hv
      simp only [Json.IsObject, Bool.false_and, Bool.false_eq_true, if_false, hi, if_true] at hv
      obtain ⟨e, _, he⟩ := Res.bind_eq_ok.1 hv
      cases he
      rfl
    rw [hv, hu]
  · intro ms h1 h2 h3
    exact getExprFromNode_other normalize self (.obj ms) td scan_targets u
      (by simp [Json.IsObject, Json.HasMember, h1])
      (by simp [Json.IsObject, Json.HasMember, h2])
      (by simp [Json.IsObject, Json.HasMember, h3]) rfl
  · intro s
    exact getExprFromNode_other normalize self (.str s) td scan_targets u rfl rfl rfl rfl
  · intro b
    exact getExprFromNode_other normalize self (.bool b) td scan_targets u rfl rfl rfl rfl
  · intro t
    exact getExprFromNode_other normalize self (.dbl t) td scan_targets u rfl rfl rfl rfl
  · intro i hi
    refine getExprFromNode_other normalize self (.int i) td scan_targets u rfl rfl rfl ?_
    simp only [Json.IsInt, decide_eq_false_iff_not, not_and, not_le]
    omega
  · exact getExprFromNode_other normalize self .null td scan_targets u rfl rfl rfl rfl
  · intro xs
    exact getExprFromNode_other normalize self (.arr xs) td scan_targets u rfl rfl rfl rfl

end DispatchFacts

/-- C13, refuted as stated: the bare integer scalar 3000000000 does not fit a
32-bit `int`; it is not translated to an integer literal but is a fatal
error. -/
theorem getExprFromNode_large_integer_fatal :
    getExprFromNode sample_normalize sample_adapter (.int 3000000000) sample_td [] [] = .fatal ∧
    ∀ e v, getExprFromNode sample_normalize sample_adapter (.int 3000000000) sample_td [] [] ≠
      .ok (e, v) := by
  have h : getExprFromNode sample_normalize sample_adapter (.int 3000000000) sample_td [] [] =
      .fatal := getExprFromNode_other sample_normalize sample_adapter (.int 3000000000) sample_td
        [] [] rfl rfl rfl rfl
  refine ⟨h, ?_⟩
  intro e v hv
  rw [h] at hv
  cases hv

/-- C13 as the code has it, at concrete inputs: the literal 5, and an object with
the members `op`, `input` and `agg` at once. -/
theorem getExprFromNode_dispatch_witness :
    getExprFromNode sample_normalize sample_adapter (.int 5) sample_td [] [] =
      .ok (Expr.Constant 5, []) ∧
    getExprFromNode sample_normalize sample_adapter
        (.obj [("agg", .str "MIN"), ("input", .int 0), ("op", .str "+")]) sample_td [] [] =
      translateOp sample_normalize sample_adapter
        (.obj [("agg", .str "MIN"), ("input", .int 0), ("op", .str "+")]) sample_td [] ∧
    getExprFromNode sample_normalize sample_adapter
        (.obj [("agg", .str "MIN"), ("input", .int 0)]) sample_td [] [] =
      translateColRef sample_adapter (.obj [("agg", .str "MIN"), ("input", .int 0)]) sample_td [] :=
  ⟨(getExprFromNode_dispatch sample_normalize sample_adapter sample_td [] []).2.2.2.1 5
      (by decide) (by decide),
   (getExprFromNode_dispatch sample_normalize sample_adapter sample_td [] []).1 _ rfl,
   (getExprFromNode_dispatch sample_normalize sample_adapter sample_td [] []).2.1 _ rfl rfl⟩

/-! ## Aggregate application -/

section ScanTargets

variable (normalize : SQLOps → SQLQualifier → Expr → Expr → Expr)

/-- C16. On every successful run of `collect_target_entries` the scan-stage
target list is the list of the translations of the projection nodes, in their
order, without those that are literal constants and with all the others. The
aggregate nodes are translated against that list and the reconciled list has
one position for each of its entries, so operand indices and positions count
the projections that are left after the constants are removed. -/
theorem collect_target_entries_scan_targets (group_nodes proj_nodes agg_nodes : Json)
    (self : CalciteAdapter) (td : TableDescriptor) (u : List Int) (T S : List TargetEntry)
    (w : List Int)
    (h : collect_target_entries normalize [] [] group_nodes proj_nodes agg_nodes self td u =
      .ok (T, S, w)) :
    ∃ proj_list es agg_list keyed,
      proj_nodes = .arr proj_list ∧
      List.Forall₂ (Translates normalize self td []) proj_list es ∧
      S = (es.filter (fun e => !e.isConstant)).map new_target ∧
      agg_nodes = .arr agg_list ∧
      List.Forall₂ (fun node ke => get_agg_operand_idx node = .ok ke.1 ∧
        Translates normalize self td S node ke.2) agg_list keyed ∧
      T.length = S.length + (extra_aggregates keyed).length := by
  obtain ⟨proj_list, agg_list, es, keyed, hpl, hal, hes, hS, hk, hlen, _, _⟩ :=
    collect_target_entries_ok normalize group_nodes proj_nodes agg_nodes self td u T S w h
  exact ⟨proj_list, es, agg_list, keyed, hpl, hes, hS, hal, hk, hlen⟩

end ScanTargets

/-- An integer scalar that fits an `int` translates to the literal of its value
and leaves the used columns as they are. -/
theorem getExprFromNode_int_literal (normalize : SQLOps → SQLQualifier → Expr → Expr → Expr)
    (self : CalciteAdapter) (td : TableDescriptor) (scan_targets : List TargetEntry)
    (u : List Int) (i : Int) (hi : (Json.int i).IsInt = true) :
    getExprFromNode normalize self (.int i) td scan_targets u = .ok (.Constant i, u) := by
  have h64 : -9223372036854775808 ≤ i ∧ i ≤ 9223372036854775807 := by
    simp only [Json.IsInt, decide_eq_true_eq] at hi
    omega
  rw [getExprFromNode]
  simp [Json.IsObject, hi, translateIntLiteral, Json.GetInt64, h64, analyzeValue]

/-- The run of `collect_target_entries` on the projections 1, a, b with a minimum
over position 0. -/
theorem collect_target_entries_sample_literal :
    collect_target_entries sample_normalize [] [] (.arr [])
        (.arr [.int 1, sample_col0, sample_col1]) (.arr [sample_agg "MIN" [.int 0]])
        sample_adapter sample_td [] =
      .ok ([new_target (.AggExpr ⟨.kBIGINT, false⟩ .kMIN (some sample_expr_a) false),
            new_target sample_expr_b],
           [new_target sample_expr_a, new_target sample_expr_b], [1, 2]) := by
  have hlit : ∀ u, getExprFromNode sample_normalize sample_adapter (.int 1) sample_td [] u =
      .ok (.Constant 1, u) := fun u =>
    getExprFromNode_int_literal sample_normalize sample_adapter sample_td [] u 1 rfl
  simp only [collect_target_entries, Res.monad_bind, Res.monad_pure, Json.IsArray,
    CHECK_true, Res.bind_ok, Json.elements, collect_target_entries_proj_loop,
    collect_target_entries_agg_loop, hlit, getExprFromNode_sample_col0,
    getExprFromNode_sample_col1, getExprFromNode_sample_agg]
  rfl

/-- C16, at a concrete input: of the projections 1, a, b the literal is dropped,
and the minimum over operand index 0 is the minimum of a. -/
theorem collect_target_entries_scan_targets_witness :
    ∃ proj_list es agg_list keyed,
      Json.arr [.int 1, sample_col0, sample_col1] = .arr proj_list ∧
      List.Forall₂ (Translates sample_normalize sample_adapter sample_td []) proj_list es ∧
      [new_target sample_expr_a, new_target sample_expr_b] =
        (es.filter (fun e => !e.isConstant)).map new_target ∧
      Json.arr [sample_agg "MIN" [.int 0]] = .arr agg_list ∧
      List.Forall₂ (fun node ke => get_agg_operand_idx node = .ok ke.1 ∧
        Translates sample_normalize sample_adapter sample_td
          [new_target sample_expr_a, new_target sample_expr_b] node ke.2) agg_list keyed ∧
      [new_target (.AggExpr ⟨.kBIGINT, false⟩ .kMIN (some sample_expr_a) false),
        new_target sample_expr_b].length =
        [new_target sample_expr_a, new_target sample_expr_b].length +
          (extra_aggregates keyed).length :=
  collect_target_entries_scan_targets sample_normalize (.arr [])
    (.arr [.int 1, sample_col0, sample_col1]) (.arr [sample_agg "MIN" [.int 0]])
    sample_adapter sample_td [] _ _ _ collect_target_entries_sample_literal

/-- C18, at a concrete input: the name MOD. -/
theorem vocabulary_closed_witness :
    ((∃ op, to_sql_op "MOD" = .ok op) ↔
      "MOD" ∈ [">", ">=", "<", "<=", "=", "<>", "+", "-", "*", "/", "MOD", "AND", "OR", "CAST"]) ∧
    "MOD" = "MOD" :=
  ⟨(vocabulary_closed "MOD").1,
   (vocabulary_closed "MOD").2.2.2.2.2.2.1 "MOD" .kMODULO rfl rfl⟩

/-! ## The plan assembler -/

/-- What an index into an array returned. -/
theorem Json.index_arr_ok {xs : List Json} {i : Nat} {v : Json}
    (h : (Json.arr xs).index i = .ok v) : xs[i]? = some v := by
  unfold Json.index at h
  cases hx : xs[i]? with
  | none => simp [hx] at h
  | some w =>
    simp [hx] at h
    rw [h]

/-- A value that passed the `IsArray` check is an array. -/
theorem Json.IsArray_eq {j : Json} (h : j.IsArray = true) : ∃ xs, j = .arr xs := by
  cases j <;> simp [Json.IsArray] at h
  exact ⟨_, rfl⟩

/-- Every plan `translate_query` returns is assembled from the list of nodes by
the steps of `Assembles`. -/
theorem translate_query_ok (normalize : SQLOps → SQLQualifier → Expr → Expr → Expr)
    (query_ast : Json) (cat : Catalog) (plan : RootPlan)
    (h : translate_query normalize query_ast cat = .ok plan) :
    ∃ rels, query_ast.get "rels" = .ok (.arr rels) ∧ Assembles normalize cat rels plan := by
  unfold translate_query at h
  simp only [Res.monad_bind, Res.monad_pure] at h
  obtain ⟨_, _, h⟩ := Res.bind_eq_ok.1 h
  obtain ⟨rels_node, hrels, h⟩ := Res.bind_eq_ok.1 h
  obtain ⟨_, hc1, h⟩ := Res.bind_eq_ok.1 h
  obtain ⟨rels, rfl⟩ := Json.IsArray_eq (CHECK_eq_ok.1 hc1)
  obtain ⟨scan_ra, hscan, h⟩ := Res.bind_eq_ok.1 h
  obtain ⟨_, hc2, h⟩ := Res.bind_eq_ok.1 h
  obtain ⟨rel_node, hrel, h⟩ := Res.bind_eq_ok.1 h
  obtain ⟨relOp, hrelOp, h⟩ := Res.bind_eq_ok.1 h
  obtain ⟨_, hc3, h⟩ := Res.bind_eq_ok.1 h
  obtain ⟨col_names, hcols, h⟩ := Res.bind_eq_ok.1 h
  obtain ⟨td, htd, h⟩ := Res.bind_eq_ok.1 h
  obtain ⟨n, hn, h⟩ := Res.bind_eq_ok.1 h
  have hn2 : n = rels.length := by
    simp only [Json.Size, Json.elements, Res.bind_ok, Res.ok.injEq] at hn
    exact hn.symm
  subst hn2
  have hrelstr : (scan_ra.get "relOp").bind Json.GetString = .ok "LogicalTableScan" := by
    have := CHECK_eq_ok.1 hc3
    simp only [decide_eq_true_eq] at this
    rw [hrel, Res.bind_ok, hrelOp, this]
  refine ⟨rels, hrels, scan_ra, col_names, td, Json.index_arr_ok hscan, CHECK_eq_ok.1 hc2,
    hrelstr, hcols, htd, ?_⟩
  by_cases h4 : rels.length ≥ 4
  · simp only [h4, if_true] at h
    obtain ⟨filter_ra, hfilter, h⟩ := Res.bind_eq_ok.1 h
    obtain ⟨_, _, h⟩ := Res.bind_eq_ok.1 h
    obtain ⟨cond, hcond, h⟩ := Res.bind_eq_ok.1 h
    obtain ⟨r, hr, h⟩ := Res.bind_eq_ok.1 h
    obtain ⟨e, u1⟩ := r
    simp only [Res.bind_ok] at h
    obtain ⟨project_ra, hproj, h⟩ := Res.bind_eq_ok.1 h
    obtain ⟨proj_nodes, hpn, h⟩ := Res.bind_eq_ok.1 h
    obtain ⟨agg_ra, hagg, h⟩ := Res.bind_eq_ok.1 h
    obtain ⟨agg_nodes, han, h⟩ := Res.bind_eq_ok.1 h
    rw [hagg, Res.bind_ok] at h
    obtain ⟨group_nodes, hgn, h⟩ := Res.bind_eq_ok.1 h
    have h4a : 4 ≤ rels.length := h4
    refine ⟨[e], u1, ?_, project_ra, agg_ra, proj_nodes, agg_nodes, group_nodes, ?_, ?_, hpn, han,
      hgn, ?_⟩
    · rw [if_pos h4a]
      exact ⟨filter_ra, cond, e, Json.index_arr_ok hfilter, hcond, hr, rfl⟩
    · rw [if_pos h4a]
      exact Json.index_arr_ok hproj
    · rw [if_pos h4a]
      exact Json.index_arr_ok hagg
    by_cases h5 : rels.length ≥ 5
    · simp only [h5, if_true] at h
      obtain ⟨rp, hrp, h⟩ := Res.bind_eq_ok.1 h
      obtain ⟨rpn, hrpn, h⟩ := Res.bind_eq_ok.1 h
      obtain ⟨_, hc4, h⟩ := Res.bind_eq_ok.1 h
      obtain ⟨nodes, rfl⟩ := Json.IsArray_eq (CHECK_eq_ok.1 hc4)
      obtain ⟨nodes2, hel, h⟩ := Res.bind_eq_ok.1 h
      cases hel
      obtain ⟨I, hI, h⟩ := Res.bind_eq_ok.1 h
      obtain ⟨_, _, h⟩ := Res.bind_eq_ok.1 h
      obtain ⟨r2, hrun, h⟩ := Res.bind_eq_ok.1 h
      obtain ⟨T, S, w⟩ := r2
      obtain ⟨gb, hgb, h⟩ := Res.bind_eq_ok.1 h
      obtain ⟨T1, hT1, h⟩ := Res.bind_eq_ok.1 h
      cases h
      have h5a : 5 ≤ rels.length := h5
      refine ⟨I, ?_, T, S, w, gb, T1, hrun, hgb, hT1, rfl⟩
      rw [if_pos h5a, if_pos h4a]
      exact ⟨rp, nodes, Json.index_arr_ok hrp, hrpn, hI⟩
    · simp only [h5, if_false, Res.bind_ok] at h
      obtain ⟨_, _, h⟩ := Res.bind_eq_ok.1 h
      obtain ⟨r2, hrun, h⟩ := Res.bind_eq_ok.1 h
      obtain ⟨T, S, w⟩ := r2
      obtain ⟨gb, hgb, h⟩ := Res.bind_eq_ok.1 h
      obtain ⟨T1, hT1, h⟩ := Res.bind_eq_ok.1 h
      cases h
      have h5a : ¬ 5 ≤ rels.length := h5
      refine ⟨[], ?_, T, S, w, gb, T1, hrun, hgb, hT1, rfl⟩
      rw [if_neg h5a]
  · simp only [h4, if_false, Res.bind_ok] at h
    obtain ⟨project_ra, hproj, h⟩ := Res.bind_eq_ok.1 h
    obtain ⟨proj_nodes, hpn, h⟩ := Res.bind_eq_ok.1 h
    obtain ⟨agg_ra, hagg, h⟩ := Res.bind_eq_ok.1 h
    obtain ⟨agg_nodes, han, h⟩ := Res.bind_eq_ok.1 h
    rw [hagg, Res.bind_ok] at h
    obtain ⟨group_nodes, hgn, h⟩ := Res.bind_eq_ok.1 h
    have h4a : ¬ 4 ≤ rels.length := h4
    have h5 : ¬ rels.length ≥ 5 := by omega
    simp only [h5, if_false, Res.bind_ok] at h
    obtain ⟨_, _, h⟩ := Res.bind_eq_ok.1 h
    obtain ⟨r2, hrun, h⟩ := Res.bind_eq_ok.1 h
    obtain ⟨T, S, w⟩ := r2
    obtain ⟨gb, hgb, h⟩ := Res.bind_eq_ok.1 h
    obtain ⟨T1, hT1, h⟩ := Res.bind_eq_ok.1 h
    cases h
    have h5a : ¬ 5 ≤ rels.length := h5
    refine ⟨[], [], ?_, project_ra, agg_ra, proj_nodes, agg_nodes, group_nodes, ?_, ?_, hpn, han,
      hgn, [], ?_, T, S, w, gb, T1, hrun, hgb, hT1, rfl⟩
    · rw [if_neg h4a]
      exact ⟨rfl, rfl⟩
    · rw [if_neg h4a]
      exact Json.index_arr_ok hproj
    · rw [if_neg h4a]
      exact Json.index_arr_ok hagg
    · rw [if_neg h5a]

/-- A value read as a string is a string. -/
theorem Json.GetString_ok {j : Json} {s : String} (h : j.GetString = .ok s) :
    ∃ s0, j = .str s0 ∧ c_str s0 = s := by
  cases j <;> simp only [Json.GetString] at h <;> first
    | (cases h; exact ⟨_, rfl, rfl⟩)
    | cases h

/-- The table descriptor `getTableFromScanNode` returns is the one the catalog
has for the name at place 2 of the member `table`, an array of three, the name
being read as a C string. -/
theorem getTableFromScanNode_ok (self : CalciteAdapter) (scan_ra : Json) (td : TableDescriptor)
    (h : getTableFromScanNode self scan_ra = .ok td) :
    ∃ table_info name, scan_ra.get "table" = .ok (.arr table_info) ∧ table_info.length = 3 ∧
      table_info[2]? = some (.str name) ∧
      self.cat_.getMetadataForTable (c_str name) = some td := by
  unfold getTableFromScanNode at h
  simp only [Res.monad_bind] at h
  obtain ⟨tnode, ht, h1⟩ := Res.bind_eq_ok.1 h
  obtain ⟨_, hc, h2⟩ := Res.bind_eq_ok.1 h1
  obtain ⟨n, hn, h3⟩ := Res.bind_eq_ok.1 h2
  obtain ⟨_, hc3, h4⟩ := Res.bind_eq_ok.1 h3
  obtain ⟨x, hx, h5⟩ := Res.bind_eq_ok.1 h4
  obtain ⟨name1, hname, h6⟩ := Res.bind_eq_ok.1 h5
  clear h h1 h2 h3 h4 h5
  obtain ⟨table_info, rfl⟩ := Json.IsArray_eq (CHECK_eq_ok.1 hc)
  have hlen : table_info.length = 3 := by
    simp only [Json.Size, Json.elements, Res.bind_ok, Res.ok.injEq] at hn
    have := CHECK_eq_ok.1 hc3
    simp only [decide_eq_true_eq] at this
    omega
  have hx2 := Json.index_arr_ok hx
  obtain ⟨name, hstr, hcut⟩ := Json.GetString_ok hname
  subst hstr hcut
  cases hcat : self.cat_.getMetadataForTable (c_str name) with
  | none =>
    rw [hcat] at h6
    cases h6
  | some td1 =>
    rw [hcat] at h6
    cases h6
    exact ⟨table_info, name, ht, hlen, hx2, hcat⟩

section Layout

variable (normalize : SQLOps → SQLQualifier → Expr → Expr → Expr)

/-- C15, as the code has it: every plan `translate_query` returns is assembled
from the list of nodes by the steps of `Assembles`: there are at least 3 nodes;
the scan is node 0; with 4 nodes or more node 1 is the filter, the project node is node 2, the
aggregate node is node 3 and the qualifier list of the Scan is the one-element
list of the translation of the condition of node 1 against no scan targets; with
3 nodes the project node is node 1, the aggregate node is node 2 and the
qualifier list is empty; the reprojection indices are read, from the node after
the aggregate node, exactly when there are 5 nodes or more. The Scan has the id
of the catalog table named by `table[2]` read as a C string, the text before its
first character U+0000; the aggregate plan is built on that Scan, and the root
has the statement kind select and the same table id. -/
theorem translate_query_layout (query_ast : Json) (cat : Catalog) (plan : RootPlan)
    (h : translate_query normalize query_ast cat = .ok plan) :
    ∃ rels, query_ast.get "rels" = .ok (.arr rels) ∧ 3 ≤ rels.length ∧
      Assembles normalize cat rels plan ∧
      (∃ scan_ra table_info name td,
        rels[0]? = some scan_ra ∧ scan_ra.get "table" = .ok (.arr table_info) ∧
        table_info[2]? = some (.str name) ∧ cat.getMetadataForTable (c_str name) = some td ∧
        plan.plan.child.table_id = td.tableId ∧ plan.result_table_id = td.tableId) ∧
      plan.stmt_type = SQLStmtType.kSELECT ∧
      (rels.length = 3 → plan.plan.child.quals = []) ∧
      (4 ≤ rels.length → ∃ filter_ra cond e col_names td u1,
        rels[1]? = some filter_ra ∧ filter_ra.get "condition" = .ok cond ∧
        getExprFromNode normalize ⟨cat, col_names⟩ cond td [] [] = .ok (e, u1) ∧
        plan.plan.child.quals = [e]) := by
  obtain ⟨rels, hrels, hasm⟩ := translate_query_ok normalize query_ast cat plan h
  have hasm2 := hasm
  obtain ⟨scan_ra, col_names, td, hscan, _, _, _, htd, quals, u1, hfilter, project_ra, agg_ra,
    proj_nodes, agg_nodes, group_nodes, _, hagg, _, _, _, I, _, T, S, w, gb, T1, _, _, _, hplan⟩ :=
    hasm2
  obtain ⟨table_info, name, htab, _, hname, hcat⟩ := getTableFromScanNode_ok _ scan_ra td htd
  have hlen : 3 ≤ rels.length := by
    have hlt := (List.getElem?_eq_some_iff.1 hagg).1
    by_cases h4 : 4 ≤ rels.length
    · omega
    · simp only [h4, if_false] at hlt
      omega
  subst hplan
  refine ⟨rels, hrels, hlen, hasm, ⟨scan_ra, table_info, name, td, hscan, htab, hname, hcat, rfl,
    rfl⟩, rfl, ?_, ?_⟩
  · intro h3
    have h4 : ¬ 4 ≤ rels.length := by omega
    rw [if_neg h4] at hfilter
    exact hfilter.1
  · intro h4
    rw [if_pos h4] at hfilter
    obtain ⟨filter_ra, cond, e, h1, h2, h3, hq⟩ := hfilter
    exact ⟨filter_ra, cond, e, col_names, td, u1, h1, h2, h3, hq⟩

end Layout

/-- The plan assembler on a document of five nodes whose steps all succeed: node
1 is the filter, the project node is node 2, the aggregate node is node 3 and
node 4 gives the reprojection indices. -/
theorem translate_query_five_nodes (normalize : SQLOps → SQLQualifier → Expr → Expr → Expr)
    (query_ast : Json) (cat : Catalog) (scan_ra filter_ra project_ra agg_ra final_ra : Json)
    (self : CalciteAdapter) (col_names : List String) (td : TableDescriptor)
    (cond proj_nodes agg_nodes group_nodes : Json) (nodes : List Json) (e : Expr)
    (u1 : List Int) (I : List Nat) (T S : List TargetEntry) (w : List Int) (gb : List Expr)
    (T1 : List TargetEntry)
    (hrels : query_ast.get "rels" = .ok (.arr [scan_ra, filter_ra, project_ra, agg_ra, final_ra]))
    (hsobj : scan_ra.IsObject = true)
    (hrel : scan_ra.get "relOp" = .ok (.str "LogicalTableScan"))
    (hcols : get_col_names scan_ra = .ok col_names) (hself : self = ⟨cat, col_names⟩)
    (htd : getTableFromScanNode self scan_ra = .ok td)
    (hcond : filter_ra.get "condition" = .ok cond)
    (hf : getExprFromNode normalize self cond td [] [] = .ok (e, u1))
    (hproj : project_ra.get "exprs" = .ok proj_nodes)
    (haggs : agg_ra.get "aggs" = .ok agg_nodes) (hgroup : agg_ra.get "group" = .ok group_nodes)
    (hfin : final_ra.get "exprs" = .ok (.arr nodes))
    (hI : result_proj_indices_loop nodes [] = .ok I)
    (hrun : collect_target_entries normalize [] [] group_nodes proj_nodes agg_nodes self td u1 =
      .ok (T, S, w))
    (hgb : collect_groupby group_nodes T [] = .ok gb)
    (hT1 : reproject_target_entries T I = .ok T1) :
    translate_query normalize query_ast cat =
      .ok ⟨⟨T1, ⟨S, [e], [], td.tableId, w⟩, gb⟩, SQLStmtType.kSELECT, td.tableId, [], 0, 0⟩ := by
  subst hself
  have hobj := Json.get_ok_HasMember hrels
  simp only [Bool.and_eq_true] at hobj
  have hfobj := Json.get_ok_HasMember hcond
  simp only [Bool.and_eq_true] at hfobj
  have hparr : proj_nodes.IsArray = true := by
    unfold collect_target_entries at hrun
    simp only [Res.monad_bind] at hrun
    obtain ⟨_, hc, _⟩ := Res.bind_eq_ok.1 hrun
    exact CHECK_eq_ok.1 hc
  obtain ⟨proj_list, rfl⟩ := Json.IsArray_eq hparr
  unfold translate_query
  simp only [Res.monad_bind, Res.monad_pure, hobj.1, CHECK_true, Res.bind_ok, hrels,
    Json.IsArray, Json.index, Json.Size, Json.elements, List.length_cons, List.length_nil,
    List.getElem?_cons_zero, List.getElem?_cons_succ, getUsedColumnList, hsobj, hrel,
    Nat.zero_add, Nat.reduceAdd, ge_iff_le, Nat.reduceLeDiff, if_true,
    Json.GetString, show c_str "LogicalTableScan" = "LogicalTableScan" from rfl, decide_True, hcols,
    htd, hfobj.1, hcond, hf, hproj, haggs, hgroup, hfin, hI,
    hrun, hgb, hT1]

/-- The sample filter condition `a > 1` translates to the comparison of the
column a with the literal 1. -/
theorem getExprFromNode_sample_condition (u : List Int) :
    getExprFromNode sample_normalize sample_adapter sample_condition sample_td [] u =
      .ok (.BinOper .kGT .kONE sample_expr_a (.Constant 1), set_insert 1 u) := by
  have hop : sample_condition.get "op" = .ok (.str ">") := rfl
  have hops : sample_condition.get "operands" = .ok (.arr [sample_col0, .int 1]) := rfl
  have hcode : to_sql_op ">" = .ok SQLOps.kGT := rfl
  rw [getExprFromNode_op sample_normalize sample_adapter sample_condition sample_td [] u hop,
    translateOp_eq, hop, hops]
  simp only [Res.bind_ok, Json.GetString, getExprFromNode_sample_col0, translateOp_loop,
    getExprFromNode_int_literal sample_normalize sample_adapter sample_td [] _ 1 rfl, hcode]
  rfl

/-- The run of `collect_target_entries` of the five-node sample documents. -/
theorem collect_target_entries_sample_five :
    collect_target_entries sample_normalize [] [] (.arr [.int 0])
        (.arr [sample_col0, sample_col1]) (.arr [sample_agg "MIN" [.int 1]])
        sample_adapter sample_td (set_insert 1 []) =
      .ok ([new_target sample_expr_a,
            new_target (.AggExpr ⟨.kBIGINT, false⟩ .kMIN (some sample_expr_b) false)],
           [new_target sample_expr_a, new_target sample_expr_b], [1, 2]) := by
  simp only [collect_target_entries, Res.monad_bind, Res.monad_pure, Json.IsArray,
    CHECK_true, Res.bind_ok, Json.elements, collect_target_entries_proj_loop,
    collect_target_entries_agg_loop, getExprFromNode_sample_col0, getExprFromNode_sample_col1,
    getExprFromNode_sample_agg]
  rfl

/-- The whole plan for the five-node sample document, for final projections
whose indices read as the list I of positions. -/
theorem translate_query_sample_five_eq (indices : List Int) (I : List Nat)
    (T1 : List TargetEntry)
    (hI : result_proj_indices_loop (indices.map fun i => .obj [("input", .int i)]) [] = .ok I)
    (hT1 : reproject_target_entries
      [new_target sample_expr_a,
       new_target (.AggExpr ⟨.kBIGINT, false⟩ .kMIN (some sample_expr_b) false)] I = .ok T1) :
    translate_query sample_normalize (sample_query_five indices) sample_catalog =
      .ok (sample_plan_five T1) :=
  translate_query_five_nodes sample_normalize (sample_query_five indices) sample_catalog
    sample_scan (.obj [("condition", sample_condition)])
    (.obj [("exprs", .arr [sample_col0, sample_col1])])
    (.obj [("aggs", .arr [sample_agg "MIN" [.int 1]]), ("group", .arr [.int 0])])
    (.obj [("exprs", .arr (indices.map fun i => .obj [("input", .int i)]))])
    sample_adapter ["a", "b"] sample_td sample_condition (.arr [sample_col0, sample_col1])
    (.arr [sample_agg "MIN" [.int 1]]) (.arr [.int 0])
    (indices.map fun i => .obj [("input", .int i)])
    (.BinOper .kGT .kONE sample_expr_a (.Constant 1)) (set_insert 1 []) I
    [new_target sample_expr_a,
     new_target (.AggExpr ⟨.kBIGINT, false⟩ .kMIN (some sample_expr_b) false)]
    [new_target sample_expr_a, new_target sample_expr_b] [1, 2] [sample_expr_a] T1
    rfl rfl rfl rfl rfl rfl rfl (getExprFromNode_sample_condition []) rfl rfl rfl rfl hI
    collect_target_entries_sample_five rfl hT1

/-- C15, at a concrete input: the five-node sample document with the final
projection 1, 0. -/
theorem translate_query_layout_witness :
    ∃ rels, (sample_query_five [1, 0]).get "rels" = .ok (.arr rels) ∧ 3 ≤ rels.length ∧
      Assembles sample_normalize sample_catalog rels
        (sample_plan_five [new_target (.AggExpr ⟨.kBIGINT, false⟩ .kMIN (some sample_expr_b) false),
          new_target sample_expr_a]) ∧
      (∃ scan_ra table_info name td,
        rels[0]? = some scan_ra ∧ scan_ra.get "table" = .ok (.arr table_info) ∧
        table_info[2]? = some (.str name) ∧
        sample_catalog.getMetadataForTable (c_str name) = some td ∧
        (7 : Int) = td.tableId ∧ (7 : Int) = td.tableId) ∧
      SQLStmtType.kSELECT = SQLStmtType.kSELECT ∧
      (rels.length = 3 → [Expr.BinOper .kGT .kONE sample_expr_a (.Constant 1)] = []) ∧
      (4 ≤ rels.length → ∃ filter_ra cond e col_names td u1,
        rels[1]? = some filter_ra ∧ filter_ra.get "condition" = .ok cond ∧
        getExprFromNode sample_normalize ⟨sample_catalog, col_names⟩ cond td [] [] = .ok (e, u1) ∧
        [Expr.BinOper .kGT .kONE sample_expr_a (.Constant 1)] = [e]) :=
  translate_query_layout sample_normalize (sample_query_five [1, 0]) sample_catalog
    (sample_plan_five [new_target (.AggExpr ⟨.kBIGINT, false⟩ .kMIN (some sample_expr_b) false),
      new_target sample_expr_a])
    (translate_query_sample_five_eq [1, 0] [1, 0] _ rfl rfl)

/-! ## Reprojection leaves the scan and the group-by list alone -/

section ReprojectionFrame

variable (normalize : SQLOps → SQLQualifier → Expr → Expr → Expr)

/-- What `Assembles` says about a list of five nodes or more: everything but the
aggregate-stage targets is determined by the first four nodes, and the
aggregate-stage targets are a reprojection of targets that are. -/
theorem Assembles.of_five {normalize : SQLOps → SQLQualifier → Expr → Expr → Expr}
    {cat : Catalog} {scan_ra filter_ra project_ra agg_ra final_ra : Json} {rest : List Json}
    {plan : RootPlan}
    (h : Assembles normalize cat (scan_ra :: filter_ra :: project_ra :: agg_ra :: final_ra :: rest)
      plan) :
    ∃ col_names td cond e u1 proj_nodes agg_nodes group_nodes nodes I T S w gb T1,
      get_col_names scan_ra = .ok col_names ∧
      getTableFromScanNode ⟨cat, col_names⟩ scan_ra = .ok td ∧
      filter_ra.get "condition" = .ok cond ∧
      getExprFromNode normalize ⟨cat, col_names⟩ cond td [] [] = .ok (e, u1) ∧
      project_ra.get "exprs" = .ok proj_nodes ∧
      agg_ra.get "aggs" = .ok agg_nodes ∧ agg_ra.get "group" = .ok group_nodes ∧
      final_ra.get "exprs" = .ok (.arr nodes) ∧
      result_proj_indices_loop nodes [] = .ok I ∧
      collect_target_entries normalize [] [] group_nodes proj_nodes agg_nodes ⟨cat, col_names⟩ td u1 =
        .ok (T, S, w) ∧
      collect_groupby group_nodes T [] = .ok gb ∧
      reproject_target_entries T I = .ok T1 ∧
      plan = ⟨⟨T1, ⟨S, [e], [], td.tableId, w⟩, gb⟩, SQLStmtType.kSELECT, td.tableId, [], 0, 0⟩ := by
  obtain ⟨scan_ra1, col_names, td, hscan, _, _, hcols, htd, quals, u1, hfilter, project_ra1, agg_ra1,
    proj_nodes, agg_nodes, group_nodes, hproj, hagg, hpn, han, hgn, I, hI, T, S, w, gb, T1, hrun,
    hgb, hT1, hplan⟩ := h
  have h4 : 4 ≤ (scan_ra :: filter_ra :: project_ra :: agg_ra :: final_ra :: rest).length := by
    simp
  have h5 : 5 ≤ (scan_ra :: filter_ra :: project_ra :: agg_ra :: final_ra :: rest).length := by
    simp
  rw [if_pos h4] at hfilter hproj hagg
  rw [if_pos h5, if_pos h4] at hI
  obtain ⟨filter_ra1, cond, e, hf1, hcond, hf, hq⟩ := hfilter
  obtain ⟨final_ra1, nodes, hfin1, hfin, hloop⟩ := hI
  have e0 : scan_ra = scan_ra1 := by simpa using hscan
  have e1 : filter_ra = filter_ra1 := by simpa using hf1
  have e2 : project_ra = project_ra1 := by simpa using hproj
  have e3 : agg_ra = agg_ra1 := by simpa using hagg
  have e4 : final_ra = final_ra1 := by simpa using hfin1
  subst e0 e1 e2 e3 e4 hq
  exact ⟨col_names, td, cond, e, u1, proj_nodes, agg_nodes, group_nodes, nodes, I, T, S, w, gb, T1,
    hcols, htd, hcond, hf, hpn, han, hgn, hfin, hloop, hrun, hgb, hT1, hplan⟩

/-- C19. Two documents of five nodes or more that differ only in the
final-project node, and on both of which `translate_query` succeeds, have equal
group-by lists and equal scan stages, the scan-stage targets among them; and the
two aggregate-stage target lists are reprojections of one reconciled target list,
against which, before it is reprojected, the group indices were resolved. -/
theorem translate_query_reprojection_frame (cat : Catalog) (query1 query2 : Json)
    (scan_ra filter_ra project_ra agg_ra final1 final2 : Json) (rest : List Json)
    (plan1 plan2 : RootPlan)
    (hrels1 : query1.get "rels" =
      .ok (.arr (scan_ra :: filter_ra :: project_ra :: agg_ra :: final1 :: rest)))
    (hrels2 : query2.get "rels" =
      .ok (.arr (scan_ra :: filter_ra :: project_ra :: agg_ra :: final2 :: rest)))
    (h1 : translate_query normalize query1 cat = .ok plan1)
    (h2 : translate_query normalize query2 cat = .ok plan2) :
    plan1.plan.groupby_list = plan2.plan.groupby_list ∧
    plan1.plan.child.targetlist = plan2.plan.child.targetlist ∧
    plan1.plan.child = plan2.plan.child ∧
    ∃ group_nodes T I1 I2,
      agg_ra.get "group" = .ok group_nodes ∧
      collect_groupby group_nodes T [] = .ok plan1.plan.groupby_list ∧
      reproject_target_entries T I1 = .ok plan1.plan.targetlist ∧
      reproject_target_entries T I2 = .ok plan2.plan.targetlist := by
  obtain ⟨rels1, hr1, hasm1⟩ := translate_query_ok normalize query1 cat plan1 h1
  obtain ⟨rels2, hr2, hasm2⟩ := translate_query_ok normalize query2 cat plan2 h2
  rw [hrels1] at hr1
  rw [hrels2] at hr2
  simp only [Res.ok.injEq, Json.arr.injEq] at hr1 hr2
  subst hr1 hr2
  obtain ⟨col_names, td, cond, e, u1, proj_nodes, agg_nodes, group_nodes, nodes, I, T, S, w, gb, T1,
    hcols, htd, hcond, hf, hpn, han, hgn, _, _, hrun, hgb, hT1, hplan⟩ := hasm1.of_five
  obtain ⟨col_names2, td2, cond2, e2, u2, proj_nodes2, agg_nodes2, group_nodes2, nodes2, I2, T2, S2,
    w2, gb2, T12, hcols2, htd2, hcond2, hf2, hpn2, han2, hgn2, _, _, hrun2, hgb2, hT12, hplan2⟩ :=
    hasm2.of_five
  rw [hcols] at hcols2
  cases hcols2
  rw [htd] at htd2
  cases htd2
  rw [hcond] at hcond2
  cases hcond2
  rw [hf] at hf2
  cases hf2
  rw [hpn] at hpn2
  cases hpn2
  rw [han] at han2
  cases han2
  rw [hgn] at hgn2
  cases hgn2
  rw [hrun] at hrun2
  cases hrun2
  rw [hgb] at hgb2
  cases hgb2
  subst hplan hplan2
  exact ⟨rfl, rfl, rfl, group_nodes, T, I, I2, hgn, hgb, hT1, hT12⟩

end ReprojectionFrame

/-- C19, at a concrete input: the five-node sample document with the final
projection 1, 0 and with the final projection 0. -/
theorem translate_query_reprojection_frame_witness :
    (sample_plan_five [new_target (.AggExpr ⟨.kBIGINT, false⟩ .kMIN (some sample_expr_b) false),
        new_target sample_expr_a]).plan.groupby_list =
      (sample_plan_five [new_target sample_expr_a]).plan.groupby_list ∧
    (sample_plan_five [new_target (.AggExpr ⟨.kBIGINT, false⟩ .kMIN (some sample_expr_b) false),
        new_target sample_expr_a]).plan.child.targetlist =
      (sample_plan_five [new_target sample_expr_a]).plan.child.targetlist :=
  ⟨(translate_query_reprojection_frame sample_normalize sample_catalog
      (sample_query_five [1, 0]) (sample_query_five [0]) _ _ _ _ _ _ [] _ _ rfl rfl
      (translate_query_sample_five_eq [1, 0] [1, 0] _ rfl rfl)
      (translate_query_sample_five_eq [0] [0] _ rfl rfl)).1,
   (translate_query_reprojection_frame sample_normalize sample_catalog
      (sample_query_five [1, 0]) (sample_query_five [0]) _ _ _ _ _ _ [] _ _ rfl rfl
      (translate_query_sample_five_eq [1, 0] [1, 0] _ rfl rfl)
      (translate_query_sample_five_eq [0] [0] _ rfl rfl)).2.1⟩

/-! ## The used columns -/

/-- The members of the set after an insertion. -/
theorem mem_set_insert (x a : Int) (l : List Int) : x ∈ set_insert a l ↔ x = a ∨ x ∈ l := by
  induction l with
  | nil => simp [set_insert]
  | cons y ys ih =>
    simp only [set_insert]
    split_ifs with h1 h2
    · simp
    · subst h2
      simp
    · simp only [List.mem_cons, ih]
      tauto

/-- An insertion keeps the list strictly ascending. -/
theorem pairwise_set_insert (a : Int) (l : List Int) (h : l.Pairwise (fun a b => a < b)) :
    (set_insert a l).Pairwise (fun a b => a < b) := by
  induction l with
  | nil => simp [set_insert]
  | cons y ys ih =>
    simp only [set_insert]
    rw [List.pairwise_cons] at h
    split_ifs with h1 h2
    · rw [List.pairwise_cons]
      refine ⟨?_, List.pairwise_cons.2 h⟩
      intro b hb
      rcases List.mem_cons.1 hb with hb1 | hb1
      · rw [hb1]
        exact h1
      · exact lt_trans h1 (h.1 b hb1)
    · exact List.pairwise_cons.2 h
    · rw [List.pairwise_cons]
      refine ⟨?_, ih h.2⟩
      intro b hb
      rcases (mem_set_insert b a ys).1 hb with hb1 | hb1
      · omega
      · exact h.1 b hb1

/-- Nothing translated: the used columns stay. -/
theorem UsedColumnsGrow.refl {P : Int → Prop} (u : List Int) (hP : ∀ x, ¬ P x) :
    UsedColumnsGrow P u u :=
  ⟨id, fun x => ⟨Or.inl, fun h => h.elim id (fun hx => (hP x hx).elim)⟩⟩

/-- One translation after another. -/
theorem UsedColumnsGrow.trans {P Q R : Int → Prop} {u v w : List Int}
    (h1 : UsedColumnsGrow P u v) (h2 : UsedColumnsGrow Q v w) (hR : ∀ x, R x ↔ P x ∨ Q x) :
    UsedColumnsGrow R u w := by
  refine ⟨fun hu => h2.1 (h1.1 hu), fun x => ?_⟩
  rw [h2.2 x, h1.2 x, hR x]
  tauto

/-- The same used columns under an equivalent description. -/
theorem UsedColumnsGrow.congr {P Q : Int → Prop} {u v : List Int}
    (h : UsedColumnsGrow P u v) (hPQ : ∀ x, P x ↔ Q x) : UsedColumnsGrow Q u v :=
  ⟨h.1, fun x => by rw [h.2 x, hPQ x]⟩

/-- A successful `translateColRef` inserts the column id the node resolves to. -/
theorem translateColRef_used (self : CalciteAdapter) (expr : Json) (td : TableDescriptor)
    (u : List Int) (e : Expr) (v : List Int) (h : translateColRef self expr td u = .ok (e, v)) :
    ∃ x, v = set_insert x u ∧ ResolvesTo self td expr x := by
  unfold translateColRef at h
  simp only [Res.monad_bind] at h
  obtain ⟨j, hj, h1⟩ := Res.bind_eq_ok.1 h
  obtain ⟨i, hi, h2⟩ := Res.bind_eq_ok.1 h1
  obtain ⟨_, hc1, h3⟩ := Res.bind_eq_ok.1 h2
  obtain ⟨_, hc2, h4⟩ := Res.bind_eq_ok.1 h3
  cases hn : self.col_names_[to_size_t i]? with
  | none =>
    rw [hn] at h4
    cases h4
  | some name =>
    rw [hn] at h4
    simp only at h4
    cases hm : self.cat_.getMetadataForColumn td.tableId name with
    | none =>
      rw [hm] at h4
      cases h4
    | some cd =>
      rw [hm] at h4
      simp only [Res.ok.injEq, Prod.mk.injEq] at h4
      refine ⟨cd.columnId, h4.2.symm, cd.columnType, 0, ?_⟩
      unfold translateColRef
      simp only [Res.monad_bind, hj, hi, hc1, hc2, Res.bind_ok, hn, hm]
      rfl

/-- A reference node resolves to one column id. -/
theorem ResolvesTo.same_id {self : CalciteAdapter} {td : TableDescriptor} {n : Json} {x y : Int}
    (hx : ResolvesTo self td n x) (hy : ResolvesTo self td n y) : x = y := by
  obtain ⟨ti, r, h1⟩ := hx
  obtain ⟨ti2, r2, h2⟩ := hy
  rw [h1] at h2
  simp only [Res.ok.injEq, Prod.mk.injEq, List.cons.injEq, and_true] at h2
  exact h2.2

section UsedColumns

variable (normalize : SQLOps → SQLQualifier → Expr → Expr → Expr)

/-- A successful translation of a node adds to the used columns exactly the ids
the reference nodes reached from the node resolve to, and keeps the list
strictly ascending. -/
theorem getExprFromNode_used (self : CalciteAdapter) (expr : Json) (td : TableDescriptor)
    (scan_targets : List TargetEntry) (u : List Int) (e : Expr) (v : List Int)
    (h : getExprFromNode normalize self expr td scan_targets u = .ok (e, v)) :
    UsedColumnsGrow (fun x => ∃ n, ColRefIn expr n ∧ ResolvesTo self td n x) u v := by
  have key := getExprFromNode.mutual_induct normalize self
    (fun expr td st u => ∀ e v, getExprFromNode normalize self expr td st u = .ok (e, v) →
      UsedColumnsGrow (fun x => ∃ n, ColRefIn expr n ∧ ResolvesTo self td n x) u v)
    (fun expr td u => ∀ e v, translateOp normalize self expr td u = .ok (e, v) →
      UsedColumnsGrow (fun x => ∃ n xs o, expr.get "operands" = .ok (.arr xs) ∧ o ∈ xs ∧
        ColRefIn o n ∧ ResolvesTo self td n x) u v)
    (fun op_str td rest lhs u => ∀ e v,
      translateOp_loop normalize self op_str td rest lhs u = .ok (e, v) →
      UsedColumnsGrow (fun x => ∃ n o, o ∈ rest ∧ ColRefIn o n ∧ ResolvesTo self td n x) u v)
  refine (key ?_ ?_ ?_ ?_ ?_ ?_ ?_ ?_).1 expr td scan_targets u e v h
  · intro expr td st u h ih e v hrun
    rw [getExprFromNode, if_pos h] at hrun
    refine (ih e v hrun).congr fun x => ⟨?_, ?_⟩
    · rintro ⟨n, xs, o, hxs, ho, hc, hr⟩
      exact ⟨n, ColRefIn.operand expr xs o n h hxs ho hc, hr⟩
    · rintro ⟨n, hc, hr⟩
      cases hc with
      | here _ hop _ => exact (hop h).elim
      | operand _ xs o _ _ hxs ho hc1 => exact ⟨n, xs, o, hxs, ho, hc1, hr⟩
  · intro expr td st u h1 h2 e v hrun
    rw [getExprFromNode, if_neg h1, if_pos h2] at hrun
    obtain ⟨x0, hv, hres⟩ := translateColRef_used self expr td u e v hrun
    subst hv
    refine ⟨pairwise_set_insert x0 u, fun x => ?_⟩
    rw [mem_set_insert]
    constructor
    · rintro (hx | hx)
      · exact Or.inr ⟨expr, ColRefIn.here expr h1 h2, hx ▸ hres⟩
      · exact Or.inl hx
    · rintro (hx | ⟨n, hc, hr⟩)
      · exact Or.inr hx
      · cases hc with
        | here _ _ _ => exact Or.inl (hr.same_id hres)
        | operand _ xs o _ hop _ _ _ => exact (h1 hop).elim
  · intro expr td st u h1 h2 h3 e v hrun
    rw [getExprFromNode, if_neg h1, if_neg h2, if_pos h3] at hrun
    obtain ⟨e1, _, hrun1⟩ := Res.bind_eq_ok.1 hrun
    simp only [Res.ok.injEq, Prod.mk.injEq] at hrun1
    rw [← hrun1.2]
    refine UsedColumnsGrow.refl u ?_
    rintro x ⟨n, hc, _⟩
    cases hc with
    | here _ _ hin => exact h2 hin
    | operand _ xs o _ hop _ _ _ => exact h1 hop
  · intro expr td st u h1 h2 h3 h4 e v hrun
    rw [getExprFromNode, if_neg h1, if_neg h2, if_neg h3, if_pos h4] at hrun
    obtain ⟨e1, _, hrun1⟩ := Res.bind_eq_ok.1 hrun
    simp only [Res.ok.injEq, Prod.mk.injEq] at hrun1
    rw [← hrun1.2]
    refine UsedColumnsGrow.refl u ?_
    rintro x ⟨n, hc, _⟩
    cases hc with
    | here _ _ hin => exact h2 hin
    | operand _ xs o _ hop _ _ _ => exact h1 hop
  · intro expr td st u h1 h2 h3 h4 e v hrun
    rw [getExprFromNode, if_neg h1, if_neg h2, if_neg h3, if_neg h4] at hrun
    cases hrun
  · intro expr td u ih1 ih2 ih3 e v hrun
    rw [translateOp_eq] at hrun
    obtain ⟨op_node, hop, hrun1⟩ := Res.bind_eq_ok.1 hrun
    obtain ⟨op_str, hs, hrun2⟩ := Res.bind_eq_ok.1 hrun1
    obtain ⟨operands, hops, hrun3⟩ := Res.bind_eq_ok.1 hrun2
    split at hrun3
    · rename_i operand0
      obtain ⟨op, _, hrun4⟩ := Res.bind_eq_ok.1 hrun3
      obtain ⟨_, _, hrun5⟩ := Res.bind_eq_ok.1 hrun4
      obtain ⟨r, hr, hrun6⟩ := Res.bind_eq_ok.1 hrun5
      obtain ⟨expr_type, _, hrun7⟩ := Res.bind_eq_ok.1 hrun6
      obtain ⟨target_ti, _, hrun8⟩ := Res.bind_eq_ok.1 hrun7
      simp only [Res.ok.injEq, Prod.mk.injEq] at hrun8
      rw [← hrun8.2]
      refine (ih1 operand0 hops r.1 r.2 hr).congr fun x => ⟨?_, ?_⟩
      · rintro ⟨n, hc, hres⟩
        exact ⟨n, [operand0], operand0, hops, List.mem_singleton.2 rfl, hc, hres⟩
      · rintro ⟨n, xs, o, hxs, ho, hc, hres⟩
        rw [hops] at hxs
        simp only [Res.ok.injEq, Json.arr.injEq] at hxs
        subst hxs
        rw [List.mem_singleton] at ho
        subst ho
        exact ⟨n, hc, hres⟩
    · cases hrun3
    · rename_i operand0 operand1 rest
      obtain ⟨r, hr, hrun4⟩ := Res.bind_eq_ok.1 hrun3
      refine (ih2 operand0 operand1 rest hops r.1 r.2 hr).trans
        (ih3 op_str operand0 operand1 rest hops r e v hrun4) fun x => ⟨?_, ?_⟩
      · rintro ⟨n, xs, o, hxs, ho, hc, hres⟩
        rw [hops] at hxs
        simp only [Res.ok.injEq, Json.arr.injEq] at hxs
        subst hxs
        rcases List.mem_cons.1 ho with ho1 | ho1
        · subst ho1
          exact Or.inl ⟨n, hc, hres⟩
        · exact Or.inr ⟨n, o, ho1, hc, hres⟩
      · rintro (⟨n, hc, hres⟩ | ⟨n, o, ho, hc, hres⟩)
        · exact ⟨n, _, operand0, hops, List.mem_cons_self _ _, hc, hres⟩
        · exact ⟨n, _, o, hops, List.mem_cons_of_mem _ ho, hc, hres⟩
    · cases hrun3
  · intro op_str td lhs u e v hrun
    rw [translateOp_loop] at hrun
    simp only [Res.ok.injEq, Prod.mk.injEq] at hrun
    rw [← hrun.2]
    refine UsedColumnsGrow.refl u ?_
    rintro x ⟨n, o, ho, _⟩
    cases ho
  · intro op_str td lhs u operand rest1 ih1 ih2 e v hrun
    rw [translateOp_loop] at hrun
    obtain ⟨r, hr, hrun1⟩ := Res.bind_eq_ok.1 hrun
    obtain ⟨op, _, hrun2⟩ := Res.bind_eq_ok.1 hrun1
    refine (ih1 r.1 r.2 hr).trans (ih2 r op e v hrun2) fun x => ⟨?_, ?_⟩
    · rintro ⟨n, o, ho, hc, hres⟩
      rcases List.mem_cons.1 ho with ho1 | ho1
      · subst ho1
        exact Or.inl ⟨n, hc, hres⟩
      · exact Or.inr ⟨n, o, ho1, hc, hres⟩
    · rintro (⟨n, hc, hres⟩ | ⟨n, o, ho, hc, hres⟩)
      · exact ⟨n, operand, List.mem_cons_self _ _, hc, hres⟩
      · exact ⟨n, o, List.mem_cons_of_mem _ ho, hc, hres⟩

/-- The projection loop adds the ids the references reached from the projection
nodes resolve to. -/
theorem collect_target_entries_proj_loop_used (self : CalciteAdapter) (td : TableDescriptor)
    (nodes : List Json) (S0 : List TargetEntry) (u : List Int) (S : List TargetEntry)
    (w : List Int)
    (h : collect_target_entries_proj_loop normalize self td nodes S0 u = .ok (S, w)) :
    UsedColumnsGrow (fun x => ∃ n o, o ∈ nodes ∧ ColRefIn o n ∧ ResolvesTo self td n x) u w := by
  induction nodes generalizing S0 u with
  | nil =>
    simp only [collect_target_entries_proj_loop, Res.ok.injEq, Prod.mk.injEq] at h
    rw [← h.2]
    refine UsedColumnsGrow.refl u ?_
    rintro x ⟨n, o, ho, _⟩
    cases ho
  | cons node nodes ih =>
    simp only [collect_target_entries_proj_loop] at h
    obtain ⟨r, hr, h1⟩ := Res.bind_eq_ok.1 h
    have hrest : UsedColumnsGrow
        (fun x => ∃ n o, o ∈ nodes ∧ ColRefIn o n ∧ ResolvesTo self td n x) r.2 w := by
      by_cases hc : r.1.isConstant = true
      · simp only [hc, if_true] at h1
        exact ih S0 r.2 h1
      · simp only [hc] at h1
        exact ih _ r.2 h1
    refine (getExprFromNode_used normalize self node td [] u r.1 r.2 hr).trans hrest
      fun x => ⟨?_, ?_⟩
    · rintro ⟨n, o, ho, hc, hres⟩
      rcases List.mem_cons.1 ho with ho1 | ho1
      · subst ho1
        exact Or.inl ⟨n, hc, hres⟩
      · exact Or.inr ⟨n, o, ho1, hc, hres⟩
    · rintro (⟨n, hc, hres⟩ | ⟨n, o, ho, hc, hres⟩)
      · exact ⟨n, node, List.mem_cons_self _ _, hc, hres⟩
      · exact ⟨n, o, List.mem_cons_of_mem _ ho, hc, hres⟩

/-- The aggregate loop adds the ids the references reached from the aggregate
nodes resolve to. -/
theorem collect_target_entries_agg_loop_used (self : CalciteAdapter) (td : TableDescriptor)
    (S : List TargetEntry) (nodes : List Json) (m0 : List (Nat × Expr))
    (more0 : List TargetEntry) (u : List Int) (m : List (Nat × Expr))
    (more : List TargetEntry) (w : List Int)
    (h : collect_target_entries_agg_loop normalize self td S nodes m0 more0 u = .ok (m, more, w)) :
    UsedColumnsGrow (fun x => ∃ n o, o ∈ nodes ∧ ColRefIn o n ∧ ResolvesTo self td n x) u w := by
  induction nodes generalizing m0 more0 u with
  | nil =>
    simp only [collect_target_entries_agg_loop, Res.ok.injEq, Prod.mk.injEq] at h
    rw [← h.2.2]
    refine UsedColumnsGrow.refl u ?_
    rintro x ⟨n, o, ho, _⟩
    cases ho
  | cons node nodes ih =>
    simp only [collect_target_entries_agg_loop] at h
    obtain ⟨r, hr, h1⟩ := Res.bind_eq_ok.1 h
    obtain ⟨idx, _, h2⟩ := Res.bind_eq_ok.1 h1
    have hrest : UsedColumnsGrow
        (fun x => ∃ n o, o ∈ nodes ∧ ColRefIn o n ∧ ResolvesTo self td n x) r.2 w := by
      by_cases hneg : idx < 0
      · simp only [hneg, if_true] at h2
        exact ih _ _ r.2 h2
      · simp only [hneg, if_false] at h2
        exact ih _ _ r.2 h2
    refine (getExprFromNode_used normalize self node td S u r.1 r.2 hr).trans hrest
      fun x => ⟨?_, ?_⟩
    · rintro ⟨n, o, ho, hc, hres⟩
      rcases List.mem_cons.1 ho with ho1 | ho1
      · subst ho1
        exact Or.inl ⟨n, hc, hres⟩
      · exact Or.inr ⟨n, o, ho1, hc, hres⟩
    · rintro (⟨n, hc, hres⟩ | ⟨n, o, ho, hc, hres⟩)
      · exact ⟨n, node, List.mem_cons_self _ _, hc, hres⟩
      · exact ⟨n, o, List.mem_cons_of_mem _ ho, hc, hres⟩

/-- A successful run of `collect_target_entries` adds the ids the references
reached from the projection nodes and from the aggregate nodes resolve to. -/
theorem collect_target_entries_used (agg_targets scan_targets : List TargetEntry)
    (group_nodes proj_nodes agg_nodes : Json) (self : CalciteAdapter) (td : TableDescriptor)
    (u : List Int) (T S : List TargetEntry) (w : List Int)
    (h : collect_target_entries normalize agg_targets scan_targets group_nodes proj_nodes
      agg_nodes self td u = .ok (T, S, w)) :
    ∃ proj_list agg_list, proj_nodes = .arr proj_list ∧ agg_nodes = .arr agg_list ∧
      UsedColumnsGrow (fun x => ∃ n o, (o ∈ proj_list ∨ o ∈ agg_list) ∧ ColRefIn o n ∧
        ResolvesTo self td n x) u w := by
  unfold collect_target_entries at h
  simp only [Res.monad_bind, Res.monad_pure] at h
  obtain ⟨_, hc1, h1⟩ := Res.bind_eq_ok.1 h
  obtain ⟨proj_list, hpl, h2⟩ := Res.bind_eq_ok.1 h1
  obtain ⟨r1, hr1, h3⟩ := Res.bind_eq_ok.1 h2
  obtain ⟨S1, u1⟩ := r1
  simp only at h3
  obtain ⟨agg_list, hal, h4⟩ := Res.bind_eq_ok.1 h3
  obtain ⟨r2, hr2, h5⟩ := Res.bind_eq_ok.1 h4
  obtain ⟨m, more, u2⟩ := r2
  simp only at h5
  obtain ⟨_, hc2, h6⟩ := Res.bind_eq_ok.1 h5
  simp only [Res.ok.injEq, Prod.mk.injEq] at h6
  have hproj : proj_nodes = .arr proj_list := by
    cases proj_nodes <;> simp [Json.elements] at hpl
    rw [hpl]
  have hagg : agg_nodes = .arr agg_list := by
    cases agg_nodes <;> simp [Json.elements] at hal
    rw [hal]
  refine ⟨proj_list, agg_list, hproj, hagg, ?_⟩
  rw [← h6.2.2]
  refine (collect_target_entries_proj_loop_used normalize self td proj_list scan_targets u S1 u1
    hr1).trans (collect_target_entries_agg_loop_used normalize self td S1 agg_list [] [] u1 m more
    u2 hr2) fun x => ⟨?_, ?_⟩
  · rintro ⟨n, o, ho | ho, hc, hres⟩
    · exact Or.inl ⟨n, o, ho, hc, hres⟩
    · exact Or.inr ⟨n, o, ho, hc, hres⟩
  · rintro (⟨n, o, ho, hc, hres⟩ | ⟨n, o, ho, hc, hres⟩)
    · exact ⟨n, o, Or.inl ho, hc, hres⟩
    · exact ⟨n, o, Or.inr ho, hc, hres⟩

/-- C17. On every plan `translate_query` returns, the used-column list of the
Scan is strictly ascending, so it has each id once, and its members are exactly
the catalog column ids that the column-reference nodes reached by the translator
resolve to: the references in the filter condition when there is one, in the
projection nodes and in the aggregate nodes, those under operator and cast nodes
included. When no reference is reached the list is empty, as is the list of a
translator that has used no column. -/
theorem translate_query_used_columns (query_ast : Json) (cat : Catalog) (plan : RootPlan)
    (h : translate_query normalize query_ast cat = .ok plan) :
    ∃ rels scan_ra col_names td,
      query_ast.get "rels" = .ok (.arr rels) ∧ rels[0]? = some scan_ra ∧
      get_col_names scan_ra = .ok col_names ∧
      getTableFromScanNode ⟨cat, col_names⟩ scan_ra = .ok td ∧
      plan.plan.child.col_list.Pairwise (fun a b => a < b) ∧
      plan.plan.child.col_list.Nodup ∧
      (∀ x, x ∈ plan.plan.child.col_list ↔
        ∃ node n, TranslatedNode rels node ∧ ColRefIn node n ∧
          ResolvesTo ⟨cat, col_names⟩ td n x) ∧
      ((∀ node n, TranslatedNode rels node → ¬ ColRefIn node n) →
        plan.plan.child.col_list = []) ∧
      getUsedColumnList [] = [] := by
  obtain ⟨rels, hrels, hasm⟩ := translate_query_ok normalize query_ast cat plan h
  obtain ⟨scan_ra, col_names, td, hscan, _, _, hcols, htd, quals, u1, hfilter, project_ra, agg_ra,
    proj_nodes, agg_nodes, group_nodes, hproj, hagg, hpn, han, hgn, I, _, T, S, w, gb, T1, hrun,
    _, _, hplan⟩ := hasm
  subst hplan
  obtain ⟨proj_list, agg_list, hpl, hal, hgrow⟩ :=
    collect_target_entries_used normalize [] [] group_nodes proj_nodes agg_nodes ⟨cat, col_names⟩
      td u1 T S w hrun
  subst hpl hal
  have hfil : UsedColumnsGrow (fun x => ∃ n cond, (4 ≤ rels.length ∧ ∃ filter_ra,
      rels[1]? = some filter_ra ∧ filter_ra.get "condition" = .ok cond) ∧ ColRefIn cond n ∧
      ResolvesTo ⟨cat, col_names⟩ td n x) [] u1 := by
    by_cases h4 : 4 ≤ rels.length
    · rw [if_pos h4] at hfilter
      obtain ⟨filter_ra, cond, e, hf1, hcond, hf, _⟩ := hfilter
      refine (getExprFromNode_used normalize ⟨cat, col_names⟩ cond td [] [] e u1 hf).congr
        fun x => ⟨?_, ?_⟩
      · rintro ⟨n, hc, hres⟩
        exact ⟨n, cond, ⟨h4, filter_ra, hf1, hcond⟩, hc, hres⟩
      · rintro ⟨n, cond2, ⟨_, filter_ra2, hf2, hcond2⟩, hc, hres⟩
        rw [hf1] at hf2
        cases hf2
        rw [hcond] at hcond2
        cases hcond2
        exact ⟨n, hc, hres⟩
    · rw [if_neg h4] at hfilter
      rw [hfilter.2]
      refine UsedColumnsGrow.refl [] ?_
      rintro x ⟨n, cond, ⟨h4a, _⟩, _⟩
      exact h4 h4a
  have hall : UsedColumnsGrow (fun x => ∃ node n, TranslatedNode rels node ∧ ColRefIn node n ∧
      ResolvesTo ⟨cat, col_names⟩ td n x) [] w := by
    refine hfil.trans hgrow fun x => ⟨?_, ?_⟩
    · rintro ⟨node, n, hnode | hnode | hnode, hc, hres⟩
      · exact Or.inl ⟨n, node, hnode, hc, hres⟩
      · obtain ⟨project_ra2, proj_list2, hp1, hp2, hmem⟩ := hnode
        rw [hproj] at hp1
        cases hp1
        rw [hpn] at hp2
        cases hp2
        exact Or.inr ⟨n, node, Or.inl hmem, hc, hres⟩
      · obtain ⟨agg_ra2, agg_list2, ha1, ha2, hmem⟩ := hnode
        rw [hagg] at ha1
        cases ha1
        rw [han] at ha2
        cases ha2
        exact Or.inr ⟨n, node, Or.inr hmem, hc, hres⟩
    · rintro (⟨n, node, hnode, hc, hres⟩ | ⟨n, node, hmem | hmem, hc, hres⟩)
      · exact ⟨node, n, Or.inl hnode, hc, hres⟩
      · exact ⟨node, n, Or.inr (Or.inl ⟨project_ra, proj_list, hproj, hpn, hmem⟩), hc, hres⟩
      · exact ⟨node, n, Or.inr (Or.inr ⟨agg_ra, agg_list, hagg, han, hmem⟩), hc, hres⟩
  have hsorted : w.Pairwise (fun a b => a < b) := hall.1 List.Pairwise.nil
  have hmem : ∀ x, x ∈ w ↔ ∃ node n, TranslatedNode rels node ∧ ColRefIn node n ∧
      ResolvesTo ⟨cat, col_names⟩ td n x := by
    intro x
    rw [hall.2 x]
    simp
  refine ⟨rels, scan_ra, col_names, td, hrels, hscan, hcols, htd, hsorted, ?_, hmem, ?_, rfl⟩
  · exact hsorted.imp (fun hab => ne_of_lt hab)
  · intro hnone
    apply List.eq_nil_iff_forall_not_mem.2
    intro x hx
    obtain ⟨node, n, hnode, hc, _⟩ := (hmem x).1 hx
    exact hnone node n hnode hc

end UsedColumns



/-- C17, at a concrete input: the five-node sample document with the final
projection 1, 0, whose used columns are 1 and 2. -/
theorem translate_query_used_columns_witness :
    ∃ rels scan_ra col_names td,
      (sample_query_five [1, 0]).get "rels" = .ok (.arr rels) ∧ rels[0]? = some scan_ra ∧
      get_col_names scan_ra = .ok col_names ∧
      getTableFromScanNode ⟨sample_catalog, col_names⟩ scan_ra = .ok td ∧
      ([1, 2] : List Int).Pairwise (fun a b => a < b) ∧
      ([1, 2] : List Int).Nodup ∧
      (∀ x, x ∈ ([1, 2] : List Int) ↔
        ∃ node n, TranslatedNode rels node ∧ ColRefIn node n ∧
          ResolvesTo ⟨sample_catalog, col_names⟩ td n x) ∧
      ((∀ node n, TranslatedNode rels node → ¬ ColRefIn node n) → ([1, 2] : List Int) = []) ∧
      getUsedColumnList [] = [] :=
  translate_query_used_columns sample_normalize (sample_query_five [1, 0]) sample_catalog
    (sample_plan_five [new_target (.AggExpr ⟨.kBIGINT, false⟩ .kMIN (some sample_expr_b) false),
      new_target sample_expr_a])
    (translate_query_sample_five_eq [1, 0] [1, 0] _ rfl rfl)

/-! ## Aggregates below the top level of the aggs list -/

/-- The operator lookup returns a code or is fatal. -/
theorem to_sql_op_cases (s : String) : (∃ op, to_sql_op s = .ok op) ∨ to_sql_op s = .fatal := by
  by_cases h : ∃ op, to_sql_op s = .ok op
  · exact Or.inl h
  · exact Or.inr (to_sql_op_fatal s h)

/-- A member the object has can be read. -/
theorem Json.get_of_HasMember {j : Json} {name : String}
    (h : (j.IsObject && j.HasMember name) = true) : ∃ v, j.get name = .ok v := by
  cases j <;> simp [Json.IsObject, Json.HasMember] at h
  rename_i ms
  cases hm : FindMember ms name with
  | none => simp [hm] at h
  | some w => exact ⟨w, by simp [Json.get, hm]⟩

/-- Against an empty scan-target list an aggregate that takes an argument is
fatal, whatever its operand index. -/
theorem translateAggregate_no_scan_targets (expr : Json) (td : TableDescriptor)
    (h : ArgAggregate expr) : translateAggregate expr td [] = .fatal := by
  obtain ⟨_, _, ⟨name, k, d, hagg, hk, hd, htakes⟩, htype, hidx⟩ := h
  unfold translateAggregate
  simp only [Res.monad_bind]
  by_cases hm : (expr.IsObject && expr.HasMember "type") = true
  · obtain ⟨t, ht⟩ := Json.get_of_HasMember hm
    rw [hm, CHECK_true, Res.bind_ok, ht, Res.bind_ok]
    cases hto : t.IsObject with
    | false => rfl
    | true =>
      rw [CHECK_true, Res.bind_ok]
      cases hti : read_type_info t with
      | undefined => exact absurd hti (htype t ht)
      | fatal => rfl
      | ok ti =>
        rw [Res.bind_ok]
        cases hj : get_agg_operand_idx expr with
        | undefined => exact absurd hj hidx
        | fatal => rfl
        | ok j =>
          have htk : (decide (k ≠ SQLAgg.kCOUNT) || d) = true := by
            rcases htakes with hk1 | hd1
            · simp [hk1]
            · simp [hd1]
          simp only [Res.bind_ok, hagg, Json.GetString, c_str_of_to_agg_kind hk, hk, hd,
            Json.GetBool, htk, if_true]
          by_cases h0 : j ≥ 0
          · have h1 : ¬ j < ((([] : List TargetEntry).length : Nat) : Int) := by
              simp only [List.length_nil, Nat.cast_zero]
              omega
            simp only [h0, decide_True, CHECK_true, Res.bind_ok, h1, decide_False, CHECK_false,
              Res.bind_fatal]
          · simp only [h0, decide_False, CHECK_false, Res.bind_fatal]
  · have hm2 : (expr.IsObject && expr.HasMember "type") = false := by
      simpa using hm
    rw [hm2]
    rfl

section NestedAggregates

variable (normalize : SQLOps → SQLQualifier → Expr → Expr → Expr)

/-- As an operand or as a filter condition, an aggregate that takes an argument
is fatal. -/
theorem getExprFromNode_arg_aggregate (self : CalciteAdapter) (td : TableDescriptor)
    (expr : Json) (h : ArgAggregate expr) (u : List Int) :
    getExprFromNode normalize self expr td [] u = .fatal := by
  have hfat := translateAggregate_no_scan_targets expr td h
  obtain ⟨h1, h2, ⟨name, k, d, hagg, _⟩, _⟩ := h
  rw [getExprFromNode, if_neg h1, if_neg h2, if_pos (Json.get_ok_HasMember hagg), hfat]
  rfl

/-- The operand loop is fatal when it reaches a fatal operand after operands
whose translation is defined behaviour. -/
theorem translateOp_loop_fatal (self : CalciteAdapter) (op_str : String) (td : TableDescriptor)
    (x : Json) (post : List Json)
    (hx : ∀ u, getExprFromNode normalize self x td [] u = .fatal) (pre : List Json)
    (hpre : ∀ p, p ∈ pre → ∀ u, getExprFromNode normalize self p td [] u ≠ .undefined)
    (lhs : Expr) (u : List Int) :
    translateOp_loop normalize self op_str td (pre ++ x :: post) lhs u = .fatal := by
  induction pre generalizing lhs u with
  | nil =>
    rw [List.nil_append, translateOp_loop, hx u]
    rfl
  | cons p pre ih =>
    rw [List.cons_append, translateOp_loop]
    cases hp : getExprFromNode normalize self p td [] u with
    | undefined => exact absurd hp (hpre p (List.mem_cons_self _ _) u)
    | fatal => rfl
    | ok r =>
      rw [Res.bind_ok]
      rcases to_sql_op_cases op_str with ⟨op, hop⟩ | hop
      · rw [hop, Res.bind_ok]
        exact ih (fun q hq => hpre q (List.mem_cons_of_mem _ hq)) _ _
      · rw [hop]
        rfl

/-- An operator or cast node is fatal when one of its operands is, the operands
before that one being translated with defined behaviour. -/
theorem translateOp_fatal_operand (self : CalciteAdapter) (td : TableDescriptor)
    (node : Json) (op_str : String) (pre : List Json) (x : Json) (post : List Json)
    (hop : node.get "op" = .ok (.str op_str))
    (hxs : node.get "operands" = .ok (.arr (pre ++ x :: post)))
    (hpre : ∀ p, p ∈ pre → ∀ u, getExprFromNode normalize self p td [] u ≠ .undefined)
    (hx : ∀ u, getExprFromNode normalize self x td [] u = .fatal)
    (scan_targets : List TargetEntry) (u : List Int) :
    getExprFromNode normalize self node td scan_targets u = .fatal := by
  rw [getExprFromNode_op normalize self node td scan_targets u hop, translateOp_eq, hop,
    Res.bind_ok]
  simp only [Json.GetString, Res.bind_ok, hxs]
  match pre, post, hpre with
  | [], [], _ =>
    simp only [List.nil_append]
    rcases to_sql_op_cases (c_str op_str) with ⟨op, hcode⟩ | hcode
    · rw [hcode, Res.bind_ok]
      cases hc : CHECK (decide (SQLOps.kCAST = op)) with
      | undefined =>
        unfold CHECK at hc
        split at hc <;> cases hc
      | fatal => rfl
      | ok _ =>
        rw [Res.bind_ok, hx u]
        rfl
    · rw [hcode]
      rfl
  | [], q :: post1, _ =>
    simp only [List.nil_append]
    rw [hx u]
    rfl
  | [p], post, hpre1 =>
    simp only [List.cons_append, List.nil_append]
    cases hp : getExprFromNode normalize self p td [] u with
    | undefined => exact absurd hp (hpre1 p (List.mem_cons_self _ _) u)
    | fatal => rfl
    | ok r =>
      rw [Res.bind_ok]
      exact translateOp_loop_fatal normalize self (c_str op_str) td x post hx [] (fun _ hq => by cases hq)
        _ _
  | p :: p2 :: pre2, post, hpre1 =>
    simp only [List.cons_append]
    cases hp : getExprFromNode normalize self p td [] u with
    | undefined => exact absurd hp (hpre1 p (List.mem_cons_self _ _) u)
    | fatal => rfl
    | ok r =>
      rw [Res.bind_ok]
      exact translateOp_loop_fatal normalize self (c_str op_str) td x post hx (p2 :: pre2)
        (fun q hq => hpre1 q (List.mem_cons_of_mem _ hq)) _ _

/-- An operator or cast node that nests an aggregate taking an argument is
fatal, against any scan targets. -/
theorem getExprFromNode_nests_arg_aggregate (self : CalciteAdapter) (td : TableDescriptor)
    (node : Json) (h : NestsArgAggregate normalize self td node) :
    ∀ (scan_targets : List TargetEntry) (u : List Int),
      getExprFromNode normalize self node td scan_targets u = .fatal := by
  induction h with
  | direct node op_str pre x post hop hxs hpre hx =>
    intro st u
    exact translateOp_fatal_operand normalize self td node op_str pre x post hop hxs hpre
      (getExprFromNode_arg_aggregate normalize self td x hx) st u
  | deeper node op_str pre x post hop hxs hpre _ ih =>
    intro st u
    exact translateOp_fatal_operand normalize self td node op_str pre x post hop hxs hpre
      (fun u1 => ih [] u1) st u

/-- The plan assembler is fatal on a document of four nodes or more whose scan
node is read and whose filter condition is fatal. -/
theorem translate_query_filter_fatal (query_ast : Json) (self : CalciteAdapter)
    (td : TableDescriptor) (scan_ra filter_ra cond : Json) (rest : List Json)
    (hrels : query_ast.get "rels" = .ok (.arr (scan_ra :: filter_ra :: rest)))
    (hlen : 2 ≤ rest.length)
    (hsobj : scan_ra.IsObject = true)
    (hrel : scan_ra.get "relOp" = .ok (.str "LogicalTableScan"))
    (hcols : get_col_names scan_ra = .ok self.col_names_)
    (htd : getTableFromScanNode self scan_ra = .ok td)
    (hcond : filter_ra.get "condition" = .ok cond)
    (hf : getExprFromNode normalize self cond td [] [] = .fatal) :
    translate_query normalize query_ast self.cat_ = .fatal := by
  have hobj := Json.get_ok_HasMember hrels
  simp only [Bool.and_eq_true] at hobj
  have hfobj := Json.get_ok_HasMember hcond
  simp only [Bool.and_eq_true] at hfobj
  have h4 : (scan_ra :: filter_ra :: rest).length ≥ 4 := by
    simp only [List.length_cons]
    omega
  have hself : (⟨self.cat_, self.col_names_⟩ : CalciteAdapter) = self := rfl
  unfold translate_query
  simp only [Res.monad_bind, Res.monad_pure, hobj.1, CHECK_true, Res.bind_ok, hrels,
    Json.IsArray, Json.index, Json.Size, Json.elements,
    List.getElem?_cons_zero, List.getElem?_cons_succ, hsobj, hrel,
    Json.GetString, show c_str "LogicalTableScan" = "LogicalTableScan" from rfl, decide_True, hcols,
    hself, htd, h4, if_true, hfobj.1, hcond, hf,
    Res.bind_fatal]

/-- C20. A node that is an aggregate taking an argument (MIN, MAX, SUM, or a
distinct COUNT), or an operator or cast node with such an aggregate as an operand
at some depth, is fatal when it is translated against an empty scan-target list,
as operands and filter conditions are, whatever operand index the aggregate
carries; an operator or cast node of that kind is fatal against any scan-target
list, so also at the top level of the aggs list; and `translate_query` is fatal on
a document of four nodes or more whose scan node is read and whose filter
condition is such a node. -/
theorem nested_aggregate_fatal (self : CalciteAdapter) (td : TableDescriptor) (node : Json)
    (h : ArgAggregate node ∨ NestsArgAggregate normalize self td node) :
    (∀ u, getExprFromNode normalize self node td [] u = .fatal) ∧
    (NestsArgAggregate normalize self td node → ∀ scan_targets u,
      getExprFromNode normalize self node td scan_targets u = .fatal) ∧
    (∀ query_ast scan_ra filter_ra rest,
      query_ast.get "rels" = .ok (.arr (scan_ra :: filter_ra :: rest)) → 2 ≤ rest.length →
      scan_ra.IsObject = true → scan_ra.get "relOp" = .ok (.str "LogicalTableScan") →
      get_col_names scan_ra = .ok self.col_names_ → getTableFromScanNode self scan_ra = .ok td →
      filter_ra.get "condition" = .ok node →
      translate_query normalize query_ast self.cat_ = .fatal) := by
  have hfat : ∀ u, getExprFromNode normalize self node td [] u = .fatal := by
    intro u
    rcases h with h1 | h1
    · exact getExprFromNode_arg_aggregate normalize self td node h1 u
    · exact getExprFromNode_nests_arg_aggregate normalize self td node h1 [] u
  refine ⟨hfat, getExprFromNode_nests_arg_aggregate normalize self td node, ?_⟩
  intro query_ast scan_ra filter_ra rest hrels hlen hsobj hrel hcols htd hcond
  exact translate_query_filter_fatal normalize query_ast self td scan_ra filter_ra node rest hrels
    hlen hsobj hrel hcols htd hcond (hfat [])

end NestedAggregates

/-- The sample aggregate `MIN` over position 0 takes an argument. -/
theorem sample_agg_min_takes_argument : ArgAggregate (sample_agg "MIN" [.int 0]) := by
  refine ⟨by decide, by decide, ⟨"MIN", .kMIN, false, rfl, rfl, rfl, Or.inl (by decide)⟩, ?_, ?_⟩
  · intro t ht
    have ht2 : Res.ok sample_bigint = Res.ok t := ht
    cases ht2
    rw [show read_type_info sample_bigint = .ok ⟨.kBIGINT, false⟩ from rfl]
    intro hc
    cases hc
  · rw [show get_agg_operand_idx (sample_agg "MIN" [.int 0]) = .ok 0 from rfl]
    intro hc
    cases hc

/-- The sample condition `MIN(position 0) > 1` nests an aggregate that takes an
argument. -/
theorem sample_condition_agg_nests :
    NestsArgAggregate sample_normalize sample_adapter sample_td sample_condition_agg :=
  NestsArgAggregate.direct sample_condition_agg ">" [] (sample_agg "MIN" [.int 0]) [.int 1] rfl rfl
    (fun _ hp => by cases hp) sample_agg_min_takes_argument

/-- C20, at a concrete input: the condition `MIN(position 0) > 1` is fatal, and so
is the four-node sample document that has it as its filter condition. -/
theorem nested_aggregate_fatal_witness :
    (∀ u, getExprFromNode sample_normalize sample_adapter sample_condition_agg sample_td [] u =
      .fatal) ∧
    translate_query sample_normalize sample_query_agg_filter sample_catalog = .fatal :=
  ⟨(nested_aggregate_fatal sample_normalize sample_adapter sample_td sample_condition_agg
      (Or.inr sample_condition_agg_nests)).1,
   (nested_aggregate_fatal sample_normalize sample_adapter sample_td sample_condition_agg
      (Or.inr sample_condition_agg_nests)).2.2 sample_query_agg_filter _ _ _ rfl (by decide) rfl
      rfl rfl rfl rfl⟩

/-- The whole plan for the end-to-end example over any scan node that reads as a
table scan with the field names a, b and the table descriptor td. -/
theorem translate_query_sample_scan_eq (normalize : SQLOps → SQLQualifier → Expr → Expr → Expr)
    (cat : Catalog) (td : TableDescriptor) (ca cb : ColumnDescriptor) (scan : Json)
    (hsobj : scan.IsObject = true)
    (hrel : (scan.get "relOp").bind Json.GetString = .ok "LogicalTableScan")
    (hcols : get_col_names scan = .ok ["a", "b"])
    (htd : getTableFromScanNode ⟨cat, ["a", "b"]⟩ scan = .ok td)
    (ha : cat.getMetadataForColumn td.tableId "a" = some ca)
    (hb : cat.getMetadataForColumn td.tableId "b" = some cb) :
    translate_query normalize (.obj [("rels", .arr [scan,
        .obj [("exprs", .arr [sample_col0, sample_col1])],
        .obj [("aggs", .arr [sample_count]), ("group", .arr [.int 0])]])]) cat =
      .ok ⟨⟨[new_target (.ColumnVar ca.columnType td.tableId ca.columnId 0),
              new_target (.ColumnVar cb.columnType td.tableId cb.columnId 0),
              new_target (.AggExpr ⟨.kBIGINT, false⟩ .kCOUNT none false)],
            ⟨[new_target (.ColumnVar ca.columnType td.tableId ca.columnId 0),
              new_target (.ColumnVar cb.columnType td.tableId cb.columnId 0)],
              [], [], td.tableId, set_insert cb.columnId (set_insert ca.columnId [])⟩,
            [.ColumnVar ca.columnType td.tableId ca.columnId 0]⟩,
          SQLStmtType.kSELECT, td.tableId, [], 0, 0⟩ := by
  have h0 := fun S u => getExprFromNode_field normalize cat td ca 0 "a" S u (by decide) rfl ha
  have h1 := fun S u => getExprFromNode_field normalize cat td cb 1 "b" S u (by decide) rfl hb
  have hcount := fun S u => getExprFromNode_sample_agg normalize ⟨cat, ["a", "b"]⟩ td "COUNT" [] S u
  have hrun : collect_target_entries normalize [] [] (.arr [.int 0])
      (.arr [sample_col0, sample_col1]) (.arr [sample_count]) ⟨cat, ["a", "b"]⟩ td [] =
      .ok ([new_target (.ColumnVar ca.columnType td.tableId ca.columnId 0),
            new_target (.ColumnVar cb.columnType td.tableId cb.columnId 0),
            new_target (.AggExpr ⟨.kBIGINT, false⟩ .kCOUNT none false)],
           [new_target (.ColumnVar ca.columnType td.tableId ca.columnId 0),
            new_target (.ColumnVar cb.columnType td.tableId cb.columnId 0)],
           set_insert cb.columnId (set_insert ca.columnId [])) := by
    simp only [collect_target_entries, Res.monad_bind, Res.monad_pure, Json.IsArray,
      CHECK_true, Res.bind_ok, Json.elements, collect_target_entries_proj_loop,
      collect_target_entries_agg_loop, sample_col0, sample_col1, sample_count, h0, h1, hcount]
    rfl
  rw [translate_query_three_nodes normalize
    (.obj [("rels", .arr [scan, .obj [("exprs", .arr [sample_col0, sample_col1])],
      .obj [("aggs", .arr [sample_count]), ("group", .arr [.int 0])]])]) cat scan
    (.obj [("exprs", .arr [sample_col0, sample_col1])])
    (.obj [("aggs", .arr [sample_count]), ("group", .arr [.int 0])]) rfl]
  have hproj : (Json.obj [("exprs", .arr [sample_col0, sample_col1])]).get "exprs" =
      .ok (.arr [sample_col0, sample_col1]) := rfl
  have haggs : (Json.obj [("aggs", .arr [sample_count]), ("group", .arr [.int 0])]).get "aggs" =
      .ok (.arr [sample_count]) := rfl
  have hgroup : (Json.obj [("aggs", .arr [sample_count]), ("group", .arr [.int 0])]).get "group" =
      .ok (.arr [.int 0]) := rfl
  obtain ⟨rel_node, hrn, hrs⟩ := Res.bind_eq_ok.1 hrel
  rw [hsobj, hrn, hcols, hproj, haggs, hgroup]
  simp only [CHECK_true, Res.bind_ok, hrs, decide_True, htd, Json.IsArray, hrun]
  rfl

/-- C15, refuted as stated: the catalog has no table named `t`, U+0000, `x`, the
string at `table[2]` of the scan node, yet `translate_query` returns a plan, and
the Scan carries the id 7 of the table t: the name is read as a C string. -/
theorem translate_query_table_name_read_to_nul :
    sample_scan_cut.get "table" = .ok (.arr [.str "cat", .str "sch", .str "t\x00x"]) ∧
    sample_catalog.getMetadataForTable "t\x00x" = none ∧
    sample_catalog.getMetadataForTable "t" = some ⟨7⟩ ∧
    ∃ plan, translate_query sample_normalize sample_query_cut sample_catalog = .ok plan ∧
      plan.plan.child.table_id = 7 ∧ plan.result_table_id = 7 :=
  ⟨rfl, rfl, rfl, _,
    translate_query_sample_scan_eq sample_normalize sample_catalog ⟨7⟩
      ⟨1, ⟨SQLTypes.kBIGINT, false⟩⟩ ⟨2, ⟨SQLTypes.kINT, false⟩⟩ sample_scan_cut rfl rfl rfl rfl
      rfl rfl, rfl, rfl⟩

end Calcite
